import Mathlib

/-!
# go-diagram: extraction, edge resolution and round-trip synthesis

A shallow embedding of `parse/parse.go` and of the model-handling part of
`server.go`, followed by theorems about the embedded functions.

Conventions of the embedding.

* The Go syntax tree (`go/ast`) is an inductive type in namespace `ast`; only
  the node kinds and fields that the program inspects are kept. Of a node that
  is not kept, the tree holds what `ast.Inspect` looks for in it: the struct
  type specs met below the node.
* Go maps are association lists. A `range` over a map that the program
  receives as input visits the list in its order, so a statement proved for
  every list covers every iteration order. A `range` over a map the program
  builds itself goes through a `MapOrder`, an arbitrary permutation.
* Pointers are replaced by values; where the program writes through a pointer
  the written object is threaded through explicitly.
* A Go call can return normally, return an error, or panic (`Result`).
* The library functions `format.Node`, `parser.ParseExpr` and `fmt.Sprint` are
  parameters (`fmt`, `render`, `parseExpr`, `sprintOld`, `sprintNew`). Printing a
  parsed or synthesized tree and writing a file are taken to succeed; the program
  panics when they fail.
-/

/-- Outcome of a Go call: a normal return, a returned non-nil `error`, or a panic. -/
inductive Result (ε α : Type) where
  | ok (val : α)
  | error (err : ε)
  | panic (msg : String)
  deriving Repr

/-- Lookup `m[k]` in a Go map held as an association list. -/
def mapGet {α : Type} (m : List (String × α)) (k : String) : Option α :=
  match m with
  | [] => none
  | (k', v) :: rest => if k' = k then some v else mapGet rest k

/-- Assignment `m[k] = v` in a Go map held as an association list. -/
def mapSet {α : Type} (m : List (String × α)) (k : String) (v : α) : List (String × α) :=
  match m with
  | [] => [(k, v)]
  | (k', v') :: rest => if k' = k then (k, v) :: rest else (k', v') :: mapSet rest k v

/-- Iteration order of a `range` over a Go map: some permutation of its entries. -/
structure MapOrder where
  iter : {α : Type} → List (String × α) → List (String × α)
  perm : ∀ {α : Type} (m : List (String × α)), List.Perm (iter m) m

namespace ast

mutual
/-- Expression nodes of `go/ast` (type expressions and the few others the program can meet).
`Other` is an expression node of any other kind (a call, a function literal, a basic
literal, ...): the program never looks into such a node except through `ast.Inspect`, which
looks for struct type specs, so the node keeps its kind (the name of its node type, such as
`CallExpr` or `FuncLit`) and, in `Inner`, the struct type specs (name and field list) that
a traversal of the node meets, in traversal order. -/
inductive Expr where
  | Ident (Name : String)
  | SelectorExpr (X : Expr) (Sel : String)
  | StarExpr (X : Expr)
  | ArrayType (Len : Option Expr) (Elt : Expr)
  | MapType (Key : Expr) (Value : Expr)
  | StructType (Fields : List Field)
  | InterfaceType (Methods : List Field)
  | FuncType (Params : List Field) (Results : List Field)
  | ChanType (Dir : Nat) (Value : Expr)
  | IndexExpr (X : Expr) (Index : Expr)
  | ParenExpr (X : Expr)
  | Ellipsis (Elt : Expr)
  | Other (kind : String) (Inner : List (String × List Field))
/-- Node `ast.Field`: the names declared together and their common type. -/
inductive Field where
  | mk (Names : List String) (Typ : Expr)
end

/-- Names of a field declaration (`field.Names`). -/
def Field.Names : Field → List String
  | .mk names _ => names

/-- Type expression of a field declaration (`field.Type`). -/
def Field.Typ : Field → Expr
  | .mk _ t => t

/-- Signature node `ast.FuncType` of a function declaration; a `nil` field list is `none`. -/
structure FuncType where
  Params : Option (List Field)
  Results : Option (List Field)
  TypeParams : Option (List Field) := none

/-- Keyword of a general declaration (`GenDecl.Tok`). -/
inductive Token where
  | IMPORT
  | CONST
  | TYPE
  | VAR
  deriving DecidableEq, Repr

/-- Nodes `ast.Spec`. `TypeParams` holds the fields of the type parameter list of a type
spec (empty when there is none), `Values` the initializers of a `var` or `const` spec. -/
inductive Spec where
  | ImportSpec (Path : String)
  | ValueSpec (Names : List String) (Typ : Option Expr) (Values : List Expr)
  | TypeSpec (Name : String) (TypeParams : List Field) (Typ : Expr)

/-- Node `ast.GenDecl`. -/
structure GenDecl where
  Tok : Token
  Specs : List Spec

/-- Node `ast.FuncDecl`; the body is kept as text, `none` for a declaration without body.
`LocalTypes` lists the specs of the declarations that a traversal of the body meets, in
traversal order (a spec nested in the type or in an initializer of another one is reached
through that one): they are the only nodes of a body that the program looks at (through
`ast.Inspect`). -/
structure FuncDecl where
  Recv : Option (List Field)
  Name : String
  Typ : FuncType
  Body : Option String
  LocalTypes : List Spec := []

/-- Nodes `ast.Decl`. -/
inductive Decl where
  | GenDecl (d : GenDecl)
  | FuncDecl (d : FuncDecl)
  | BadDecl

/-- Node `ast.File`: package clause name and top-level declarations. -/
structure File where
  Name : String
  Decls : List Decl

/-- Node `ast.Package`: the files of one package of one directory, keyed by file name. -/
structure Package where
  Name : String
  Files : List (String × File)

end ast

namespace parse

/-- Go type `Type`. -/
structure TypeRef where
  Literal : String
  Structs : List String
  deriving DecidableEq, Repr

structure Field where
  Name : String
  Typ : TypeRef
  deriving DecidableEq, Repr

structure Method where
  Name : String
  ReturnType : List TypeRef
  deriving DecidableEq, Repr

structure Struct where
  Name : String
  Fields : List Field
  Methods : List Method
  deriving DecidableEq, Repr

structure File where
  Name : String
  Structs : List Struct
  deriving DecidableEq, Repr

structure Package where
  Name : String
  Files : List File
  deriving DecidableEq, Repr

structure Parameter where
  Name : String
  Typ : TypeRef
  deriving DecidableEq, Repr

structure Function where
  Name : String
  Package : String
  File : String
  Parameters : List Parameter
  ReturnType : List TypeRef
  deriving DecidableEq, Repr

structure Node where
  FieldTypeName : String
  StructName : String
  PackageName : String
  FileName : String
  deriving DecidableEq, Repr

/-- Go type `Edge`. Both ends are pointers in Go; every `Node` the program creates is
referenced by exactly one edge, so the ends are held by value. -/
structure Edge where
  To : Node
  From : Node
  deriving DecidableEq, Repr

structure ClientStruct where
  Packages : List Package
  Edges : List Edge
  GlobalFunctions : List Function
  deriving DecidableEq, Repr

/-- Function `isPrimitive`: membership in the fixed table of predeclared type names. -/
def isPrimitive (name : String) : Bool :=
  decide (name ∈ ["bool", "byte", "complex64", "complex128", "error", "float32", "float64",
    "int", "int8", "int16", "int32", "int64", "rune", "string",
    "uint", "uint8", "uint16", "uint32", "uint64", "uintptr"])

mutual
/-- Closure `extractType` of `GetTypes`: the names and nodes one call appends, in order. -/
def extractType (packageName : String) : ast.Expr → List String × List Node
  | .Ident name =>
    if isPrimitive name then ([], [])
    else ([name], [{ FieldTypeName := "", StructName := name, PackageName := packageName, FileName := "" }])
  | .SelectorExpr x sel =>
    match x with
    | .Ident identName =>
      ([identName ++ "." ++ sel],
        [{ FieldTypeName := "", StructName := sel, PackageName := identName, FileName := "" }])
    | _ => ([], [])
  | .StarExpr x => extractType packageName x
  | .ArrayType _ elt => extractType packageName elt
  | .MapType key value =>
    ((extractType packageName key).1 ++ (extractType packageName value).1,
      (extractType packageName key).2 ++ (extractType packageName value).2)
  | .StructType fields => extractTypeFields packageName fields
  | .InterfaceType _ => (["interface\x7b\x7d"], [])
  | .FuncType _ _ => (["func"], [])
  | .ChanType _ value =>
    ((extractType packageName value).1 ++ ["chan"], (extractType packageName value).2)
  | .IndexExpr _ _ => ([], [])
  | .ParenExpr _ => ([], [])
  | .Ellipsis _ => ([], [])
  | .Other _ _ => ([], [])
/-- Loop of the `*ast.StructType` case: one call of `extractType` per field declaration. -/
def extractTypeFields (packageName : String) : List ast.Field → List String × List Node
  | [] => ([], [])
  | (.mk _ t) :: rest =>
    ((extractType packageName t).1 ++ (extractTypeFields packageName rest).1,
      (extractType packageName t).2 ++ (extractTypeFields packageName rest).2)
end

/-- Function `GetTypes`. -/
def GetTypes (node : ast.Expr) (packageName : String) : List String × List Node :=
  extractType packageName node

/-- Function `parseTypeToType`; `fmt` is `format.Node` on an expression, taken to
succeed. -/
def parseTypeToType (fmt : ast.Expr → String) (expr : ast.Expr) : TypeRef :=
  { Literal := fmt expr, Structs := [] }

/-- Function `parseParameters`. -/
def parseParameters (fmt : ast.Expr → String) (fieldList : Option (List ast.Field)) :
    List Parameter :=
  match fieldList with
  | none => []
  | some list =>
    list.flatMap (fun field =>
      field.Names.map (fun name => { Name := name, Typ := parseTypeToType fmt field.Typ }))

/-- Function `parseReturnTypes`. -/
def parseReturnTypes (fmt : ast.Expr → String) (fieldList : Option (List ast.Field)) :
    List TypeRef :=
  match fieldList with
  | none => []
  | some list => list.map (fun field => parseTypeToType fmt field.Typ)

/-- Local variables `structs`, `edges`, `globalFunctions` of `GetStructsFile`. -/
structure Extraction where
  structs : List Struct
  edges : List Edge
  globalFunctions : List Function
  deriving DecidableEq, Repr

/-- The `Field` values one struct type contributes (`GetStructsFile`, lines 91-102):
one per declared name, in order. -/
def structFields (fmt : ast.Expr → String) (packageName : String)
    (list : List ast.Field) : List Field :=
  list.flatMap (fun field =>
    field.Names.map (fun name =>
      { Name := name,
        Typ := { Literal := fmt field.Typ, Structs := (GetTypes field.Typ packageName).1 } }))

/-- The draft edges one struct type contributes (`GetStructsFile`, lines 103-113). -/
def structEdges (fname packageName structName : String) (list : List ast.Field) : List Edge :=
  list.flatMap (fun field =>
    field.Names.flatMap (fun name =>
      (GetTypes field.Typ packageName).2.map (fun toNode =>
        { From := { FieldTypeName := name, StructName := structName,
                    FileName := fname, PackageName := packageName },
          To := toNode })))

/-- Loop over `decl.Specs` of a `type` declaration (`GetStructsFile`, lines 88-119). -/
def specsLoop (fmt : ast.Expr → String) (fname packageName : String) :
    List ast.Spec → Extraction → Extraction
  | [], acc => acc
  | (.TypeSpec name _ (.StructType fields)) :: rest, acc =>
    specsLoop fmt fname packageName rest
      { acc with
        structs := acc.structs ++
          [{ Name := name, Fields := structFields fmt packageName fields, Methods := [] }],
        edges := acc.edges ++ structEdges fname packageName name fields }
  | _ :: rest, acc => specsLoop fmt fname packageName rest acc

/-- Receiver base name (`GetStructsFile`, lines 124-130); a failed type assertion panics. -/
def receiverName (recvType : ast.Expr) : Result String String :=
  match recvType with
  | .StarExpr (.Ident name) => .ok name
  | .StarExpr _ => .panic "interface conversion: ast.Expr is not *ast.Ident"
  | .Ident name => .ok name
  | _ => .panic "interface conversion: ast.Expr is not *ast.Ident"

/-- Loop `for i, s := range structs` with `break` (`GetStructsFile`, lines 138-143). -/
def attachMethod (structName : String) (method : Method) : List Struct → List Struct
  | [] => []
  | s :: rest =>
    if s.Name = structName then { s with Methods := s.Methods ++ [method] } :: rest
    else s :: attachMethod structName method rest

/-- Body of the loop over `f.Decls` in `GetStructsFile` for one declaration. -/
def declStep (fmt : ast.Expr → String) (fname packageName : String) (acc : Extraction)
    (d : ast.Decl) : Result String Extraction :=
  match d with
  | .GenDecl decl =>
    if decl.Tok = ast.Token.TYPE then .ok (specsLoop fmt fname packageName decl.Specs acc)
    else .ok acc
  | .FuncDecl decl =>
    match decl.Recv with
    | some (recv :: _) =>
      match receiverName recv.Typ with
      | .ok structName =>
        .ok { acc with
              structs := attachMethod structName
                { Name := decl.Name, ReturnType := parseReturnTypes fmt decl.Typ.Results }
                acc.structs }
      | .error e => .error e
      | .panic msg => .panic msg
    | _ =>
      .ok { acc with
            globalFunctions := acc.globalFunctions ++
              [{ Name := decl.Name, Package := packageName, File := fname,
                 Parameters := parseParameters fmt decl.Typ.Params,
                 ReturnType := parseReturnTypes fmt decl.Typ.Results }] }
  | .BadDecl => .ok acc

/-- Loop over `f.Decls` in `GetStructsFile`. -/
def declsLoop (fmt : ast.Expr → String) (fname packageName : String) :
    List ast.Decl → Extraction → Result String Extraction
  | [], acc => .ok acc
  | d :: rest, acc =>
    match declStep fmt fname packageName acc d with
    | .ok acc' => declsLoop fmt fname packageName rest acc'
    | .error e => .error e
    | .panic msg => .panic msg

/-- Function `GetStructsFile`. -/
def GetStructsFile (fmt : ast.Expr → String) (f : ast.File) (fname packageName : String) :
    Result String (File × List Edge × List Function) :=
  match declsLoop fmt fname packageName f.Decls
      { structs := [], edges := [], globalFunctions := [] } with
  | .ok acc => .ok ({ Name := fname, Structs := acc.structs }, acc.edges, acc.globalFunctions)
  | .error e => .error e
  | .panic msg => .panic msg

/-- Function `GetFileName`; the scan over the structs of one file. -/
def fileDefines (structName : String) (file : File) : Bool :=
  file.Structs.any (fun st => st.Name == structName)

/-- Function `GetFileName`; the scan over the files of one matching package. -/
def findInFiles (structName : String) : List File → Option String
  | [] => none
  | file :: rest =>
    if fileDefines structName file then some file.Name else findInFiles structName rest

/-- Function `GetFileName`; `none` is the fall-through to the final `return ""`. -/
def findInPackages (toNode : Node) : List Package → Option String
  | [] => none
  | pkg :: rest =>
    if pkg.Name = toNode.PackageName then
      match findInFiles toNode.StructName pkg.Files with
      | some name => some name
      | none => findInPackages toNode rest
    else findInPackages toNode rest

/-- Function `GetFileName`. -/
def GetFileName (toNode : Node) (pkgs : List Package) : String :=
  match findInPackages toNode pkgs with
  | some name => name
  | none => ""

/-- Accumulators `pkgs`, `edges`, `globalFunctions` of the aggregation loops. -/
structure Gathered where
  packages : List Package
  edges : List Edge
  globalFunctions : List Function
  deriving DecidableEq, Repr

/-- Loop over `packageval.Files` in `getPackagesEdgesDirName`; `files` is the list local to
the package, `acc` carries the edges and functions of the whole call. -/
def packageFilesLoop (fmt : ast.Expr → String) (packagename : String) :
    List (String × ast.File) → List File → Gathered → Result String (List File × Gathered)
  | [], files, acc => .ok (files, acc)
  | (fname, f) :: rest, files, acc =>
    match GetStructsFile fmt f fname packagename with
    | .ok (newfile, newedges, newFunctions) =>
      packageFilesLoop fmt packagename rest (files ++ [newfile])
        { acc with edges := acc.edges ++ newedges,
                   globalFunctions := acc.globalFunctions ++ newFunctions }
    | .error e => .error e
    | .panic msg => .panic msg

/-- Loop over `packages` in `getPackagesEdgesDirName`. -/
def packagesLoop (fmt : ast.Expr → String) :
    List (String × ast.Package) → Gathered → Result String Gathered
  | [], acc => .ok acc
  | (packagename, packageval) :: rest, acc =>
    match packageFilesLoop fmt packagename packageval.Files [] acc with
    | .ok (files, acc') =>
      packagesLoop fmt rest
        { acc' with packages := acc'.packages ++ [{ Name := packagename, Files := files }] }
    | .error e => .error e
    | .panic msg => .panic msg

/-- Function `getPackagesEdgesDirName`; its `error` result is always `nil`. -/
def getPackagesEdgesDirName (fmt : ast.Expr → String) (packages : List (String × ast.Package)) :
    Result String Gathered :=
  packagesLoop fmt packages { packages := [], edges := [], globalFunctions := [] }

/-- Loop `for k, v := range dirPackages { pkgmap[k] = v }`. -/
def mergePkgmap (pkgmap : List (String × ast.Package)) :
    List (String × ast.Package) → List (String × ast.Package)
  | [] => pkgmap
  | (k, v) :: rest => mergePkgmap (mapSet pkgmap k v) rest

/-- Loop over `directories` in `GetStructsDirName` (lines 251-268). Each element of the
argument is what `parseDirectory` returns for one directory of the walk, in walk order. -/
def directoriesLoop (fmt : ast.Expr → String) :
    List (Except String (List (String × ast.Package))) →
    Gathered → List (String × ast.Package) →
    Result String (Gathered × List (String × ast.Package))
  | [], acc, pkgmap => .ok (acc, pkgmap)
  | (.error err) :: _, _, _ => .error err
  | (.ok dirPackages) :: rest, acc, pkgmap =>
    match getPackagesEdgesDirName fmt dirPackages with
    | .ok new =>
      directoriesLoop fmt rest
        { packages := acc.packages ++ new.packages,
          edges := acc.edges ++ new.edges,
          globalFunctions := acc.globalFunctions ++ new.globalFunctions }
        (mergePkgmap pkgmap dirPackages)
    | .error e => .error e
    | .panic msg => .panic msg

/-- Aggregation part of `GetStructsDirName` (lines 245-268): packages, draft edges,
functions and the registry of parsed packages. -/
def aggregate (fmt : ast.Expr → String)
    (dirs : List (Except String (List (String × ast.Package)))) :
    Result String (Gathered × List (String × ast.Package)) :=
  directoriesLoop fmt dirs { packages := [], edges := [], globalFunctions := [] } []

/-- Edge resolution loop of `GetStructsDirName` (lines 271-277). -/
def resolveEdges (packages : List Package) : List Edge → List Edge
  | [] => []
  | edge :: rest =>
    if GetFileName edge.To packages ≠ "" then
      { edge with To := { edge.To with FileName := GetFileName edge.To packages } } ::
        resolveEdges packages rest
    else resolveEdges packages rest

/-- Function `GetStructsDirName`, from the results of `parseDirectory` on the directories
found by the walk. -/
def GetStructsDirName (fmt : ast.Expr → String)
    (dirs : List (Except String (List (String × ast.Package)))) :
    Result String (ClientStruct × List (String × ast.Package)) :=
  match aggregate fmt dirs with
  | .ok (acc, pkgmap) =>
    .ok ({ Packages := acc.packages, Edges := resolveEdges acc.packages acc.edges,
           GlobalFunctions := acc.globalFunctions }, pkgmap)
  | .error e => .error e
  | .panic msg => .panic msg

/-- Error returned by the synthesizer: the wrapped parser error of a field type literal
(`"error parsing field type: %w"`) or of a return type literal
(`"error parsing return type: %w"`). -/
inductive SynthesisError where
  | fieldType (err : String)
  | returnType (err : String)
  deriving DecidableEq, Repr

/-- Function `parseType`; `parseExpr` is `parser.ParseExpr`. -/
def parseType (parseExpr : String → Except String ast.Expr) (typeStr : String) :
    Except String ast.Expr :=
  match parseExpr typeStr with
  | .error err => .error err
  | .ok expr => .ok expr

/-- Loop over `clientstruct.Fields` in `clientFileToDecls` (lines 463-478): the field list
of the synthesized struct type, or the first error. -/
def fieldsLoop (parseExpr : String → Except String ast.Expr) :
    List Field → Except SynthesisError (List ast.Field)
  | [] => .ok []
  | clientfield :: rest =>
    match parseType parseExpr clientfield.Typ.Literal with
    | .error err => .error (.fieldType err)
    | .ok fieldType =>
      match fieldsLoop parseExpr rest with
      | .error e => .error e
      | .ok fields => .ok (.mk [clientfield.Name] fieldType :: fields)

/-- Loop over `clientmethod.ReturnType` in `clientFileToDecls` (lines 501-507). -/
def returnsLoop (parseExpr : String → Except String ast.Expr) :
    List TypeRef → Except SynthesisError (List ast.Field)
  | [] => .ok []
  | returnType :: rest =>
    match parseType parseExpr returnType.Literal with
    | .error err => .error (.returnType err)
    | .ok retType =>
      match returnsLoop parseExpr rest with
      | .error e => .error e
      | .ok results => .ok (.mk [] retType :: results)

/-- The method declaration built at lines 484-498 once its result list is known. -/
def methodDecl (structName methodName : String) (results : List ast.Field) : ast.Decl :=
  .FuncDecl { Recv := some [.mk ["s"] (.StarExpr (.Ident structName))],
              Name := methodName,
              Typ := { Params := some [], Results := some results },
              Body := none }

/-- Loop over `clientstruct.Methods` in `clientFileToDecls` (lines 483-510). -/
def methodsLoop (parseExpr : String → Except String ast.Expr) (structName : String) :
    List Method → Except SynthesisError (List ast.Decl)
  | [] => .ok []
  | clientmethod :: rest =>
    match returnsLoop parseExpr clientmethod.ReturnType with
    | .error e => .error e
    | .ok results =>
      match methodsLoop parseExpr structName rest with
      | .error e => .error e
      | .ok decls => .ok (methodDecl structName clientmethod.Name results :: decls)

/-- The struct declaration built at lines 451-461 once its field list is known. -/
def structDecl (structName : String) (fields : List ast.Field) : ast.Decl :=
  .GenDecl { Tok := .TYPE, Specs := [.TypeSpec structName [] (.StructType fields)] }

/-- Loop over `clientfile.Structs` in `clientFileToDecls`. -/
def structsLoop (parseExpr : String → Except String ast.Expr) :
    List Struct → Except SynthesisError (List ast.Decl)
  | [] => .ok []
  | clientstruct :: rest =>
    match fieldsLoop parseExpr clientstruct.Fields with
    | .error e => .error e
    | .ok fields =>
      match methodsLoop parseExpr clientstruct.Name clientstruct.Methods with
      | .error e => .error e
      | .ok methods =>
        match structsLoop parseExpr rest with
        | .error e => .error e
        | .ok decls => .ok (structDecl clientstruct.Name fields :: (methods ++ decls))

/-- Function `clientFileToDecls`: the pair `(decls, err)` it returns, `nil` being `[]`
and a `nil` error `none`. -/
def clientFileToDecls (parseExpr : String → Except String ast.Expr) (clientfile : File) :
    List ast.Decl × Option SynthesisError :=
  match structsLoop parseExpr clientfile.Structs with
  | .ok decls => (decls, none)
  | .error e => ([], some e)

/-- The list `newSpecs` that `removeStructDecls` builds for a `type` declaration
(lines 530-539): the specs that are not struct type specs. -/
def keptSpecs : List ast.Spec → List ast.Spec
  | [] => []
  | (.TypeSpec _ _ (.StructType _)) :: rest => keptSpecs rest
  | spec :: rest => spec :: keptSpecs rest

/-- One iteration of the loop of `removeStructDecls`: the state of the declaration object
after the iteration (a `GenDecl` is written through its pointer at line 541) and whether
the declaration is appended to `newDecls`. -/
def visitDecl (decl : ast.Decl) : ast.Decl × Bool :=
  match decl with
  | .GenDecl d =>
    if d.Tok = ast.Token.TYPE then
      if (keptSpecs d.Specs).length > 0 then (.GenDecl { d with Specs := keptSpecs d.Specs }, true)
      else (decl, false)
    else (decl, true)
  | .FuncDecl _ => (decl, true)
  | .BadDecl => (decl, true)

/-- Function `removeStructDecls`. -/
def removeStructDecls : List ast.Decl → List ast.Decl
  | [] => []
  | decl :: rest =>
    if (visitDecl decl).2 then (visitDecl decl).1 :: removeStructDecls rest
    else removeStructDecls rest

/-- Function `clientFileToAST`. The argument `f` is a pointer (`none` is `nil`). The first
component of the result is the file object `f` points to when the call ends, the second
is the outcome; on success the returned pointer is `f` itself. -/
def clientFileToAST (parseExpr : String → Except String ast.Expr) (clientfile : File)
    (f : Option ast.File) : Option ast.File × Result SynthesisError Unit :=
  match f with
  | none => (none, .panic "invalid memory address or nil pointer dereference")
  | some f =>
    -- `newDecls` holds the pointer `f.Decls[0]`; the object is read after
    -- `removeStructDecls` visited it
    let newDecls : List ast.Decl :=
      match f.Decls with
      | [] => []
      | first :: _ => [(visitDecl first).1]
    let stripped := removeStructDecls f.Decls
    match clientFileToDecls parseExpr clientfile with
    | (_, some err) => (some { f with Decls := stripped }, .error err)
    | (newStructs, none) =>
      let newDecls := newDecls ++ newStructs
      let newDecls :=
        if stripped.length > 0 then newDecls ++ stripped.drop 1 else newDecls ++ stripped
      (some { f with Decls := newDecls }, .ok ())

/-- The state `WriteClientPackages` works on: the registry of parsed packages (its
argument `pkgs`, whose files it updates in place) and the content of the files on disk. -/
structure World where
  pkgs : List (String × ast.Package)
  disk : String → Option String

/-- Function `writeFileAST`; `render` is `format.Node` on a file. The file is fully
overwritten. -/
def writeFileAST (render : ast.File → String) (filepath : String) (f : ast.File)
    (disk : String → Option String) : String → Option String :=
  fun path => if path = filepath then some (render f) else disk path

/-- Body of the inner loop of `WriteClientPackages` (lines 392-405) for one file. -/
def writeClientFile (parseExpr : String → Except String ast.Expr) (render : ast.File → String)
    (packagename : String) (clientfile : File) (w : World) :
    World × Result SynthesisError Unit :=
  match mapGet w.pkgs packagename with
  | none =>
    -- `packageast` is nil: `packageast.Files` dereferences it
    (w, .panic "invalid memory address or nil pointer dereference")
  | some packageast =>
    match clientFileToAST parseExpr clientfile (mapGet packageast.Files clientfile.Name) with
    | (none, outcome) => (w, outcome)
    | (some f, outcome) =>
      let pkgs := mapSet w.pkgs packagename
        { packageast with Files := mapSet packageast.Files clientfile.Name f }
      match outcome with
      | .ok _ => ({ pkgs := pkgs, disk := writeFileAST render clientfile.Name f w.disk }, .ok ())
      | .error err => ({ w with pkgs := pkgs }, .error err)
      | .panic msg => ({ w with pkgs := pkgs }, .panic msg)

/-- Inner loop of `WriteClientPackages`, over `clientpackage.Files`. -/
def clientFilesLoop (parseExpr : String → Except String ast.Expr) (render : ast.File → String)
    (packagename : String) : List File → World → World × Result SynthesisError Unit
  | [], w => (w, .ok ())
  | clientfile :: rest, w =>
    match writeClientFile parseExpr render packagename clientfile w with
    | (w', .ok _) => clientFilesLoop parseExpr render packagename rest w'
    | (w', .error err) => (w', .error err)
    | (w', .panic msg) => (w', .panic msg)

/-- Outer loop of `WriteClientPackages`, over `clientpackages`. -/
def clientPackagesLoop (parseExpr : String → Except String ast.Expr)
    (render : ast.File → String) : List Package → World → World × Result SynthesisError Unit
  | [], w => (w, .ok ())
  | clientpackage :: rest, w =>
    match clientFilesLoop parseExpr render clientpackage.Name clientpackage.Files w with
    | (w', .ok _) => clientPackagesLoop parseExpr render rest w'
    | (w', .error err) => (w', .error err)
    | (w', .panic msg) => (w', .panic msg)

/-- Function `WriteClientPackages`: the final state and the outcome. -/
def WriteClientPackages (parseExpr : String → Except String ast.Expr)
    (render : ast.File → String) (w : World) (clientpackages : List Package) :
    World × Result SynthesisError Unit :=
  clientPackagesLoop parseExpr render clientpackages w

/-- The type literal `literal` is accepted by the type-expression parser. -/
def Parses (parseExpr : String → Except String ast.Expr) (literal : String) : Prop :=
  ∃ expr, parseExpr literal = .ok expr

/-- Every field type literal and every method return type literal of every Struct of the
edited File is accepted by the type-expression parser. -/
def LiteralsParse (parseExpr : String → Except String ast.Expr) (clientfile : File) : Prop :=
  ∀ st ∈ clientfile.Structs,
    (∀ fld ∈ st.Fields, Parses parseExpr fld.Typ.Literal) ∧
    (∀ m ∈ st.Methods, ∀ t ∈ m.ReturnType, Parses parseExpr t.Literal)

/-- The struct type specs of a spec list: name and field list of every `TypeSpec` whose
type is a struct type, in order. -/
def structSpecsOfSpecs : List ast.Spec → List (String × List ast.Field)
  | [] => []
  | (.TypeSpec name _ (.StructType fields)) :: rest => (name, fields) :: structSpecsOfSpecs rest
  | _ :: rest => structSpecsOfSpecs rest

/-- The struct type declarations of a declaration list: the struct type specs of its
`type` declarations, in order. -/
def structSpecs : List ast.Decl → List (String × List ast.Field)
  | [] => []
  | (.GenDecl d) :: rest =>
    (if d.Tok = ast.Token.TYPE then structSpecsOfSpecs d.Specs else []) ++ structSpecs rest
  | _ :: rest => structSpecs rest

/-- The synthesized field `fld` renders the model field `cf`: it declares the single name
`cf.Name` and its type is the parse of `cf.Typ.Literal`. -/
def FieldFrom (parseExpr : String → Except String ast.Expr) (fld : ast.Field) (cf : Field) :
    Prop :=
  fld.Names = [cf.Name] ∧ parseExpr cf.Typ.Literal = .ok fld.Typ

/-- The struct type spec `spec` renders the model struct `st`: same name, one field per
Field, in order. -/
def StructFrom (parseExpr : String → Except String ast.Expr)
    (spec : String × List ast.Field) (st : Struct) : Prop :=
  spec.1 = st.Name ∧ List.Forall₂ (FieldFrom parseExpr) spec.2 st.Fields

/-- A package named `packageName` has a file that declares a struct named `structName`. -/
def Defines (packages : List Package) (packageName structName : String) : Prop :=
  ∃ pkg ∈ packages, pkg.Name = packageName ∧
    ∃ file ∈ pkg.Files, ∃ st ∈ file.Structs, st.Name = structName

/-- The file named `fileName` belongs to a package named `packageName` and declares a
struct named `structName`. -/
def DefinedInFile (packages : List Package) (packageName structName fileName : String) : Prop :=
  ∃ pkg ∈ packages, pkg.Name = packageName ∧
    ∃ file ∈ pkg.Files, file.Name = fileName ∧ ∃ st ∈ file.Structs, st.Name = structName

instance (packages : List Package) (packageName structName : String) :
    Decidable (Defines packages packageName structName) := by
  unfold Defines; infer_instance

instance (packages : List Package) (packageName structName fileName : String) :
    Decidable (DefinedInFile packages packageName structName fileName) := by
  unfold DefinedInFile; infer_instance

/-- The Model edges of a successful run of `GetStructsDirName` are `edges`. -/
def YieldsEdges (fmt : ast.Expr → String)
    (dirs : List (Except String (List (String × ast.Package)))) (edges : List Edge) : Prop :=
  ∃ cs pkgmap, GetStructsDirName fmt dirs = .ok (cs, pkgmap) ∧ cs.Edges = edges

/-- Declaration `type A struct { B *B }`. -/
def declA : ast.Decl :=
  .GenDecl { Tok := .TYPE,
             Specs := [.TypeSpec "A" [] (.StructType [.mk ["B"] (.StarExpr (.Ident "B"))])] }

/-- Declaration `type B struct{}`. -/
def declB : ast.Decl :=
  .GenDecl { Tok := .TYPE, Specs := [.TypeSpec "B" [] (.StructType [])] }

/-- Grouped declaration `type ( A struct { B *B }; B struct{} )`. -/
def declAB : ast.Decl :=
  .GenDecl { Tok := .TYPE,
             Specs := [.TypeSpec "A" [] (.StructType [.mk ["B"] (.StarExpr (.Ident "B"))]),
                       .TypeSpec "B" [] (.StructType [])] }

/-- Declaration `type A struct { x otherpkg.Thing }`. -/
def declUsesOther : ast.Decl :=
  .GenDecl { Tok := .TYPE,
             Specs := [.TypeSpec "A" []
               (.StructType [.mk ["x"] (.SelectorExpr (.Ident "otherpkg") "Thing")])] }

/-- A scanned tree with a single directory holding a single package `p`. -/
def singlePackage (p : String) (files : List (String × ast.File)) :
    List (Except String (List (String × ast.Package))) :=
  [.ok [(p, { Name := p, Files := files })]]

/-- The edge `A.B → B` of package `p`, from file `fa` to file `fb`. -/
def edgeAB (p fa fb : String) : Edge :=
  { From := { FieldTypeName := "B", StructName := "A", PackageName := p, FileName := fa },
    To := { FieldTypeName := "", StructName := "B", PackageName := p, FileName := fb } }

/-- The files of a submission in the order `WriteClientPackages` processes them, each
with the name of its package. -/
def batchFiles (clientpackages : List Package) : List (String × File) :=
  clientpackages.flatMap (fun clientpackage =>
    clientpackage.Files.map (fun clientfile => (clientpackage.Name, clientfile)))

/-- The parsed file the registry holds under a package name and a file name
(`pkgs[packagename].Files[name]`), if any. -/
def registeredFile (pkgs : List (String × ast.Package)) (packagename name : String) :
    Option ast.File :=
  match mapGet pkgs packagename with
  | none => none
  | some packageast => mapGet packageast.Files name

/-- The two nested loops of `WriteClientPackages` run as one loop over `batchFiles`. -/
def batchLoop (parseExpr : String → Except String ast.Expr) (render : ast.File → String) :
    List (String × File) → World → World × Result SynthesisError Unit
  | [], w => (w, .ok ())
  | (packagename, clientfile) :: rest, w =>
    match writeClientFile parseExpr render packagename clientfile w with
    | (w', .ok _) => batchLoop parseExpr render rest w'
    | (w', .error err) => (w', .error err)
    | (w', .panic msg) => (w', .panic msg)

/-- A spec that declares a struct type. -/
def isStructSpec : ast.Spec → Bool
  | .TypeSpec _ _ (.StructType _) => true
  | _ => false

/-- The non-struct part of a declaration: the declaration itself when it is not a `type`
declaration (import block, function, method, `var`, `const`); for a `type` declaration,
the declaration with its struct type specs taken out, and `none` when nothing is left
(the declaration declares struct types only). -/
def nonStructPart : ast.Decl → Option ast.Decl
  | .GenDecl d =>
    if d.Tok = ast.Token.TYPE then
      if d.Specs.all isStructSpec then none
      else some (.GenDecl { d with Specs := d.Specs.filter (fun spec => !isStructSpec spec) })
    else some (.GenDecl d)
  | .FuncDecl d => some (.FuncDecl d)
  | .BadDecl => some .BadDecl

/-- The non-struct declarations of a declaration list, in order. -/
def nonStructDecls (decls : List ast.Decl) : List ast.Decl :=
  decls.filterMap nonStructPart

/-- What the round-trip law compares of a Struct: its name and, for each Field in order,
the name and the literal type text. -/
def structShape (st : Struct) : String × List (String × String) :=
  (st.Name, st.Fields.map (fun fld => (fld.Name, fld.Typ.Literal)))

/-- A method declaration whose receiver type is an identifier or a pointer to an
identifier, or a declaration that is not a method: the declarations on which the type
assertions of `GetStructsFile` hold. -/
def receiverOK : ast.Decl → Bool
  | .FuncDecl decl =>
    match decl.Recv with
    | some (recv :: _) =>
      match receiverName recv.Typ with
      | .ok _ => true
      | _ => false
    | _ => true
  | _ => true

/-- The Struct that `GetStructsFile` builds for one struct type spec (line 116). -/
def structOfSpec (fmt : ast.Expr → String) (packageName : String)
    (spec : String × List ast.Field) : Struct :=
  { Name := spec.1, Fields := structFields fmt packageName spec.2, Methods := [] }

/-- The node `GetTypes` creates for a reference to struct `structName` of package
`packageName`: field name and file name are left empty. -/
def referenceNode (structName packageName : String) : Node :=
  { FieldTypeName := "", StructName := structName, PackageName := packageName, FileName := "" }

/-- The Method that `GetStructsFile` builds for a function declaration with a receiver
(lines 132-135). -/
def methodOf (fmt : ast.Expr → String) (decl : ast.FuncDecl) : Method :=
  { Name := decl.Name, ReturnType := parseReturnTypes fmt decl.Typ.Results }

/-- Struct `s'` is struct `s` with further methods appended: same name, same fields, and
the methods of `s` followed by `more`. -/
def ExtendsStruct (s s' : Struct) : Prop :=
  s'.Name = s.Name ∧ s'.Fields = s.Fields ∧ ∃ more, s'.Methods = s.Methods ++ more

/-- A printer for the type expressions of the examples. -/
def printSimple : ast.Expr → String
  | .Ident name => name
  | .StarExpr (.Ident name) => "*" ++ name
  | .SelectorExpr (.Ident x) sel => x ++ "." ++ sel
  | _ => "?"

/-- A parser for the type literals of the examples; every other text is rejected. -/
def parseSimple (literal : String) : Except String ast.Expr :=
  if literal = "int" then .ok (.Ident "int")
  else if literal = "B" then .ok (.Ident "B")
  else if literal = "*B" then .ok (.StarExpr (.Ident "B"))
  else .error ("cannot parse " ++ literal)

/-- Scanned tree of Scenario A: package `p` with `a.go` declaring `A` and `b.go`
declaring `B`. -/
def treeAB : List (Except String (List (String × ast.Package))) :=
  singlePackage "p" [("a.go", ⟨"p", [declA]⟩), ("b.go", ⟨"p", [declB]⟩)]

/-- Packages extracted from `treeAB`. -/
def packagesAB : List Package :=
  [{ Name := "p",
     Files := [{ Name := "a.go",
                 Structs := [{ Name := "A",
                               Fields := [{ Name := "B",
                                            Typ := { Literal := "*B", Structs := ["B"] } }],
                               Methods := [] }] },
               { Name := "b.go", Structs := [{ Name := "B", Fields := [], Methods := [] }] }] }]

/-- Model extracted from `treeAB`. -/
def modelAB : ClientStruct :=
  { Packages := packagesAB, Edges := [edgeAB "p" "a.go" "b.go"], GlobalFunctions := [] }

/-- Registry of parsed packages of `treeAB`. -/
def registryAB : List (String × ast.Package) :=
  [("p", { Name := "p", Files := [("a.go", ⟨"p", [declA]⟩), ("b.go", ⟨"p", [declB]⟩)] })]

/-- Scanned tree of Scenario B: package `p` whose only struct has a field of type
`otherpkg.Thing`, no package `otherpkg` being scanned. -/
def treeOther : List (Except String (List (String × ast.Package))) :=
  singlePackage "p" [("a.go", ⟨"p", [declUsesOther]⟩)]

/-- Packages, draft edges and functions gathered from `treeOther`. -/
def gatheredOther : Gathered :=
  { packages :=
      [{ Name := "p",
         Files := [{ Name := "a.go",
                     Structs := [{ Name := "A",
                                   Fields := [{ Name := "x",
                                                Typ := { Literal := "otherpkg.Thing",
                                                         Structs := ["otherpkg.Thing"] } }],
                                   Methods := [] }] }] }],
    edges :=
      [{ From := { FieldTypeName := "x", StructName := "A", PackageName := "p",
                   FileName := "a.go" },
         To := { FieldTypeName := "", StructName := "Thing", PackageName := "otherpkg",
                 FileName := "" } }],
    globalFunctions := [] }

/-- Registry of parsed packages of `treeOther`. -/
def registryOther : List (String × ast.Package) :=
  [("p", { Name := "p", Files := [("a.go", ⟨"p", [declUsesOther]⟩)] })]

/-- A renderer for the files of the examples: the package clause and the number of
top-level declarations. -/
def renderSimple (f : ast.File) : String :=
  "package " ++ f.Name ++ " // " ++ toString f.Decls.length ++ " declarations"

/-- Disk content before the submissions of the examples. -/
def diskAB : String → Option String :=
  fun path =>
    if path = "a.go" then some "original text of a.go"
    else if path = "b.go" then some "original text of b.go"
    else none

/-- Declaration `import "fmt"`. -/
def declImport : ast.Decl :=
  .GenDecl { Tok := .IMPORT, Specs := [.ImportSpec "fmt"] }

/-- State before the submissions of the examples: package `p` with `a.go` (an import
block, then `type A struct { B *B }`) and `b.go` (an import block, then
`type B struct{}`), parsed and on disk. -/
def worldAB : World :=
  { pkgs := [("p", { Name := "p",
                     Files := [("a.go", ⟨"p", [declImport, declA]⟩),
                               ("b.go", ⟨"p", [declImport, declB]⟩)] })],
    disk := diskAB }

/-- A submission that names package `q`, absent from the registry. -/
def submissionUnknownPackage : List Package :=
  [{ Name := "q", Files := [{ Name := "q.go", Structs := [] }] }]

/-- A submission that names file `c.go`, absent from the parsed files of package `p`. -/
def submissionUnknownFile : List Package :=
  [{ Name := "p", Files := [{ Name := "c.go", Structs := [] }] }]

/-- Edited `a.go`: struct `A` with its field `B *B`. -/
def editedA : File :=
  { Name := "a.go",
    Structs := [{ Name := "A",
                  Fields := [{ Name := "B", Typ := { Literal := "*B", Structs := ["B"] } }],
                  Methods := [] }] }

/-- Edited `b.go`: struct `B` with a new field of the invalid type literal `chan<>`. -/
def editedBadB : File :=
  { Name := "b.go",
    Structs := [{ Name := "B",
                  Fields := [{ Name := "c", Typ := { Literal := "chan<>", Structs := [] } }],
                  Methods := [] }] }

/-- A submission whose second file has a literal that does not parse. -/
def submissionBadSecond : List Package :=
  [{ Name := "p", Files := [editedA, editedBadB] }]

/-- Edited `b.go`: struct `B` with a new field `n int`. -/
def editedB : File :=
  { Name := "b.go",
    Structs := [{ Name := "B",
                  Fields := [{ Name := "n", Typ := { Literal := "int", Structs := [] } }],
                  Methods := [] }] }

/-- A submission of three files: `a.go`, then `b.go` with a literal that does not parse,
then `b.go` once more with literals that parse. -/
def submissionBadMiddle : List Package :=
  [{ Name := "p", Files := [editedA, editedBadB, editedB] }]

/-- A submission that names `b.go` twice: first with literals that parse, then with a
literal that does not parse. -/
def submissionTwiceB : List Package :=
  [{ Name := "p", Files := [editedB, editedBadB] }]

/-- Declaration `func main()` with a body. -/
def declMain : ast.Decl :=
  .FuncDecl { Recv := none, Name := "main", Typ := { Params := some [], Results := none },
              Body := some "fmt.Println(1)" }

/-- A parsed file without import block: `type A struct { B *B }`, then `func main`. -/
def fileNoImport : ast.File :=
  { Name := "p", Decls := [declA, declMain] }

/-- A parsed file with an import block, then `type A struct { B *B }`, then `func main`. -/
def fileWithImport : ast.File :=
  { Name := "p", Decls := [declImport, declA, declMain] }

/-- A parsed file whose only declaration is `type B struct{}`. -/
def fileOnlyB : ast.File :=
  { Name := "p", Decls := [declB] }

/-- An edited File from which every struct was deleted. -/
def editedNoStructs : File :=
  { Name := "b.go", Structs := [] }

/-- Function declaration `func (a *A) M() int`. -/
def funcDeclM : ast.FuncDecl :=
  { Recv := some [.mk ["a"] (.StarExpr (.Ident "A"))], Name := "M",
    Typ := { Params := some [], Results := some [.mk [] (.Ident "int")] },
    Body := some "return 1" }

/-- Function declaration `func (a A) N()`. -/
def funcDeclN : ast.FuncDecl :=
  { Recv := some [.mk ["a"] (.Ident "A")], Name := "N",
    Typ := { Params := some [], Results := none },
    Body := some "" }

/-- Function declaration `func (a A) Early()`. -/
def funcDeclEarly : ast.FuncDecl :=
  { Recv := some [.mk ["a"] (.Ident "A")], Name := "Early",
    Typ := { Params := some [], Results := none },
    Body := some "" }

/-- Declaration `func F(a A) B` with a body. -/
def declFuncF : ast.Decl :=
  .FuncDecl { Recv := none, Name := "F",
              Typ := { Params := some [.mk ["a"] (.Ident "A")],
                       Results := some [.mk [] (.Ident "B")] },
              Body := some "return B(a)" }

/-- A parsed file whose only declaration is `func F(a A) B`. -/
def fileFuncF : ast.File :=
  { Name := "p", Decls := [declFuncF] }

/-- Declaration `type A struct{}`. -/
def declEmptyA : ast.Decl :=
  .GenDecl { Tok := .TYPE, Specs := [.TypeSpec "A" [] (.StructType [])] }

/-- A parsed file: method `Early` of `A`, then `type A struct{}`, then the methods `M`
and `N` of `A`. -/
def fileMethods : ast.File :=
  { Name := "p",
    Decls := [.FuncDecl funcDeclEarly, declEmptyA, .FuncDecl funcDeclM, .FuncDecl funcDeclN] }

/-- Scanned tree with one package `p` whose file `a.go` declares `type A struct{}` twice
(the parser, run without declaration checks, accepts the file). -/
def treeTwiceA : List (Except String (List (String × ast.Package))) :=
  singlePackage "p" [("a.go", ⟨"p", [declEmptyA, declEmptyA]⟩)]

/-- Model extracted from `treeTwiceA`: the file holds two Structs named `A`. -/
def modelTwiceA : ClientStruct :=
  { Packages := [{ Name := "p",
                   Files := [{ Name := "a.go",
                               Structs := [{ Name := "A", Fields := [], Methods := [] },
                                           { Name := "A", Fields := [], Methods := [] }] }] }],
    Edges := [], GlobalFunctions := [] }

/-- Scanned tree with two directories that both declare a package `main`: `d1/a.go`
declares `type A struct { B *B }`, `d2/b.go` declares `type B struct{}`. -/
def treeTwoMains : List (Except String (List (String × ast.Package))) :=
  [.ok [("main", { Name := "main", Files := [("d1/a.go", ⟨"main", [declA]⟩)] })],
   .ok [("main", { Name := "main", Files := [("d2/b.go", ⟨"main", [declB]⟩)] })]]

/-- Model extracted from `treeTwoMains`: two Packages named `main` and the edge
`A.B → B`, resolved to `d2/b.go`. -/
def modelTwoMains : ClientStruct :=
  { Packages :=
      [{ Name := "main",
         Files := [{ Name := "d1/a.go",
                     Structs := [{ Name := "A",
                                   Fields := [{ Name := "B",
                                                Typ := { Literal := "*B", Structs := ["B"] } }],
                                   Methods := [] }] }] },
       { Name := "main",
         Files := [{ Name := "d2/b.go",
                     Structs := [{ Name := "B", Fields := [], Methods := [] }] }] }],
    Edges := [edgeAB "main" "d1/a.go" "d2/b.go"],
    GlobalFunctions := [] }

/-- Function declaration `func (s *Stack[T]) Push(x T)`: the receiver type is a pointer
to a generic instantiation. -/
def funcDeclPush : ast.FuncDecl :=
  { Recv := some [.mk ["s"] (.StarExpr (.IndexExpr (.Ident "Stack") (.Ident "T")))],
    Name := "Push",
    Typ := { Params := some [.mk ["x"] (.Ident "T")], Results := none },
    Body := some "" }

/-- Function declaration `func (s Stack[T]) Len() int`: the receiver type is a generic
instantiation. -/
def funcDeclLen : ast.FuncDecl :=
  { Recv := some [.mk ["s"] (.IndexExpr (.Ident "Stack") (.Ident "T"))],
    Name := "Len",
    Typ := { Params := some [], Results := some [.mk [] (.Ident "int")] },
    Body := some "return 0" }

/-- Function declaration `func (a (A)) P()`: the receiver type is parenthesized. -/
def funcDeclParen : ast.FuncDecl :=
  { Recv := some [.mk ["a"] (.ParenExpr (.Ident "A"))],
    Name := "P",
    Typ := { Params := some [], Results := none },
    Body := some "" }

/-- A parsed file with an import block, `type A struct{}` and the method
`func (a *A) M() int`. -/
def fileWithMethod : ast.File :=
  { Name := "p", Decls := [declImport, declEmptyA, .FuncDecl funcDeclM] }

/-- The File extracted from `fileWithMethod`: struct `A` with its method `M`. -/
def extractedWithMethod : File :=
  { Name := "a.go",
    Structs := [{ Name := "A", Fields := [],
                  Methods := [{ Name := "M",
                                ReturnType := [{ Literal := "int", Structs := [] }] }] }] }

/-- Declaration `type T struct { a, b int; B; c *B }`: two names declared together, an
embedded field and a pointer field. -/
def declMixedFields : ast.Decl :=
  .GenDecl { Tok := .TYPE,
             Specs := [.TypeSpec "T" []
               (.StructType [.mk ["a", "b"] (.Ident "int"), .mk [] (.Ident "B"),
                             .mk ["c"] (.StarExpr (.Ident "B"))])] }

/-- Scanned tree rooted at `.`: package `main` with the files `main.go` (declaring
`type B struct{}`) and `a.go` (declaring `type A struct { B *B }`). -/
def treeMain : List (Except String (List (String × ast.Package))) :=
  singlePackage "main" [("main.go", ⟨"main", [declImport, declB]⟩),
                        ("a.go", ⟨"main", [declImport, declA]⟩)]

/-- Model extracted from `treeMain`. -/
def modelMain : ClientStruct :=
  { Packages :=
      [{ Name := "main",
         Files := [{ Name := "main.go",
                     Structs := [{ Name := "B", Fields := [], Methods := [] }] },
                   { Name := "a.go",
                     Structs := [{ Name := "A",
                                   Fields := [{ Name := "B",
                                                Typ := { Literal := "*B", Structs := ["B"] } }],
                                   Methods := [] }] }] }],
    Edges := [edgeAB "main" "a.go" "main.go"],
    GlobalFunctions := [] }

/-- Registry of parsed packages of `treeMain`. -/
def registryMain : List (String × ast.Package) :=
  [("main", { Name := "main",
              Files := [("main.go", ⟨"main", [declImport, declB]⟩),
                        ("a.go", ⟨"main", [declImport, declA]⟩)] })]

/-- Scanned tree with package `p` whose only file `b.go` declares `type B struct{}`. -/
def treeOnlyB : List (Except String (List (String × ast.Package))) :=
  singlePackage "p" [("b.go", fileOnlyB)]

/-- Registry of parsed packages of `treeOnlyB`. -/
def registryOnlyB : List (String × ast.Package) :=
  [("p", { Name := "p", Files := [("b.go", fileOnlyB)] })]

end parse

namespace server

open parse

/-- The loops `for _, x := range xs { if _, exists := m[key]; !exists { m[key] = &x } }`
of `removeDuplicates`: the map they build. The loop variable is taken per iteration
(Go 1.22 and later), so each entry points to the element it was created from. -/
def firstSeen {α : Type} (key : α → String) : List α → List (String × α) → List (String × α)
  | [], m => m
  | x :: rest, m =>
    match mapGet m (key x) with
    | some _ => firstSeen key rest m
    | none => firstSeen key rest (mapSet m (key x) x)

/-- Lines 318-328 of `removeDuplicates` for one entry `st` of `structMap`: the `Struct`
object the entry points to after the iteration. -/
def dedupMethodsOf (ord : MapOrder) (st : Struct) : Struct :=
  { st with
    Methods := (ord.iter (firstSeen (fun m => st.Name ++ ":" ++ m.Name) st.Methods [])).map
      Prod.snd }

/-- Loop over `structMap` (lines 314-329): `file.Structs` receives a copy of each entry
before the methods of the entry are rebuilt; the second component collects the entries
after their iteration. -/
def structsMapLoop (ord : MapOrder) :
    List (String × Struct) → List Struct × List Struct → List Struct × List Struct
  | [], acc => acc
  | (_, st) :: rest, (fileStructs, entries) =>
    structsMapLoop ord rest (fileStructs ++ [st], entries ++ [dedupMethodsOf ord st])

/-- Lines 307-329 of `removeDuplicates` for one entry `file` of `fileMap`: the `File`
object the entry points to after the iteration. -/
def dedupStructsOf (ord : MapOrder) (file : File) : File :=
  { file with
    Structs := (structsMapLoop ord (ord.iter (firstSeen (fun st => st.Name) file.Structs []))
      ([], [])).1 }

/-- Loop over `fileMap` (lines 303-330): `pkg.Files` receives a copy of each entry at
line 304, before lines 307-329 rebuild the structs of the entry; the second component
collects the entries after their iteration. -/
def filesMapLoop (ord : MapOrder) :
    List (String × File) → List File × List File → List File × List File
  | [], acc => acc
  | (_, file) :: rest, (pkgFiles, entries) =>
    filesMapLoop ord rest (pkgFiles ++ [file], entries ++ [dedupStructsOf ord file])

/-- Body of the loop over `clientStruct.Packages` (lines 294-331) for one package. -/
def dedupFilesOf (ord : MapOrder) (pkg : Package) : Package :=
  { pkg with
    Files := (filesMapLoop ord (ord.iter (firstSeen (fun file => file.Name) pkg.Files []))
      ([], [])).1 }

/-- Function `removeDuplicates`: the Model its argument points to when it returns. -/
def removeDuplicates (ord : MapOrder) (clientStruct : ClientStruct) : ClientStruct :=
  let pkgMap := firstSeen (fun pkg => pkg.Name) clientStruct.Packages []
  let packages := (ord.iter pkgMap).map Prod.snd
  { clientStruct with Packages := packages.map (dedupFilesOf ord) }

mutual
/-- The struct type specs that `ast.Inspect` meets below an expression node, in traversal
order: `ast.Walk` visits the children of a node in the order of its fields. -/
def inspectExpr : ast.Expr → List (String × List ast.Field)
  | .Ident _ => []
  | .SelectorExpr x _ => inspectExpr x
  | .StarExpr x => inspectExpr x
  | .ArrayType len elt => inspectOptExpr len ++ inspectExpr elt
  | .MapType key value => inspectExpr key ++ inspectExpr value
  | .StructType fields => inspectFields fields
  | .InterfaceType methods => inspectFields methods
  | .FuncType params results => inspectFields params ++ inspectFields results
  | .ChanType _ value => inspectExpr value
  | .IndexExpr x index => inspectExpr x ++ inspectExpr index
  | .ParenExpr x => inspectExpr x
  | .Ellipsis elt => inspectExpr elt
  | .Other _ inner => inner
/-- The struct type specs met below an optional expression (`nil` is `none`). -/
def inspectOptExpr : Option ast.Expr → List (String × List ast.Field)
  | none => []
  | some e => inspectExpr e
/-- The struct type specs met below the fields of a field list: of a field, the traversal
visits the names, the type and the tag, and only the type can hold a type spec. -/
def inspectFields : List ast.Field → List (String × List ast.Field)
  | [] => []
  | (.mk _ typ) :: rest => inspectExpr typ ++ inspectFields rest
end

/-- The struct type specs met below an optional field list (`nil` is `none`). -/
def inspectFieldList : Option (List ast.Field) → List (String × List ast.Field)
  | none => []
  | some fields => inspectFields fields

/-- The struct type specs that `ast.Inspect` meets at a spec and below it. The callback of
`compareAST` (lines 477-484) records a `TypeSpec` whose type is a struct type when it visits
the spec, before the traversal goes on to the type parameters and to the type. -/
def inspectSpec : ast.Spec → List (String × List ast.Field)
  | .ImportSpec _ => []
  | .ValueSpec _ typ values => inspectOptExpr typ ++ values.flatMap inspectExpr
  | .TypeSpec name tparams (.StructType fields) =>
    (name, fields) :: (inspectFields tparams ++ inspectFields fields)
  | .TypeSpec _ tparams typ => inspectFields tparams ++ inspectExpr typ

/-- The struct type specs that `ast.Inspect` meets below a declaration: the specs of a
general declaration; the receiver, the signature and the body of a function. -/
def inspectDecl : ast.Decl → List (String × List ast.Field)
  | .GenDecl g => g.Specs.flatMap inspectSpec
  | .FuncDecl fd =>
    inspectFieldList fd.Recv ++
      (inspectFieldList fd.Typ.TypeParams ++ inspectFieldList fd.Typ.Params ++
        inspectFieldList fd.Typ.Results) ++
      fd.LocalTypes.flatMap inspectSpec
  | .BadDecl => []

/-- The struct type specs that `ast.Inspect` meets in a file, in traversal order: name and
field list of every `TypeSpec` whose type is a struct type, wherever it stands in the
file. -/
def inspectStructs (f : ast.File) : List (String × List ast.Field) :=
  f.Decls.flatMap inspectDecl

/-- The map `oldStructs` (or `newStructs`) that `compareAST` builds from a file
(lines 474-493): a later spec replaces an earlier one of the same name. -/
def structMapOf (f : ast.File) : List (String × List ast.Field) :=
  (inspectStructs f).foldl (fun m entry => mapSet m entry.1 entry.2) []

/-- Loop over `oldField.Names` in `compareStructs` (lines 525-529), run after the two
name lists were found to have the same length. -/
def compareNames : List String → List String → Bool
  | [], _ => true
  | _ :: _, [] => false
  | oldName :: restOld, newName :: restNew =>
    if oldName ≠ newName then false else compareNames restOld restNew

/-- Loop over `oldStruct.Fields.List` in `compareStructs` (lines 518-534), run after the
two field lists were found to have the same length. `compareExpr` is the comparison of
two type nodes, a parameter: the function `compareExpr` below gives it once the renderings
of `fmt.Sprint` are known, and what holds for every comparison holds for that one. -/
def compareFields (compareExpr : ast.Expr → ast.Expr → Bool) :
    List ast.Field → List ast.Field → Bool
  | [], _ => true
  | _ :: _, [] => false
  | oldField :: restOld, newField :: restNew =>
    if oldField.Names.length ≠ newField.Names.length then false
    else if compareNames oldField.Names newField.Names = false then false
    else if compareExpr oldField.Typ newField.Typ = false then false
    else compareFields compareExpr restOld restNew

/-- Function `compareStructs`, on the field lists of the two struct types. -/
def compareStructs (compareExpr : ast.Expr → ast.Expr → Bool)
    (oldStruct newStruct : List ast.Field) : Bool :=
  if oldStruct.length ≠ newStruct.length then false
  else compareFields compareExpr oldStruct newStruct

/-- Function `compareAST`. The loop over `oldStructs` returns `false` at the first
mismatch, so its result does not depend on the iteration order. -/
def compareAST (compareExpr : ast.Expr → ast.Expr → Bool) (oldFile newFile : ast.File) :
    Bool :=
  if (structMapOf oldFile).length ≠ (structMapOf newFile).length then false
  else
    (structMapOf oldFile).all (fun entry =>
      match mapGet (structMapOf newFile) entry.1 with
      | none => false
      | some newStruct => compareStructs compareExpr entry.2 newStruct)

/-- Body of the loop over `oldPkg.Files` in `hasChanges` (lines 458-467): the file is
missing from the new package or its structs differ. -/
def fileChanged (compareExpr : ast.Expr → ast.Expr → Bool) (newPkg : ast.Package)
    (entry : String × ast.File) : Bool :=
  match mapGet newPkg.Files entry.1 with
  | none => true
  | some newFile => !compareAST compareExpr entry.2 newFile

/-- Body of the loop over `oldPkgs` in `hasChanges` (lines 448-468). -/
def packageChanged (compareExpr : ast.Expr → ast.Expr → Bool)
    (newPkgs : List (String × ast.Package)) (entry : String × ast.Package) : Bool :=
  match mapGet newPkgs entry.1 with
  | none => true
  | some newPkg =>
    if entry.2.Files.length ≠ newPkg.Files.length then true
    else entry.2.Files.any (fileChanged compareExpr newPkg)

/-- Function `hasChanges`. The loops return `true` at the first difference, so the
result does not depend on the iteration order of the maps. -/
def hasChanges (compareExpr : ast.Expr → ast.Expr → Bool)
    (oldPkgs newPkgs : List (String × ast.Package)) : Bool :=
  if oldPkgs.length ≠ newPkgs.length then true
  else oldPkgs.any (packageChanged compareExpr newPkgs)

/-- The text `fmt.Sprintf("%T", expr)` of an expression node: the name of its Go type.
The kind of an `Other` node is the name of its node type, such as `CallExpr`. -/
def typeName : ast.Expr → String
  | .Ident _ => "*ast.Ident"
  | .SelectorExpr _ _ => "*ast.SelectorExpr"
  | .StarExpr _ => "*ast.StarExpr"
  | .ArrayType _ _ => "*ast.ArrayType"
  | .MapType _ _ => "*ast.MapType"
  | .StructType _ => "*ast.StructType"
  | .InterfaceType _ => "*ast.InterfaceType"
  | .FuncType _ _ => "*ast.FuncType"
  | .ChanType _ _ => "*ast.ChanType"
  | .IndexExpr _ _ => "*ast.IndexExpr"
  | .ParenExpr _ => "*ast.ParenExpr"
  | .Ellipsis _ => "*ast.Ellipsis"
  | .Other kind _ => "*ast." ++ kind

/-- Function `compareExpr` (lines 539-542): the two nodes have the same type name and the
same text under `fmt.Sprint`. That text shows the source positions and the addresses held
by a node, which the tree model does not carry, so the rendering is a parameter:
`sprintOld` renders the nodes of the old state, `sprintNew` those of the new state. -/
def compareExpr (sprintOld sprintNew : ast.Expr → String) (oldExpr newExpr : ast.Expr) :
    Bool :=
  typeName oldExpr == typeName newExpr && sprintOld oldExpr == sprintNew newExpr

/-- An outcome of `compareExpr` for the examples: the two types have the same printed
text. -/
def compareByText (oldExpr newExpr : ast.Expr) : Bool :=
  printSimple oldExpr == printSimple newExpr

/-- Declaration `var h = func() { type req struct { ... } }`: the initializer is a function
literal whose body declares the struct `req` with the given fields. -/
def declHandler (fields : List ast.Field) : ast.Decl :=
  .GenDecl { Tok := .VAR,
             Specs := [.ValueSpec ["h"] none [.Other "FuncLit" [("req", fields)]]] }

/-- Parse state with package `p` and file `s.go` declaring the variable `h` of
`declHandler`. -/
def stateHandler (fields : List ast.Field) : List (String × ast.Package) :=
  [("p", { Name := "p", Files := [("s.go", ⟨"p", [declImport, declHandler fields]⟩)] })]

/-- A message sent on the channel `broadcast`: the value `ClearLayoutMessage` or a
Model. -/
inductive Message where
  | clearLayout
  | model (clientStruct : ClientStruct)
  deriving DecidableEq, Repr

/-- The state `updateAndBroadcast` works on: the registry `pkgs` and the trace of the
messages sent on the channel `broadcast`, oldest first. -/
structure ServerState where
  pkgs : List (String × ast.Package)
  sent : List Message

/-- Loop over `mainPkg.Files` in `updateAndBroadcast` (lines 410-415): the first file
named `main.go` is cut out of the slice. -/
def removeMainFile : List File → List File
  | [] => []
  | file :: rest =>
    if file.Name = "main.go" then rest else file :: removeMainFile rest

/-- Function `findMainPackage` followed by lines 408-418 of `updateAndBroadcast`:
`findMainPackage` returns a pointer to the first Package named `main`, and the files of
that Package are rewritten through the pointer. The result is the package list of the
Model afterwards. -/
def dropMainFile : List Package → List Package
  | [] => []
  | pkg :: rest =>
    if pkg.Name = "main" then { pkg with Files := removeMainFile pkg.Files } :: rest
    else pkg :: dropMainFile rest

/-- Function `updateAndBroadcast`. The argument `dirs` is what the scan of
`config.DirName` finds during the call; serializing the Model (`json.Marshal`) is taken
to succeed. The result is the state afterwards and whether the call returned or
panicked. -/
def updateAndBroadcast (fmt : ast.Expr → String) (compareExpr : ast.Expr → ast.Expr → Bool)
    (dirs : List (Except String (List (String × ast.Package)))) (s : ServerState) :
    ServerState × Result String Unit :=
  -- line 392
  let s₁ : ServerState := { s with sent := s.sent ++ [Message.clearLayout] }
  match GetStructsDirName fmt dirs with
  | .error _ => (s₁, .ok ())
  | .panic msg => (s₁, .panic msg)
  | .ok (clientStruct, newPkgs) =>
    if hasChanges compareExpr s₁.pkgs newPkgs = true then
      ({ pkgs := newPkgs,
         sent := s₁.sent ++
           [Message.model { clientStruct with Packages := dropMainFile clientStruct.Packages }] },
        .ok ())
    else (s₁, .ok ())

/-- The iteration order that visits a map in insertion order. -/
def insertionOrder : MapOrder where
  iter := fun m => m
  perm := fun m => List.Perm.refl m

/-- The iteration order that visits a map in reverse insertion order. -/
def reverseOrder : MapOrder where
  iter := fun m => m.reverse
  perm := fun m => List.reverse_perm m

end server

/-! ## Theorems -/

namespace parse

theorem fileDefines_iff (structName : String) (file : File) :
    fileDefines structName file = true ↔ ∃ st ∈ file.Structs, st.Name = structName := by
  simp [fileDefines]

theorem findInFiles_some {structName : String} {files : List File} {name : String}
    (h : findInFiles structName files = some name) :
    ∃ file ∈ files, file.Name = name ∧ ∃ st ∈ file.Structs, st.Name = structName := by
  induction files with
  | nil => simp [findInFiles] at h
  | cons file rest ih =>
    unfold findInFiles at h
    split at h
    · rename_i hdef
      injection h with h
      exact ⟨file, List.mem_cons_self _ _, h, (fileDefines_iff _ _).1 hdef⟩
    · obtain ⟨f, hf, hn, hs⟩ := ih h
      exact ⟨f, List.mem_cons_of_mem _ hf, hn, hs⟩

theorem findInFiles_none {structName : String} {files : List File}
    (h : findInFiles structName files = none) :
    ∀ file ∈ files, ¬ ∃ st ∈ file.Structs, st.Name = structName := by
  induction files with
  | nil => simp
  | cons file rest ih =>
    unfold findInFiles at h
    split at h
    · simp at h
    · rename_i hdef
      intro f hf
      rcases List.mem_cons.1 hf with rfl | hf
      · rw [← fileDefines_iff]; exact hdef
      · exact ih h f hf

theorem findInPackages_some {toNode : Node} {pkgs : List Package} {name : String}
    (h : findInPackages toNode pkgs = some name) :
    DefinedInFile pkgs toNode.PackageName toNode.StructName name := by
  induction pkgs with
  | nil => simp [findInPackages] at h
  | cons pkg rest ih =>
    unfold findInPackages at h
    split at h
    · rename_i hname
      split at h
      · rename_i n hfound
        injection h with h
        subst h
        obtain ⟨f, hf, hn, hs⟩ := findInFiles_some hfound
        exact ⟨pkg, List.mem_cons_self _ _, hname, f, hf, hn, hs⟩
      · obtain ⟨p, hp, rest'⟩ := ih h
        exact ⟨p, List.mem_cons_of_mem _ hp, rest'⟩
    · obtain ⟨p, hp, rest'⟩ := ih h
      exact ⟨p, List.mem_cons_of_mem _ hp, rest'⟩

theorem findInPackages_none {toNode : Node} {pkgs : List Package}
    (h : findInPackages toNode pkgs = none) :
    ¬ Defines pkgs toNode.PackageName toNode.StructName := by
  induction pkgs with
  | nil => simp [Defines]
  | cons pkg rest ih =>
    unfold findInPackages at h
    rintro ⟨p, hp, hname, f, hf, hs⟩
    rcases List.mem_cons.1 hp with rfl | hp
    · rw [if_pos hname] at h
      split at h
      · simp at h
      · rename_i hnone
        exact findInFiles_none hnone f hf hs
    · split at h
      · split at h
        · simp at h
        · exact ih h ⟨p, hp, hname, f, hf, hs⟩
      · exact ih h ⟨p, hp, hname, f, hf, hs⟩

theorem findInPackages_isSome_iff (toNode : Node) (pkgs : List Package) :
    (findInPackages toNode pkgs).isSome = true ↔ Defines pkgs toNode.PackageName toNode.StructName := by
  constructor
  · intro h
    obtain ⟨name, hname⟩ := Option.isSome_iff_exists.1 h
    obtain ⟨p, hp, hn, f, hf, _, hs⟩ := findInPackages_some hname
    exact ⟨p, hp, hn, f, hf, hs⟩
  · intro h
    by_contra hc
    have : findInPackages toNode pkgs = none := by
      cases hfp : findInPackages toNode pkgs with
      | none => rfl
      | some n => simp [hfp] at hc
    exact findInPackages_none this h

end parse

namespace parse

theorem GetFileName_defined {toNode : Node} {pkgs : List Package}
    (h : GetFileName toNode pkgs ≠ "") :
    DefinedInFile pkgs toNode.PackageName toNode.StructName (GetFileName toNode pkgs) := by
  unfold GetFileName at h ⊢
  cases hf : findInPackages toNode pkgs with
  | none => simp [hf] at h
  | some name => simpa using findInPackages_some hf

theorem GetFileName_ne_empty_iff (toNode : Node) (pkgs : List Package)
    (hnames : ∀ pkg ∈ pkgs, ∀ file ∈ pkg.Files, file.Name ≠ "") :
    GetFileName toNode pkgs ≠ "" ↔ Defines pkgs toNode.PackageName toNode.StructName := by
  rw [← findInPackages_isSome_iff]
  unfold GetFileName
  cases hf : findInPackages toNode pkgs with
  | none => simp
  | some name =>
    obtain ⟨p, hp, _, f, hfm, hn, _⟩ := findInPackages_some hf
    have := hnames p hp f hfm
    simp only [Option.isSome_some, iff_true]
    rw [← hn]; exact this

theorem mem_resolveEdges {packages : List Package} {edges : List Edge} {e : Edge}
    (h : e ∈ resolveEdges packages edges) :
    e.To.FileName ≠ "" ∧
      DefinedInFile packages e.To.PackageName e.To.StructName e.To.FileName := by
  induction edges with
  | nil => simp [resolveEdges] at h
  | cons edge rest ih =>
    unfold resolveEdges at h
    split at h
    · rename_i hne
      rcases List.mem_cons.1 h with rfl | h
      · exact ⟨hne, GetFileName_defined hne⟩
      · exact ih h
    · exact ih h

/-- The relation between a resolved edge `r` and the draft edge `d` it comes from: same
origin, same target struct and package, and the stamped file is a file of a package named
`d.To.PackageName` that declares a struct named `d.To.StructName`. -/
theorem resolveEdges_forall₂ (packages : List Package) (edges : List Edge)
    (hnames : ∀ pkg ∈ packages, ∀ file ∈ pkg.Files, file.Name ≠ "") :
    List.Forall₂
      (fun r d => r.From = d.From ∧ r.To.FieldTypeName = d.To.FieldTypeName ∧
        r.To.StructName = d.To.StructName ∧ r.To.PackageName = d.To.PackageName ∧
        DefinedInFile packages d.To.PackageName d.To.StructName r.To.FileName)
      (resolveEdges packages edges)
      (edges.filter (fun d => decide (Defines packages d.To.PackageName d.To.StructName))) := by
  induction edges with
  | nil => simp [resolveEdges]
  | cons edge rest ih =>
    unfold resolveEdges
    by_cases hne : GetFileName edge.To packages ≠ ""
    · have hdef := (GetFileName_ne_empty_iff edge.To packages hnames).1 hne
      rw [if_pos hne, List.filter_cons_of_pos (by simpa using hdef)]
      exact List.Forall₂.cons ⟨rfl, rfl, rfl, rfl, GetFileName_defined hne⟩ ih
    · have hdef := mt (GetFileName_ne_empty_iff edge.To packages hnames).2 hne
      rw [if_neg hne, List.filter_cons_of_neg (by simpa using hdef)]
      exact ih

/-- C1. Edge soundness: every edge of the Model returned by `GetStructsDirName` has a
non-empty `To.FileName`, and that name is the name of a File of a Package named
`To.PackageName` of the Model which contains a Struct named `To.StructName`. -/
theorem GetStructsDirName_edge_sound (fmt : ast.Expr → String)
    (dirs : List (Except String (List (String × ast.Package))))
    (cs : ClientStruct) (pkgmap : List (String × ast.Package))
    (h : GetStructsDirName fmt dirs = .ok (cs, pkgmap)) :
    ∀ e ∈ cs.Edges, e.To.FileName ≠ "" ∧
      ∃ pkg ∈ cs.Packages, pkg.Name = e.To.PackageName ∧
        ∃ file ∈ pkg.Files, file.Name = e.To.FileName ∧
          ∃ st ∈ file.Structs, st.Name = e.To.StructName := by
  unfold GetStructsDirName at h
  split at h
  · rename_i acc pm hagg
    injection h with h
    injection h with hcs hpm
    subst hcs
    intro e he
    exact mem_resolveEdges he
  · cases h
  · cases h

/-- C2. Edge resolution keeps exactly the draft edges whose target is declared: when the
aggregation of the parsed directories succeeds with packages `acc.packages` (all files
named) and draft edges `acc.edges`, `GetStructsDirName` returns without error, and its
edge list corresponds one to one and in order to the sub-list of the draft edges for which
some Package named `To.PackageName` has a File with a Struct named `To.StructName`; each
kept edge is the draft edge with `To.FileName` set to the name of such a File. Every other
draft edge is absent from the result. -/
theorem GetStructsDirName_resolves_declared_targets (fmt : ast.Expr → String)
    (dirs : List (Except String (List (String × ast.Package))))
    (acc : Gathered) (pkgmap : List (String × ast.Package))
    (hagg : aggregate fmt dirs = .ok (acc, pkgmap))
    (hnames : ∀ pkg ∈ acc.packages, ∀ file ∈ pkg.Files, file.Name ≠ "") :
    ∃ cs, GetStructsDirName fmt dirs = .ok (cs, pkgmap) ∧ cs.Packages = acc.packages ∧
      List.Forall₂
        (fun r d => r.From = d.From ∧ r.To.FieldTypeName = d.To.FieldTypeName ∧
          r.To.StructName = d.To.StructName ∧ r.To.PackageName = d.To.PackageName ∧
          DefinedInFile acc.packages d.To.PackageName d.To.StructName r.To.FileName)
        cs.Edges
        (acc.edges.filter
          (fun d => decide (Defines acc.packages d.To.PackageName d.To.StructName))) := by
  refine ⟨{ Packages := acc.packages, Edges := resolveEdges acc.packages acc.edges,
             GlobalFunctions := acc.globalFunctions }, ?_, rfl,
    resolveEdges_forall₂ acc.packages acc.edges hnames⟩
  unfold GetStructsDirName
  rw [hagg]

end parse

namespace parse

/-- C3. Scenario A. For a package `p` whose files declare `type A struct { B *B }` and
`type B struct{}` (in two files, visited in either order, or in one file, in either order
or as one grouped declaration), `GetStructsDirName` succeeds and the Model has exactly one
edge: from field `B` of struct `A` in the file and package of `A`, to struct `B` of package
`p`, with `To.FileName` the name of the file that declares `B`. -/
theorem scenarioA_single_edge (fmt : ast.Expr → String) (p fa fb : String) (hfb : fb ≠ "") :
    YieldsEdges fmt (singlePackage p [(fa, ⟨p, [declA]⟩), (fb, ⟨p, [declB]⟩)]) [edgeAB p fa fb] ∧
    YieldsEdges fmt (singlePackage p [(fb, ⟨p, [declB]⟩), (fa, ⟨p, [declA]⟩)]) [edgeAB p fa fb] ∧
    YieldsEdges fmt (singlePackage p [(fb, ⟨p, [declA, declB]⟩)]) [edgeAB p fb fb] ∧
    YieldsEdges fmt (singlePackage p [(fb, ⟨p, [declB, declA]⟩)]) [edgeAB p fb fb] ∧
    YieldsEdges fmt (singlePackage p [(fb, ⟨p, [declAB]⟩)]) [edgeAB p fb fb] := by
  simp [YieldsEdges, GetStructsDirName, aggregate, directoriesLoop, singlePackage,
    getPackagesEdgesDirName, packagesLoop, packageFilesLoop, GetStructsFile, declsLoop,
    declStep, specsLoop, declA, declB, declAB, structFields, structEdges, GetTypes,
    extractType, isPrimitive, resolveEdges, GetFileName, findInPackages, findInFiles,
    fileDefines, mergePkgmap, mapSet, edgeAB, ast.Field.Names, ast.Field.Typ, hfb]

end parse

theorem mapGet_eq_none_iff {α : Type} (m : List (String × α)) (k : String) :
    mapGet m k = none ↔ k ∉ m.map Prod.fst := by
  induction m with
  | nil => simp [mapGet]
  | cons e rest ih =>
    obtain ⟨k', v⟩ := e
    unfold mapGet
    by_cases h : k' = k
    · simp [h]
    · simp [h, ih, Ne.symm h]

theorem mapGet_mapSet {α : Type} (m : List (String × α)) (k k' : String) (v : α) :
    mapGet (mapSet m k v) k' = if k = k' then some v else mapGet m k' := by
  induction m with
  | nil => simp [mapSet, mapGet]
  | cons e rest ih =>
    obtain ⟨k₀, v₀⟩ := e
    unfold mapSet
    by_cases h : k₀ = k
    · subst h
      by_cases h' : k₀ = k' <;> simp [mapGet, h']
    · by_cases h' : k₀ = k'
      · subst h'
        simp [mapGet, h, Ne.symm h]
      · simp only [if_neg h, mapGet, if_neg h', ih]

theorem mapSet_keys_of_absent {α : Type} (m : List (String × α)) (k : String) (v : α)
    (h : mapGet m k = none) :
    (mapSet m k v).map Prod.fst = m.map Prod.fst ++ [k] := by
  induction m with
  | nil => simp [mapSet]
  | cons e rest ih =>
    obtain ⟨k₀, v₀⟩ := e
    unfold mapGet at h
    by_cases hk : k₀ = k
    · simp [hk] at h
    · rw [if_neg hk] at h
      unfold mapSet
      simp [hk, ih h]

theorem mem_mapSet_of_absent {α : Type} (m : List (String × α)) (k : String) (v : α)
    (h : mapGet m k = none) (e : String × α) :
    e ∈ mapSet m k v ↔ e ∈ m ∨ e = (k, v) := by
  induction m with
  | nil => simp [mapSet]
  | cons e₀ rest ih =>
    obtain ⟨k₀, v₀⟩ := e₀
    unfold mapGet at h
    by_cases hk : k₀ = k
    · simp [hk] at h
    · rw [if_neg hk] at h
      unfold mapSet
      simp [hk, ih h, or_assoc]

namespace server

open parse

theorem firstSeen_invariant {α : Type} (key : α → String) (xs : List α)
    (m : List (String × α)) (hnodup : (m.map Prod.fst).Nodup)
    (hkey : ∀ e ∈ m, key e.2 = e.1) :
    ((firstSeen key xs m).map Prod.fst).Nodup ∧ ∀ e ∈ firstSeen key xs m, key e.2 = e.1 := by
  induction xs generalizing m with
  | nil => exact ⟨hnodup, hkey⟩
  | cons x rest ih =>
    unfold firstSeen
    split
    · exact ih m hnodup hkey
    · rename_i habsent
      apply ih
      · rw [mapSet_keys_of_absent m _ _ habsent]
        refine List.Nodup.append hnodup (List.nodup_singleton _) ?_
        simpa using (mapGet_eq_none_iff m (key x)).1 habsent
      · intro e he
        rcases (mem_mapSet_of_absent m _ _ habsent e).1 he with he | rfl
        · exact hkey e he
        · rfl

theorem dedupFilesOf_name (ord : MapOrder) (pkg : Package) :
    (dedupFilesOf ord pkg).Name = pkg.Name := rfl

/-- C10. After `removeDuplicates`, whatever the iteration order of the maps, the package
names of the Model are pairwise distinct. -/
theorem removeDuplicates_package_names_nodup (ord : MapOrder) (clientStruct : ClientStruct) :
    ((removeDuplicates ord clientStruct).Packages.map (fun pkg => pkg.Name)).Nodup := by
  obtain ⟨hnodup, hkey⟩ :=
    firstSeen_invariant (fun pkg : Package => pkg.Name) clientStruct.Packages []
      List.nodup_nil (by simp)
  have hperm := ord.perm (firstSeen (fun pkg : Package => pkg.Name) clientStruct.Packages [])
  have hnames : (removeDuplicates ord clientStruct).Packages.map (fun pkg => pkg.Name) =
      (ord.iter (firstSeen (fun pkg : Package => pkg.Name) clientStruct.Packages [])).map
        Prod.fst := by
    simp only [removeDuplicates, List.map_map]
    apply List.map_congr_left
    intro e he
    simpa [dedupFilesOf] using hkey e ((hperm.mem_iff).1 he)
  rw [hnames]
  exact ((hperm.map Prod.fst).nodup_iff).2 hnodup

end server

namespace parse

theorem parseType_eq (parseExpr : String → Except String ast.Expr) (typeStr : String) :
    parseType parseExpr typeStr = parseExpr typeStr := by
  unfold parseType
  cases parseExpr typeStr <;> rfl

theorem fieldsLoop_ok (parseExpr : String → Except String ast.Expr) (l : List Field)
    (h : ∀ fld ∈ l, Parses parseExpr fld.Typ.Literal) :
    ∃ fields, fieldsLoop parseExpr l = .ok fields ∧
      List.Forall₂ (FieldFrom parseExpr) fields l := by
  induction l with
  | nil => exact ⟨[], rfl, List.Forall₂.nil⟩
  | cons cf rest ih =>
    obtain ⟨e, he⟩ := h cf (List.mem_cons_self _ _)
    obtain ⟨fields, hf, hall⟩ := ih (fun fld hfld => h fld (List.mem_cons_of_mem _ hfld))
    refine ⟨.mk [cf.Name] e :: fields, ?_, List.Forall₂.cons ⟨rfl, he⟩ hall⟩
    simp [fieldsLoop, parseType_eq, he, hf]

theorem returnsLoop_ok (parseExpr : String → Except String ast.Expr) (l : List TypeRef)
    (h : ∀ t ∈ l, Parses parseExpr t.Literal) :
    ∃ results, returnsLoop parseExpr l = .ok results ∧
      List.Forall₂ (fun (fld : ast.Field) (t : TypeRef) =>
        fld.Names = [] ∧ parseExpr t.Literal = .ok fld.Typ) results l := by
  induction l with
  | nil => exact ⟨[], rfl, List.Forall₂.nil⟩
  | cons t rest ih =>
    obtain ⟨e, he⟩ := h t (List.mem_cons_self _ _)
    obtain ⟨results, hf, hall⟩ := ih (fun t' ht' => h t' (List.mem_cons_of_mem _ ht'))
    refine ⟨.mk [] e :: results, ?_, List.Forall₂.cons ⟨rfl, he⟩ hall⟩
    simp [returnsLoop, parseType_eq, he, hf]

/-- The synthesized declaration `d` is the stub of method `m` of struct `structName`. -/
theorem methodsLoop_ok (parseExpr : String → Except String ast.Expr) (structName : String)
    (l : List Method) (h : ∀ m ∈ l, ∀ t ∈ m.ReturnType, Parses parseExpr t.Literal) :
    ∃ decls, methodsLoop parseExpr structName l = .ok decls ∧
      List.Forall₂ (fun (d : ast.Decl) (m : Method) =>
        ∃ results, d = methodDecl structName m.Name results ∧
          returnsLoop parseExpr m.ReturnType = .ok results) decls l := by
  induction l with
  | nil => exact ⟨[], rfl, List.Forall₂.nil⟩
  | cons m rest ih =>
    obtain ⟨results, hr, _⟩ := returnsLoop_ok parseExpr m.ReturnType (h m (List.mem_cons_self _ _))
    obtain ⟨decls, hd, hall⟩ := ih (fun m' hm' => h m' (List.mem_cons_of_mem _ hm'))
    refine ⟨methodDecl structName m.Name results :: decls, ?_,
      List.Forall₂.cons ⟨results, rfl, hr⟩ hall⟩
    simp [methodsLoop, hr, hd]

theorem structSpecs_append (a b : List ast.Decl) :
    structSpecs (a ++ b) = structSpecs a ++ structSpecs b := by
  induction a with
  | nil => rfl
  | cons d rest ih =>
    cases d with
    | GenDecl g => simp [structSpecs, ih]
    | FuncDecl f => simp [structSpecs, ih]
    | BadDecl => simp [structSpecs, ih]

theorem structSpecs_methods (structName : String) (decls : List ast.Decl) (l : List Method)
    (R : ast.Decl → Method → Prop)
    (hR : ∀ d m, R d m → ∃ results, d = methodDecl structName m.Name results)
    (h : List.Forall₂ R decls l) : structSpecs decls = [] := by
  induction h with
  | nil => rfl
  | cons hd _ ih =>
    obtain ⟨results, rfl⟩ := hR _ _ hd
    simp [methodDecl, structSpecs, ih]

theorem structsLoop_ok (parseExpr : String → Except String ast.Expr) (l : List Struct)
    (h : ∀ st ∈ l, (∀ fld ∈ st.Fields, Parses parseExpr fld.Typ.Literal) ∧
      (∀ m ∈ st.Methods, ∀ t ∈ m.ReturnType, Parses parseExpr t.Literal)) :
    ∃ decls, structsLoop parseExpr l = .ok decls ∧
      List.Forall₂ (StructFrom parseExpr) (structSpecs decls) l := by
  induction l with
  | nil => exact ⟨[], rfl, List.Forall₂.nil⟩
  | cons st rest ih =>
    obtain ⟨hfl, hml⟩ := h st (List.mem_cons_self _ _)
    obtain ⟨fields, hf, hfall⟩ := fieldsLoop_ok parseExpr st.Fields hfl
    obtain ⟨methods, hm, hmall⟩ := methodsLoop_ok parseExpr st.Name st.Methods hml
    obtain ⟨decls, hd, hall⟩ := ih (fun st' hst' => h st' (List.mem_cons_of_mem _ hst'))
    refine ⟨structDecl st.Name fields :: (methods ++ decls), ?_, ?_⟩
    · simp [structsLoop, hf, hm, hd]
    · have hnone : structSpecs methods = [] :=
        structSpecs_methods st.Name methods st.Methods _
          (fun d m hdm => by obtain ⟨r, hr, _⟩ := hdm; exact ⟨r, hr⟩) hmall
      simp only [structDecl, structSpecs, structSpecsOfSpecs, structSpecs_append, hnone,
        if_true, List.nil_append, List.singleton_append, List.append_nil]
      exact List.Forall₂.cons ⟨rfl, hfall⟩ hall

theorem clientFileToDecls_of_parse (parseExpr : String → Except String ast.Expr)
    (clientfile : File) (h : LiteralsParse parseExpr clientfile) :
    ∃ decls, clientFileToDecls parseExpr clientfile = (decls, none) ∧
      structsLoop parseExpr clientfile.Structs = .ok decls ∧
      List.Forall₂ (StructFrom parseExpr) (structSpecs decls) clientfile.Structs := by
  obtain ⟨decls, hd, hall⟩ := structsLoop_ok parseExpr clientfile.Structs h
  exact ⟨decls, by simp [clientFileToDecls, hd], hd, hall⟩

theorem fieldsLoop_inv (parseExpr : String → Except String ast.Expr) (l : List Field)
    (fields : List ast.Field) (h : fieldsLoop parseExpr l = .ok fields) :
    ∀ fld ∈ l, Parses parseExpr fld.Typ.Literal := by
  induction l generalizing fields with
  | nil => intro fld hfld; cases hfld
  | cons cf rest ih =>
    unfold fieldsLoop at h
    rw [parseType_eq] at h
    cases hp : parseExpr cf.Typ.Literal with
    | error e => rw [hp] at h; cases h
    | ok e =>
      rw [hp] at h
      cases hr : fieldsLoop parseExpr rest with
      | error e' => rw [hr] at h; cases h
      | ok fields' =>
        intro fld hfld
        rcases List.mem_cons.1 hfld with rfl | hfld
        · exact ⟨e, hp⟩
        · exact ih fields' hr fld hfld

theorem returnsLoop_inv (parseExpr : String → Except String ast.Expr) (l : List TypeRef)
    (results : List ast.Field) (h : returnsLoop parseExpr l = .ok results) :
    ∀ t ∈ l, Parses parseExpr t.Literal := by
  induction l generalizing results with
  | nil => intro t ht; cases ht
  | cons t rest ih =>
    unfold returnsLoop at h
    rw [parseType_eq] at h
    cases hp : parseExpr t.Literal with
    | error e => rw [hp] at h; cases h
    | ok e =>
      rw [hp] at h
      cases hr : returnsLoop parseExpr rest with
      | error e' => rw [hr] at h; cases h
      | ok results' =>
        intro t' ht'
        rcases List.mem_cons.1 ht' with rfl | ht'
        · exact ⟨e, hp⟩
        · exact ih results' hr t' ht'

theorem methodsLoop_inv (parseExpr : String → Except String ast.Expr) (structName : String)
    (l : List Method) (decls : List ast.Decl)
    (h : methodsLoop parseExpr structName l = .ok decls) :
    ∀ m ∈ l, ∀ t ∈ m.ReturnType, Parses parseExpr t.Literal := by
  induction l generalizing decls with
  | nil => intro m hm; cases hm
  | cons m rest ih =>
    unfold methodsLoop at h
    cases hr : returnsLoop parseExpr m.ReturnType with
    | error e => rw [hr] at h; cases h
    | ok results =>
      rw [hr] at h
      cases hm : methodsLoop parseExpr structName rest with
      | error e' => rw [hm] at h; cases h
      | ok decls' =>
        intro m' hm'
        rcases List.mem_cons.1 hm' with rfl | hm'
        · exact returnsLoop_inv parseExpr _ results hr
        · exact ih decls' hm m' hm'

theorem structsLoop_inv (parseExpr : String → Except String ast.Expr) (l : List Struct)
    (decls : List ast.Decl) (h : structsLoop parseExpr l = .ok decls) :
    ∀ st ∈ l, (∀ fld ∈ st.Fields, Parses parseExpr fld.Typ.Literal) ∧
      (∀ m ∈ st.Methods, ∀ t ∈ m.ReturnType, Parses parseExpr t.Literal) := by
  induction l generalizing decls with
  | nil => intro st hst; cases hst
  | cons s rest ih =>
    unfold structsLoop at h
    cases hf : fieldsLoop parseExpr s.Fields with
    | error e => rw [hf] at h; cases h
    | ok fields =>
      rw [hf] at h
      cases hm : methodsLoop parseExpr s.Name s.Methods with
      | error e => rw [hm] at h; cases h
      | ok methods =>
        rw [hm] at h
        cases hr : structsLoop parseExpr rest with
        | error e => rw [hr] at h; cases h
        | ok decls' =>
          intro st hst
          rcases List.mem_cons.1 hst with rfl | hst
          · exact ⟨fieldsLoop_inv parseExpr _ fields hf, methodsLoop_inv parseExpr _ _ methods hm⟩
          · exact ih decls' hr st hst

theorem clientFileToDecls_of_not_parse (parseExpr : String → Except String ast.Expr)
    (clientfile : File) (h : ¬ LiteralsParse parseExpr clientfile) :
    ∃ err, clientFileToDecls parseExpr clientfile = ([], some err) := by
  cases hs : structsLoop parseExpr clientfile.Structs with
  | error e => exact ⟨e, by simp [clientFileToDecls, hs]⟩
  | ok decls => exact absurd (structsLoop_inv parseExpr _ decls hs) h

/-- C7. `clientFileToDecls` returns a non-nil error exactly when some field type literal
or some method return type literal of some Struct of the edited File is rejected by the
type-expression parser; with the error it returns no declaration; and when every literal
parses it returns no error and its struct type declarations are one per Struct, in order,
each with the name of the Struct and one field per Field, in order, named as the Field and
typed by the parse of the literal of the Field. -/
theorem clientFileToDecls_error_iff (parseExpr : String → Except String ast.Expr)
    (clientfile : File) :
    ((clientFileToDecls parseExpr clientfile).2 ≠ none ↔
      ∃ st ∈ clientfile.Structs,
        (∃ fld ∈ st.Fields, ¬ Parses parseExpr fld.Typ.Literal) ∨
        (∃ m ∈ st.Methods, ∃ t ∈ m.ReturnType, ¬ Parses parseExpr t.Literal)) ∧
    ((clientFileToDecls parseExpr clientfile).2 ≠ none →
      (clientFileToDecls parseExpr clientfile).1 = []) ∧
    ((clientFileToDecls parseExpr clientfile).2 = none →
      List.Forall₂ (StructFrom parseExpr)
        (structSpecs (clientFileToDecls parseExpr clientfile).1) clientfile.Structs) := by
  have hspec : (∃ st ∈ clientfile.Structs,
        (∃ fld ∈ st.Fields, ¬ Parses parseExpr fld.Typ.Literal) ∨
        (∃ m ∈ st.Methods, ∃ t ∈ m.ReturnType, ¬ Parses parseExpr t.Literal)) ↔
      ¬ LiteralsParse parseExpr clientfile := by
    unfold LiteralsParse
    constructor
    · rintro ⟨st, hst, hbad⟩ hall
      rcases hbad with ⟨fld, hfld, hnot⟩ | ⟨m, hm, t, ht, hnot⟩
      · exact hnot ((hall st hst).1 fld hfld)
      · exact hnot ((hall st hst).2 m hm t ht)
    · intro hnot
      by_contra hc
      apply hnot
      intro st hst
      constructor
      · intro fld hfld
        by_contra hp
        exact hc ⟨st, hst, Or.inl ⟨fld, hfld, hp⟩⟩
      · intro m hm t ht
        by_contra hp
        exact hc ⟨st, hst, Or.inr ⟨m, hm, t, ht, hp⟩⟩
  rw [hspec]
  by_cases hall : LiteralsParse parseExpr clientfile
  · obtain ⟨decls, hd, _, hforall⟩ := clientFileToDecls_of_parse parseExpr clientfile hall
    rw [hd]
    exact ⟨by simp [hall], by simp, fun _ => hforall⟩
  · obtain ⟨err, hd⟩ := clientFileToDecls_of_not_parse parseExpr clientfile hall
    rw [hd]
    exact ⟨by simp [hall], by simp, by simp⟩

end parse

namespace parse

/-- Edge soundness on the tree of Scenario A: the edge `A.B → B` of its Model. -/
theorem GetStructsDirName_edge_sound_witness :
    GetStructsDirName printSimple treeAB = .ok (modelAB, registryAB) ∧
    ((edgeAB "p" "a.go" "b.go").To.FileName ≠ "" ∧
      ∃ pkg ∈ modelAB.Packages, pkg.Name = (edgeAB "p" "a.go" "b.go").To.PackageName ∧
        ∃ file ∈ pkg.Files, file.Name = (edgeAB "p" "a.go" "b.go").To.FileName ∧
          ∃ st ∈ file.Structs, st.Name = (edgeAB "p" "a.go" "b.go").To.StructName) :=
  ⟨rfl, GetStructsDirName_edge_sound printSimple treeAB modelAB registryAB rfl
    (edgeAB "p" "a.go" "b.go") (List.mem_singleton.2 rfl)⟩

/-- Edge resolution on the tree of Scenario B, whose only draft edge targets a package
that was not scanned. -/
theorem GetStructsDirName_resolves_declared_targets_witness :
    aggregate printSimple treeOther = .ok (gatheredOther, registryOther) ∧
    (∀ pkg ∈ gatheredOther.packages, ∀ file ∈ pkg.Files, file.Name ≠ "") ∧
    ∃ cs, GetStructsDirName printSimple treeOther = .ok (cs, registryOther) ∧
      cs.Packages = gatheredOther.packages ∧
      List.Forall₂
        (fun r d => r.From = d.From ∧ r.To.FieldTypeName = d.To.FieldTypeName ∧
          r.To.StructName = d.To.StructName ∧ r.To.PackageName = d.To.PackageName ∧
          DefinedInFile gatheredOther.packages d.To.PackageName d.To.StructName r.To.FileName)
        cs.Edges
        (gatheredOther.edges.filter
          (fun d => decide (Defines gatheredOther.packages d.To.PackageName d.To.StructName))) :=
  ⟨rfl, by decide,
    GetStructsDirName_resolves_declared_targets printSimple treeOther gatheredOther
      registryOther rfl (by decide)⟩

/-- Scenario B: the field typed `otherpkg.Thing` yields no edge and no error. -/
theorem scenarioB_no_edge :
    ∃ pkgmap, GetStructsDirName printSimple treeOther =
      .ok ({ Packages := gatheredOther.packages, Edges := [], GlobalFunctions := [] }, pkgmap) :=
  ⟨registryOther, rfl⟩

/-- Scenario A for package `p` and the files `a.go` and `b.go`. -/
theorem scenarioA_single_edge_witness :
    "b.go" ≠ "" ∧
    (YieldsEdges printSimple
        (singlePackage "p" [("a.go", ⟨"p", [declA]⟩), ("b.go", ⟨"p", [declB]⟩)])
        [edgeAB "p" "a.go" "b.go"] ∧
      YieldsEdges printSimple
        (singlePackage "p" [("b.go", ⟨"p", [declB]⟩), ("a.go", ⟨"p", [declA]⟩)])
        [edgeAB "p" "a.go" "b.go"] ∧
      YieldsEdges printSimple (singlePackage "p" [("b.go", ⟨"p", [declA, declB]⟩)])
        [edgeAB "p" "b.go" "b.go"] ∧
      YieldsEdges printSimple (singlePackage "p" [("b.go", ⟨"p", [declB, declA]⟩)])
        [edgeAB "p" "b.go" "b.go"] ∧
      YieldsEdges printSimple (singlePackage "p" [("b.go", ⟨"p", [declAB]⟩)])
        [edgeAB "p" "b.go" "b.go"]) :=
  ⟨by decide, scenarioA_single_edge printSimple "p" "a.go" "b.go" (by decide)⟩

end parse

namespace parse

theorem registeredFile_mapSet (pkgs : List (String × ast.Package)) (packagename name : String)
    (packageast : ast.Package) (f : ast.File) (packagename' name' : String)
    (hpkg : mapGet pkgs packagename = some packageast) (hname : name' ≠ name) :
    registeredFile
        (mapSet pkgs packagename { packageast with Files := mapSet packageast.Files name f })
        packagename' name' =
      registeredFile pkgs packagename' name' := by
  unfold registeredFile
  rw [mapGet_mapSet]
  by_cases h : packagename = packagename'
  · subst h
    simp [hpkg, mapGet_mapSet, Ne.symm hname]
  · simp [h]

theorem clientFileToAST_some_fst (parseExpr : String → Except String ast.Expr)
    (clientfile : File) (f : ast.File) :
    ∃ f', (clientFileToAST parseExpr clientfile (some f)).1 = some f' := by
  unfold clientFileToAST
  rcases hd : clientFileToDecls parseExpr clientfile with ⟨decls, _ | err⟩
  · exact ⟨_, rfl⟩
  · exact ⟨_, rfl⟩

theorem clientFileToAST_of_parse (parseExpr : String → Except String ast.Expr)
    (clientfile : File) (f : ast.File) (h : LiteralsParse parseExpr clientfile) :
    ∃ f', clientFileToAST parseExpr clientfile (some f) = (some f', .ok ()) := by
  obtain ⟨decls, hd, _⟩ := clientFileToDecls_of_parse parseExpr clientfile h
  unfold clientFileToAST
  simp only [hd]
  exact ⟨_, rfl⟩

theorem clientFileToAST_of_not_parse (parseExpr : String → Except String ast.Expr)
    (clientfile : File) (f : ast.File) (h : ¬ LiteralsParse parseExpr clientfile) :
    ∃ err, clientFileToAST parseExpr clientfile (some f) =
      (some { f with Decls := removeStructDecls f.Decls }, .error err) := by
  obtain ⟨err, hd⟩ := clientFileToDecls_of_not_parse parseExpr clientfile h
  unfold clientFileToAST
  simp only [hd]
  exact ⟨err, rfl⟩

theorem writeClientFile_disk_other (parseExpr : String → Except String ast.Expr)
    (render : ast.File → String) (packagename : String) (clientfile : File) (w : World)
    (path : String) (hpath : path ≠ clientfile.Name) :
    (writeClientFile parseExpr render packagename clientfile w).1.disk path = w.disk path := by
  unfold writeClientFile
  cases mapGet w.pkgs packagename with
  | none => rfl
  | some packageast =>
    simp only
    rcases clientFileToAST parseExpr clientfile (mapGet packageast.Files clientfile.Name)
      with ⟨_ | f, outcome⟩
    · rfl
    · cases outcome with
      | ok u => simp [writeFileAST, hpath]
      | error e => rfl
      | panic m => rfl

theorem writeClientFile_registry_other (parseExpr : String → Except String ast.Expr)
    (render : ast.File → String) (packagename : String) (clientfile : File) (w : World)
    (packagename' name' : String) (hname : name' ≠ clientfile.Name) :
    registeredFile (writeClientFile parseExpr render packagename clientfile w).1.pkgs
        packagename' name' =
      registeredFile w.pkgs packagename' name' := by
  unfold writeClientFile
  cases hp : mapGet w.pkgs packagename with
  | none => rfl
  | some packageast =>
    simp only
    rcases clientFileToAST parseExpr clientfile (mapGet packageast.Files clientfile.Name)
      with ⟨_ | f, outcome⟩
    · rfl
    · cases outcome with
      | ok u => exact registeredFile_mapSet _ _ _ _ _ _ _ hp hname
      | error e => exact registeredFile_mapSet _ _ _ _ _ _ _ hp hname
      | panic m => exact registeredFile_mapSet _ _ _ _ _ _ _ hp hname

theorem writeClientFile_of_parse (parseExpr : String → Except String ast.Expr)
    (render : ast.File → String) (packagename : String) (clientfile : File) (w : World)
    (f : ast.File) (hreg : registeredFile w.pkgs packagename clientfile.Name = some f)
    (h : LiteralsParse parseExpr clientfile) :
    ∃ f', clientFileToAST parseExpr clientfile (some f) = (some f', .ok ()) ∧
      (writeClientFile parseExpr render packagename clientfile w).2 = .ok () ∧
      (writeClientFile parseExpr render packagename clientfile w).1.disk clientfile.Name =
        some (render f') := by
  obtain ⟨f', hf'⟩ := clientFileToAST_of_parse parseExpr clientfile f h
  refine ⟨f', hf', ?_⟩
  unfold registeredFile at hreg
  unfold writeClientFile
  cases hp : mapGet w.pkgs packagename with
  | none => simp [hp] at hreg
  | some packageast =>
    simp only [hp] at hreg
    simp [hreg, hf', writeFileAST]

theorem writeClientFile_of_not_parse (parseExpr : String → Except String ast.Expr)
    (render : ast.File → String) (packagename : String) (clientfile : File) (w : World)
    (f : ast.File) (hreg : registeredFile w.pkgs packagename clientfile.Name = some f)
    (h : ¬ LiteralsParse parseExpr clientfile) :
    ∃ err, (writeClientFile parseExpr render packagename clientfile w).2 = .error err ∧
      (writeClientFile parseExpr render packagename clientfile w).1.disk = w.disk := by
  obtain ⟨err, hf'⟩ := clientFileToAST_of_not_parse parseExpr clientfile f h
  refine ⟨err, ?_⟩
  unfold registeredFile at hreg
  unfold writeClientFile
  cases hp : mapGet w.pkgs packagename with
  | none => simp [hp] at hreg
  | some packageast =>
    simp only [hp] at hreg
    simp [hreg, hf']

theorem batchLoop_disk_other (parseExpr : String → Except String ast.Expr)
    (render : ast.File → String) (l : List (String × File)) (w : World) (path : String)
    (hpath : path ∉ l.map (fun x => x.2.Name)) :
    (batchLoop parseExpr render l w).1.disk path = w.disk path := by
  induction l generalizing w with
  | nil => rfl
  | cons x rest ih =>
    obtain ⟨packagename, clientfile⟩ := x
    have hne : path ≠ clientfile.Name := fun h => hpath (by simp [h])
    have hrest : path ∉ rest.map (fun x => x.2.Name) :=
      fun h => hpath (List.mem_cons_of_mem _ h)
    have hstep := writeClientFile_disk_other parseExpr render packagename clientfile w path hne
    unfold batchLoop
    rcases hw : writeClientFile parseExpr render packagename clientfile w with ⟨w', outcome⟩
    rw [hw] at hstep
    cases outcome with
    | ok u => simp only; rw [ih w' hrest]; exact hstep
    | error e => exact hstep
    | panic m => exact hstep

theorem clientFilesLoop_eq_batchLoop (parseExpr : String → Except String ast.Expr)
    (render : ast.File → String) (packagename : String) (files : List File)
    (tail : List (String × File)) (w : World) :
    batchLoop parseExpr render (files.map (fun clientfile => (packagename, clientfile)) ++ tail) w =
      match clientFilesLoop parseExpr render packagename files w with
      | (w', .ok _) => batchLoop parseExpr render tail w'
      | (w', .error err) => (w', .error err)
      | (w', .panic msg) => (w', .panic msg) := by
  induction files generalizing w with
  | nil => simp [clientFilesLoop]
  | cons clientfile rest ih =>
    simp only [List.map_cons, List.cons_append, batchLoop, clientFilesLoop]
    rcases hw : writeClientFile parseExpr render packagename clientfile w with ⟨w', outcome⟩
    cases outcome with
    | ok u => simpa using ih w'
    | error e => rfl
    | panic m => rfl

theorem WriteClientPackages_eq_batchLoop (parseExpr : String → Except String ast.Expr)
    (render : ast.File → String) (w : World) (clientpackages : List Package) :
    WriteClientPackages parseExpr render w clientpackages =
      batchLoop parseExpr render (batchFiles clientpackages) w := by
  unfold WriteClientPackages
  induction clientpackages generalizing w with
  | nil => rfl
  | cons clientpackage rest ih =>
    simp only [batchFiles, List.flatMap_cons, clientPackagesLoop]
    rw [clientFilesLoop_eq_batchLoop]
    rcases hw : clientFilesLoop parseExpr render clientpackage.Name clientpackage.Files w
      with ⟨w', outcome⟩
    cases outcome with
    | ok u => simpa [batchFiles] using ih w'
    | error e => rfl
    | panic m => rfl

end parse

namespace parse

theorem registeredFile_mapSet_isSome (pkgs : List (String × ast.Package))
    (packagename name : String) (packageast : ast.Package) (f : ast.File)
    (packagename' name' : String) (hpkg : mapGet pkgs packagename = some packageast)
    (h : (registeredFile pkgs packagename' name').isSome = true) :
    (registeredFile
        (mapSet pkgs packagename { packageast with Files := mapSet packageast.Files name f })
        packagename' name').isSome = true := by
  unfold registeredFile at h ⊢
  rw [mapGet_mapSet]
  by_cases hp : packagename = packagename'
  · subst hp
    rw [hpkg] at h
    simp only at h
    simp only [if_true, mapGet_mapSet]
    by_cases hn : name = name'
    · simp [hn]
    · simpa [hn] using h
  · simpa [hp] using h

theorem writeClientFile_registered (parseExpr : String → Except String ast.Expr)
    (render : ast.File → String) (packagename : String) (clientfile : File) (w : World)
    (packagename' name' : String)
    (h : (registeredFile w.pkgs packagename' name').isSome = true) :
    (registeredFile (writeClientFile parseExpr render packagename clientfile w).1.pkgs
        packagename' name').isSome = true := by
  unfold writeClientFile
  cases hp : mapGet w.pkgs packagename with
  | none => exact h
  | some packageast =>
    simp only
    rcases clientFileToAST parseExpr clientfile (mapGet packageast.Files clientfile.Name)
      with ⟨_ | f, outcome⟩
    · exact h
    · cases outcome with
      | ok u => exact registeredFile_mapSet_isSome _ _ _ _ _ _ _ hp h
      | error e => exact registeredFile_mapSet_isSome _ _ _ _ _ _ _ hp h
      | panic m => exact registeredFile_mapSet_isSome _ _ _ _ _ _ _ hp h

theorem batchLoop_first_failure (parseExpr : String → Except String ast.Expr)
    (render : ast.File → String) (pre post : List (String × File)) (packagename : String)
    (bad : File) (w : World)
    (hregistered : ∀ x ∈ pre ++ [(packagename, bad)],
      (registeredFile w.pkgs x.1 x.2.Name).isSome = true)
    (hpre : ∀ x ∈ pre, LiteralsParse parseExpr x.2)
    (hbad : ¬ LiteralsParse parseExpr bad) :
    (∃ err, (batchLoop parseExpr render (pre ++ (packagename, bad) :: post) w).2 = .error err) ∧
    (∀ path, path ∉ pre.map (fun x => x.2.Name) →
      (batchLoop parseExpr render (pre ++ (packagename, bad) :: post) w).1.disk path =
        w.disk path) ∧
    (∀ x ∈ pre, ∃ y ∈ pre, y.2.Name = x.2.Name ∧
      ∃ f f', clientFileToAST parseExpr y.2 (some f) = (some f', .ok ()) ∧
        (batchLoop parseExpr render (pre ++ (packagename, bad) :: post) w).1.disk x.2.Name =
          some (render f')) ∧
    ((pre.map (fun x => x.2.Name)).Nodup →
      ∀ x ∈ pre, ∃ f f', registeredFile w.pkgs x.1 x.2.Name = some f ∧
        clientFileToAST parseExpr x.2 (some f) = (some f', .ok ()) ∧
        (batchLoop parseExpr render (pre ++ (packagename, bad) :: post) w).1.disk x.2.Name =
          some (render f')) := by
  induction pre generalizing w with
  | nil =>
    obtain ⟨f, hf⟩ := Option.isSome_iff_exists.1
      (hregistered (packagename, bad) (by simp))
    obtain ⟨err, herr, hdisk⟩ :=
      writeClientFile_of_not_parse parseExpr render packagename bad w f hf hbad
    simp only [List.nil_append, batchLoop]
    rcases hw : writeClientFile parseExpr render packagename bad w with ⟨w', outcome⟩
    rw [hw] at herr hdisk
    simp only at herr hdisk
    subst herr
    exact ⟨⟨err, rfl⟩, fun path _ => by simp [hdisk], by simp, by simp⟩
  | cons x pre' ih =>
    obtain ⟨pn, clientfile⟩ := x
    obtain ⟨f, hf⟩ := Option.isSome_iff_exists.1 (hregistered (pn, clientfile) (by simp))
    obtain ⟨f', hast, hok, hwritten⟩ :=
      writeClientFile_of_parse parseExpr render pn clientfile w f hf
        (hpre (pn, clientfile) (List.mem_cons_self _ _))
    have hdiskstep := writeClientFile_disk_other parseExpr render pn clientfile w
    have hregstep := writeClientFile_registry_other parseExpr render pn clientfile w
    have hregmono := writeClientFile_registered parseExpr render pn clientfile w
    simp only [List.cons_append, batchLoop]
    rcases hw : writeClientFile parseExpr render pn clientfile w with ⟨w', outcome⟩
    rw [hw] at hok hwritten hdiskstep hregstep hregmono
    simp only at hok hwritten hdiskstep hregstep hregmono
    subst hok
    simp only
    have hregistered' : ∀ y ∈ pre' ++ [(packagename, bad)],
        (registeredFile w'.pkgs y.1 y.2.Name).isSome = true := by
      intro y hy
      exact hregmono y.1 y.2.Name (hregistered y (List.mem_cons_of_mem _ hy))
    obtain ⟨herr, hother, hrewritten, hexact⟩ :=
      ih w' hregistered' (fun y hy => hpre y (List.mem_cons_of_mem _ hy))
    refine ⟨herr, ?_, ?_, ?_⟩
    · intro path hpath
      have h1 : path ≠ clientfile.Name := fun h => hpath (by simp [h])
      have h2 : path ∉ pre'.map (fun x => x.2.Name) :=
        fun h => hpath (List.mem_cons_of_mem _ h)
      exact (hother path h2).trans (hdiskstep path h1)
    · intro y hy
      rcases List.mem_cons.1 hy with rfl | hy
      · by_cases hlater : clientfile.Name ∈ pre'.map (fun x => x.2.Name)
        · obtain ⟨z, hz, hzname⟩ := List.mem_map.1 hlater
          obtain ⟨y', hy', hname, g, g', hgast, hgdisk⟩ := hrewritten z hz
          refine ⟨y', List.mem_cons_of_mem _ hy', hname.trans hzname, g, g', hgast, ?_⟩
          rw [← hzname]
          exact hgdisk
        · exact ⟨(pn, clientfile), List.mem_cons_self _ _, rfl, f, f', hast,
            (hother clientfile.Name hlater).trans hwritten⟩
      · obtain ⟨y', hy', hname, g, g', hgast, hgdisk⟩ := hrewritten y hy
        exact ⟨y', List.mem_cons_of_mem _ hy', hname, g, g', hgast, hgdisk⟩
    · intro hnodup y hy
      simp only [List.map_cons, List.nodup_cons] at hnodup
      obtain ⟨hfresh, hnodup'⟩ := hnodup
      rcases List.mem_cons.1 hy with rfl | hy
      · exact ⟨f, f', hf, hast, (hother clientfile.Name hfresh).trans hwritten⟩
      · obtain ⟨g, g', hg, hgast, hgdisk⟩ := hexact hnodup' y hy
        refine ⟨g, g', ?_, hgast, hgdisk⟩
        have hne : y.2.Name ≠ clientfile.Name := by
          intro heq
          exact hfresh (heq ▸ List.mem_map_of_mem (fun x => x.2.Name) hy)
        rw [← hregstep y.1 y.2.Name hne]
        exact hg

/-- C8 (amended). `WriteClientPackages` stops at the first file whose literals do not
parse. For a submission whose files, taken in processing order, are `pre`, then `bad`,
then `post`, where `bad` and the files of `pre` are registered, every literal of every
file of `pre` parses and some literal of `bad` does not: the call returns a
`SynthesisError`; the disk content of `bad`, and of every file of `post`, is what it was
before the call unless a file of `pre` has the same name; and every file of `pre` holds
the rendering of a syntax tree rewritten from a file of `pre` of that name (no rollback),
which is the tree rewritten from its own registered tree when the names of `pre` are
pairwise distinct. -/
theorem WriteClientPackages_first_failure (parseExpr : String → Except String ast.Expr)
    (render : ast.File → String) (w : World) (clientpackages : List Package)
    (pre post : List (String × File)) (packagename : String) (bad : File)
    (hbatch : batchFiles clientpackages = pre ++ (packagename, bad) :: post)
    (hregistered : ∀ x ∈ pre ++ [(packagename, bad)],
      (registeredFile w.pkgs x.1 x.2.Name).isSome = true)
    (hpre : ∀ x ∈ pre, LiteralsParse parseExpr x.2)
    (hbad : ¬ LiteralsParse parseExpr bad) :
    (∃ err : SynthesisError,
      (WriteClientPackages parseExpr render w clientpackages).2 = .error err) ∧
    (bad.Name ∉ pre.map (fun x => x.2.Name) →
      (WriteClientPackages parseExpr render w clientpackages).1.disk bad.Name =
        w.disk bad.Name) ∧
    (∀ x ∈ post, x.2.Name ∉ pre.map (fun x => x.2.Name) →
      (WriteClientPackages parseExpr render w clientpackages).1.disk x.2.Name =
        w.disk x.2.Name) ∧
    (∀ x ∈ pre, ∃ y ∈ pre, y.2.Name = x.2.Name ∧
      ∃ f f', clientFileToAST parseExpr y.2 (some f) = (some f', .ok ()) ∧
        (WriteClientPackages parseExpr render w clientpackages).1.disk x.2.Name =
          some (render f')) ∧
    ((pre.map (fun x => x.2.Name)).Nodup →
      ∀ x ∈ pre, ∃ f f', registeredFile w.pkgs x.1 x.2.Name = some f ∧
        clientFileToAST parseExpr x.2 (some f) = (some f', .ok ()) ∧
        (WriteClientPackages parseExpr render w clientpackages).1.disk x.2.Name =
          some (render f')) := by
  rw [WriteClientPackages_eq_batchLoop, hbatch]
  obtain ⟨herr, hother, hrewritten, hexact⟩ :=
    batchLoop_first_failure parseExpr render pre post packagename bad w hregistered hpre hbad
  exact ⟨herr, hother _, fun x _ hx => hother _ hx, hrewritten, hexact⟩

/-- The first failure rule on a submission of three files of package `p`: `a.go`, whose
literals parse, then `b.go` with a field of type literal `chan<>`, then `b.go` again. -/
theorem WriteClientPackages_first_failure_witness :
    batchFiles submissionBadMiddle =
      [("p", editedA)] ++ ("p", editedBadB) :: [("p", editedB)] ∧
    (∀ x ∈ [("p", editedA)] ++ [("p", editedBadB)],
      (registeredFile worldAB.pkgs x.1 x.2.Name).isSome = true) ∧
    (∀ x ∈ [("p", editedA)], LiteralsParse parseSimple x.2) ∧
    ¬ LiteralsParse parseSimple editedBadB ∧
    ((∃ err : SynthesisError,
      (WriteClientPackages parseSimple renderSimple worldAB submissionBadMiddle).2 =
        .error err) ∧
    (editedBadB.Name ∉ [("p", editedA)].map (fun x => x.2.Name) →
      (WriteClientPackages parseSimple renderSimple worldAB submissionBadMiddle).1.disk
        editedBadB.Name = worldAB.disk editedBadB.Name) ∧
    (∀ x ∈ [("p", editedB)], x.2.Name ∉ [("p", editedA)].map (fun x => x.2.Name) →
      (WriteClientPackages parseSimple renderSimple worldAB submissionBadMiddle).1.disk
        x.2.Name = worldAB.disk x.2.Name) ∧
    (∀ x ∈ [("p", editedA)], ∃ y ∈ [("p", editedA)], y.2.Name = x.2.Name ∧
      ∃ f f', clientFileToAST parseSimple y.2 (some f) = (some f', .ok ()) ∧
        (WriteClientPackages parseSimple renderSimple worldAB submissionBadMiddle).1.disk
          x.2.Name = some (renderSimple f')) ∧
    (([("p", editedA)].map (fun x => x.2.Name)).Nodup →
      ∀ x ∈ [("p", editedA)], ∃ f f', registeredFile worldAB.pkgs x.1 x.2.Name = some f ∧
        clientFileToAST parseSimple x.2 (some f) = (some f', .ok ()) ∧
        (WriteClientPackages parseSimple renderSimple worldAB submissionBadMiddle).1.disk
          x.2.Name = some (renderSimple f'))) :=
  have h1 : batchFiles submissionBadMiddle =
      [("p", editedA)] ++ ("p", editedBadB) :: [("p", editedB)] := rfl
  have h3 : ∀ x ∈ [("p", editedA)] ++ [("p", editedBadB)],
      (registeredFile worldAB.pkgs x.1 x.2.Name).isSome = true := by
    intro x hx
    simp only [List.singleton_append, List.mem_cons, List.mem_singleton, List.not_mem_nil,
      or_false] at hx
    rcases hx with rfl | rfl <;> rfl
  have h4 : ∀ x ∈ [("p", editedA)], LiteralsParse parseSimple x.2 := by
    simp [LiteralsParse, Parses, editedA, parseSimple]
  have h5 : ¬ LiteralsParse parseSimple editedBadB := by
    simp [LiteralsParse, Parses, editedBadB, parseSimple]
  ⟨h1, h3, h4, h5,
    WriteClientPackages_first_failure parseSimple renderSimple worldAB submissionBadMiddle
      [("p", editedA)] [("p", editedB)] "p" editedBadB h1 h3 h4 h5⟩

/-- C8 (counterexample). The submission names `b.go` twice, first with literals that
parse, then with a field of type literal `chan<>`: the second file is the first file whose
literals fail to parse. The call returns the `SynthesisError` of that file, whose content
on disk is no longer the one before the call: the first of the two files has rewritten
it. -/
theorem WriteClientPackages_rewrites_failing_file :
    batchFiles submissionTwiceB = [("p", editedB), ("p", editedBadB)] ∧
    LiteralsParse parseSimple editedB ∧
    ¬ LiteralsParse parseSimple editedBadB ∧
    (WriteClientPackages parseSimple renderSimple worldAB submissionTwiceB).2 =
      .error (.fieldType "cannot parse chan<>") ∧
    worldAB.disk editedBadB.Name = some "original text of b.go" ∧
    (WriteClientPackages parseSimple renderSimple worldAB submissionTwiceB).1.disk
      editedBadB.Name = some "package p // 2 declarations" := by
  refine ⟨rfl, ?_, ?_, rfl, rfl, ?_⟩
  · simp [LiteralsParse, Parses, editedB, parseSimple]
  · simp [LiteralsParse, Parses, editedBadB, parseSimple]
  · decide

/-- The run of the example submission: the call returns the error of the literal `chan<>`,
`b.go` is unchanged on disk and `a.go` holds the rendering of its rewritten tree. -/
theorem WriteClientPackages_chan_example :
    (WriteClientPackages parseSimple renderSimple worldAB submissionBadSecond).2 =
      .error (.fieldType "cannot parse chan<>") ∧
    (WriteClientPackages parseSimple renderSimple worldAB submissionBadSecond).1.disk "b.go" =
      some "original text of b.go" ∧
    (WriteClientPackages parseSimple renderSimple worldAB submissionBadSecond).1.disk "a.go" =
      some "package p // 2 declarations" := by
  refine ⟨rfl, ?_, ?_⟩
  · rfl
  · decide

/-- C9. A submission that names a package absent from the registry, or a file absent
from the parsed files of its package, makes `WriteClientPackages` panic (nil pointer
dereference) instead of returning. -/
theorem WriteClientPackages_panics_on_unknown (parseExpr : String → Except String ast.Expr)
    (render : ast.File → String) :
    (WriteClientPackages parseExpr render worldAB submissionUnknownPackage).2 =
      .panic "invalid memory address or nil pointer dereference" ∧
    (WriteClientPackages parseExpr render worldAB submissionUnknownFile).2 =
      .panic "invalid memory address or nil pointer dereference" :=
  ⟨rfl, rfl⟩

end parse

namespace parse

theorem keptSpecs_eq_filter (specs : List ast.Spec) :
    keptSpecs specs = specs.filter (fun spec => !isStructSpec spec) := by
  induction specs with
  | nil => rfl
  | cons spec rest ih =>
    cases spec with
    | ImportSpec path => simp [keptSpecs, isStructSpec, ih]
    | ValueSpec names typ values => simp [keptSpecs, isStructSpec, ih]
    | TypeSpec name tparams typ =>
      cases typ <;> simp [keptSpecs, isStructSpec, ih]

theorem keptSpecs_length_pos_iff (specs : List ast.Spec) :
    (keptSpecs specs).length > 0 ↔ ¬ (specs.all isStructSpec = true) := by
  rw [keptSpecs_eq_filter]
  induction specs with
  | nil => simp
  | cons spec rest ih =>
    by_cases h : isStructSpec spec = true
    · simp [h] at ih ⊢
      exact ih
    · simp [h]

theorem nonStructPart_eq_visitDecl (decl : ast.Decl) :
    nonStructPart decl = if (visitDecl decl).2 = true then some (visitDecl decl).1 else none := by
  cases decl with
  | GenDecl d =>
    unfold nonStructPart visitDecl
    by_cases htok : d.Tok = ast.Token.TYPE
    · by_cases hall : d.Specs.all isStructSpec = true
      · have hlen : ¬ (keptSpecs d.Specs).length > 0 := by
          rw [keptSpecs_length_pos_iff]; exact not_not.2 hall
        simp [htok, hall, hlen]
      · have hlen : (keptSpecs d.Specs).length > 0 := by
          rw [keptSpecs_length_pos_iff]; exact hall
        rw [keptSpecs_eq_filter] at hlen
        simp only [if_pos htok, if_neg hall, keptSpecs_eq_filter, if_pos hlen, if_true]
    · simp [htok]
  | FuncDecl d => simp [nonStructPart, visitDecl]
  | BadDecl => simp [nonStructPart, visitDecl]

/-- The function `removeStructDecls` returns the non-struct declarations, in order. -/
theorem removeStructDecls_eq_nonStructDecls (decls : List ast.Decl) :
    removeStructDecls decls = nonStructDecls decls := by
  unfold nonStructDecls
  induction decls with
  | nil => rfl
  | cons decl rest ih =>
    unfold removeStructDecls
    rw [List.filterMap_cons, nonStructPart_eq_visitDecl, ih]
    by_cases h : (visitDecl decl).2 = true <;> simp [h]

theorem clientFileToAST_of_first_kept (parseExpr : String → Except String ast.Expr)
    (clientfile : File) (f : ast.File) (newStructs : List ast.Decl)
    (hfirst : ∀ first, f.Decls.head? = some first → nonStructPart first ≠ none)
    (hdecls : clientFileToDecls parseExpr clientfile = (newStructs, none)) :
    clientFileToAST parseExpr clientfile (some f) =
      (some { f with Decls := (nonStructDecls f.Decls).take 1 ++ newStructs ++
                (nonStructDecls f.Decls).drop 1 }, .ok ()) := by
  unfold clientFileToAST
  simp only [hdecls]
  rw [removeStructDecls_eq_nonStructDecls]
  cases hd : f.Decls with
  | nil => simp [nonStructDecls]
  | cons first rest =>
    have hkept := hfirst first (by simp [hd])
    rw [nonStructPart_eq_visitDecl] at hkept
    have hkept' : (visitDecl first).2 = true := by
      by_contra hc
      simp [hc] at hkept
    have hns : nonStructDecls (first :: rest) = (visitDecl first).1 :: nonStructDecls rest := by
      simp [nonStructDecls, List.filterMap_cons, nonStructPart_eq_visitDecl, hkept']
    simp [hns]

/-- C5 (amended). When the first declaration of the original file is not a type
declaration that declares struct types only (or the file has no declaration) and every
literal of the edited File parses, `clientFileToAST` succeeds and the declaration list it
produces is the first non-struct declaration of the original file, then the synthesized
declarations, then the other non-struct declarations of the original file in their order:
every non-struct declaration is there exactly once, in the original relative order. -/
theorem clientFileToAST_keeps_non_struct_decls (parseExpr : String → Except String ast.Expr)
    (clientfile : File) (f : ast.File)
    (hfirst : ∀ first, f.Decls.head? = some first → nonStructPart first ≠ none)
    (hparse : LiteralsParse parseExpr clientfile) :
    ∃ f' newStructs,
      clientFileToAST parseExpr clientfile (some f) = (some f', .ok ()) ∧
      clientFileToDecls parseExpr clientfile = (newStructs, none) ∧
      f'.Decls = (nonStructDecls f.Decls).take 1 ++ newStructs ++
        (nonStructDecls f.Decls).drop 1 := by
  obtain ⟨newStructs, hdecls, _⟩ := clientFileToDecls_of_parse parseExpr clientfile hparse
  exact ⟨_, newStructs, clientFileToAST_of_first_kept parseExpr clientfile f newStructs hfirst
    hdecls, hdecls, rfl⟩

end parse

namespace parse

/-- The frame rule on a file that starts with an import block. -/
theorem clientFileToAST_keeps_non_struct_decls_witness :
    (∀ first, fileWithImport.Decls.head? = some first → nonStructPart first ≠ none) ∧
    LiteralsParse parseSimple editedA ∧
    ∃ f' newStructs,
      clientFileToAST parseSimple editedA (some fileWithImport) = (some f', .ok ()) ∧
      clientFileToDecls parseSimple editedA = (newStructs, none) ∧
      f'.Decls = (nonStructDecls fileWithImport.Decls).take 1 ++ newStructs ++
        (nonStructDecls fileWithImport.Decls).drop 1 :=
  have h1 : ∀ first, fileWithImport.Decls.head? = some first → nonStructPart first ≠ none := by
    intro first hfirst
    simp only [fileWithImport, List.head?_cons, Option.some.injEq] at hfirst
    subst hfirst
    simp [declImport, nonStructPart]
  have h2 : LiteralsParse parseSimple editedA := by
    simp [LiteralsParse, Parses, editedA, parseSimple]
  ⟨h1, h2, clientFileToAST_keeps_non_struct_decls parseSimple editedA fileWithImport h1 h2⟩

/-- C5 (counterexample). The original file is `type A struct { B *B }` followed by
`func main`; every literal of the edited File parses. The call succeeds, and the function
declaration, a non-struct declaration of the original file, is absent from the
declaration list produced. -/
theorem clientFileToAST_loses_function :
    LiteralsParse parseSimple editedA ∧
    declMain ∈ nonStructDecls fileNoImport.Decls ∧
    ∃ f', clientFileToAST parseSimple editedA (some fileNoImport) = (some f', .ok ()) ∧
      declMain ∉ f'.Decls := by
  refine ⟨by simp [LiteralsParse, Parses, editedA, parseSimple], ?_, ?_⟩
  · simp [nonStructDecls, fileNoImport, nonStructPart, declA, declMain, isStructSpec]
  · refine ⟨{ Name := "p",
              Decls := [declA, structDecl "A" [.mk ["B"] (.StarExpr (.Ident "B"))]] }, rfl, ?_⟩
    simp [declMain, declA, structDecl]

theorem structSpecsOfSpecs_keptSpecs (specs : List ast.Spec) :
    structSpecsOfSpecs (keptSpecs specs) = [] := by
  induction specs with
  | nil => rfl
  | cons spec rest ih =>
    cases spec with
    | ImportSpec path => simp [keptSpecs, structSpecsOfSpecs, ih]
    | ValueSpec names typ values => simp [keptSpecs, structSpecsOfSpecs, ih]
    | TypeSpec name tparams typ =>
      cases typ <;> simp [keptSpecs, structSpecsOfSpecs, ih]

theorem structSpecsOfSpecs_filter (specs : List ast.Spec) :
    structSpecsOfSpecs (specs.filter (fun spec => !isStructSpec spec)) = [] := by
  rw [← keptSpecs_eq_filter]
  exact structSpecsOfSpecs_keptSpecs specs

theorem structSpecs_nonStructPart (d d' : ast.Decl) (h : nonStructPart d = some d') :
    structSpecs [d'] = [] := by
  cases d with
  | GenDecl g =>
    simp only [nonStructPart] at h
    by_cases htok : g.Tok = ast.Token.TYPE
    · rw [if_pos htok] at h
      split at h
      · cases h
      · injection h with h
        subst h
        simp [structSpecs, structSpecsOfSpecs_filter]
    · rw [if_neg htok] at h
      injection h with h
      subst h
      simp [structSpecs, htok]
  | FuncDecl fd =>
    simp only [nonStructPart, Option.some.injEq] at h
    subst h
    rfl
  | BadDecl =>
    simp only [nonStructPart, Option.some.injEq] at h
    subst h
    rfl

theorem structSpecs_eq_nil (l : List ast.Decl) (h : ∀ d ∈ l, structSpecs [d] = []) :
    structSpecs l = [] := by
  induction l with
  | nil => rfl
  | cons d rest ih =>
    have hd := h d (List.mem_cons_self _ _)
    have hrest := ih (fun d' hd' => h d' (List.mem_cons_of_mem _ hd'))
    have : d :: rest = [d] ++ rest := rfl
    rw [this, structSpecs_append, hd, hrest]
    rfl

theorem structSpecs_of_mem_nonStructDecls (decls : List ast.Decl) (d : ast.Decl)
    (h : d ∈ nonStructDecls decls) : structSpecs [d] = [] := by
  unfold nonStructDecls at h
  obtain ⟨d₀, _, hd₀⟩ := List.mem_filterMap.1 h
  exact structSpecs_nonStructPart d₀ d hd₀

theorem structSpecs_splice (decls newStructs : List ast.Decl) :
    structSpecs ((nonStructDecls decls).take 1 ++ newStructs ++ (nonStructDecls decls).drop 1) =
      structSpecs newStructs := by
  rw [structSpecs_append, structSpecs_append,
    structSpecs_eq_nil _ (fun d hd =>
      structSpecs_of_mem_nonStructDecls decls d (List.mem_of_mem_take hd)),
    structSpecs_eq_nil _ (fun d hd =>
      structSpecs_of_mem_nonStructDecls decls d (List.mem_of_mem_drop hd))]
  simp

/-- C6 (amended). When the first declaration of the original file is not a type
declaration that declares struct types only (or the file has no declaration) and every
literal of the edited File parses, `clientFileToAST` succeeds and the struct type
declarations of the declaration list it produces are exactly the synthesized ones, one
per Struct of the edited File, in order: no struct type declaration of the original file
remains. -/
theorem clientFileToAST_struct_decls_synthesized
    (parseExpr : String → Except String ast.Expr) (clientfile : File) (f : ast.File)
    (hfirst : ∀ first, f.Decls.head? = some first → nonStructPart first ≠ none)
    (hparse : LiteralsParse parseExpr clientfile) :
    ∃ f' newStructs,
      clientFileToAST parseExpr clientfile (some f) = (some f', .ok ()) ∧
      clientFileToDecls parseExpr clientfile = (newStructs, none) ∧
      structSpecs f'.Decls = structSpecs newStructs ∧
      List.Forall₂ (StructFrom parseExpr) (structSpecs f'.Decls) clientfile.Structs := by
  obtain ⟨newStructs, hdecls, _, hall⟩ := clientFileToDecls_of_parse parseExpr clientfile hparse
  refine ⟨_, newStructs,
    clientFileToAST_of_first_kept parseExpr clientfile f newStructs hfirst hdecls, hdecls, ?_, ?_⟩
  · exact structSpecs_splice f.Decls newStructs
  · simp only [structSpecs_splice]
    exact hall

/-- The struct declarations after splicing into a file that starts with an import
block. -/
theorem clientFileToAST_struct_decls_synthesized_witness :
    (∀ first, fileWithImport.Decls.head? = some first → nonStructPart first ≠ none) ∧
    LiteralsParse parseSimple editedA ∧
    ∃ f' newStructs,
      clientFileToAST parseSimple editedA (some fileWithImport) = (some f', .ok ()) ∧
      clientFileToDecls parseSimple editedA = (newStructs, none) ∧
      structSpecs f'.Decls = structSpecs newStructs ∧
      List.Forall₂ (StructFrom parseSimple) (structSpecs f'.Decls) editedA.Structs :=
  have h1 : ∀ first, fileWithImport.Decls.head? = some first → nonStructPart first ≠ none := by
    intro first hfirst
    simp only [fileWithImport, List.head?_cons, Option.some.injEq] at hfirst
    subst hfirst
    simp [declImport, nonStructPart]
  have h2 : LiteralsParse parseSimple editedA := by
    simp [LiteralsParse, Parses, editedA, parseSimple]
  ⟨h1, h2, clientFileToAST_struct_decls_synthesized parseSimple editedA fileWithImport h1 h2⟩

/-- C6 (counterexample). The original file declares only `type B struct{}` and the edited
File has no Struct. The call succeeds and the declaration list produced still holds the
struct type declaration `B` of the original file, while nothing was synthesized. -/
theorem clientFileToAST_keeps_first_struct :
    LiteralsParse parseSimple editedNoStructs ∧
    editedNoStructs.Structs = [] ∧
    (clientFileToDecls parseSimple editedNoStructs).1 = [] ∧
    ∃ f', clientFileToAST parseSimple editedNoStructs (some fileOnlyB) = (some f', .ok ()) ∧
      structSpecs f'.Decls = [("B", [])] := by
  refine ⟨by simp [LiteralsParse, editedNoStructs], rfl, rfl, ?_⟩
  exact ⟨{ Name := "p", Decls := [declB] }, rfl, rfl⟩

end parse

namespace parse

theorem attachMethod_shape (structName : String) (method : Method) (l : List Struct) :
    (attachMethod structName method l).map structShape = l.map structShape := by
  induction l with
  | nil => rfl
  | cons s rest ih =>
    unfold attachMethod
    by_cases h : s.Name = structName
    · simp [h, structShape]
    · simp [h, ih]

theorem specsLoop_structs (fmt : ast.Expr → String) (fname packageName : String)
    (specs : List ast.Spec) (acc : Extraction) :
    (specsLoop fmt fname packageName specs acc).structs =
      acc.structs ++ (structSpecsOfSpecs specs).map (structOfSpec fmt packageName) := by
  induction specs generalizing acc with
  | nil => simp [specsLoop, structSpecsOfSpecs]
  | cons spec rest ih =>
    cases spec with
    | ImportSpec path => simp [specsLoop, structSpecsOfSpecs, ih]
    | ValueSpec names typ values => simp [specsLoop, structSpecsOfSpecs, ih]
    | TypeSpec name tparams typ =>
      cases typ <;> simp [specsLoop, structSpecsOfSpecs, ih, structOfSpec]

theorem declStep_of_receiverOK (fmt : ast.Expr → String) (fname packageName : String)
    (acc : Extraction) (d : ast.Decl) (h : receiverOK d = true) :
    ∃ acc', declStep fmt fname packageName acc d = .ok acc' ∧
      acc'.structs.map structShape =
        acc.structs.map structShape ++
          (structSpecs [d]).map (fun spec => structShape (structOfSpec fmt packageName spec)) := by
  cases d with
  | GenDecl g =>
    by_cases htok : g.Tok = ast.Token.TYPE
    · simp only [declStep, if_pos htok]
      refine ⟨_, rfl, ?_⟩
      simp [specsLoop_structs, structSpecs, htok]
    · simp only [declStep, if_neg htok]
      exact ⟨acc, rfl, by simp [structSpecs, htok]⟩
  | FuncDecl fd =>
    simp only [receiverOK] at h
    simp only [declStep]
    cases hrecv : fd.Recv with
    | none => exact ⟨_, rfl, by simp [structSpecs]⟩
    | some list =>
      cases list with
      | nil => exact ⟨_, rfl, by simp [structSpecs]⟩
      | cons recv others =>
        simp only [hrecv] at h
        cases hname : receiverName recv.Typ with
        | ok structName =>
          simp only [hname]
          exact ⟨_, rfl, by simp [structSpecs, attachMethod_shape]⟩
        | error e => simp [hname] at h
        | panic msg => simp [hname] at h
  | BadDecl => exact ⟨acc, rfl, by simp [structSpecs]⟩

theorem receiverOK_of_declStep (fmt : ast.Expr → String) (fname packageName : String)
    (acc acc' : Extraction) (d : ast.Decl)
    (h : declStep fmt fname packageName acc d = .ok acc') : receiverOK d = true := by
  cases d with
  | GenDecl g => rfl
  | FuncDecl fd =>
    simp only [declStep] at h
    simp only [receiverOK]
    cases hrecv : fd.Recv with
    | none => rfl
    | some list =>
      cases list with
      | nil => rfl
      | cons recv others =>
        simp only [hrecv] at h
        cases hname : receiverName recv.Typ with
        | ok structName => simp only [hname]
        | error e => simp [hname] at h
        | panic msg => simp [hname] at h
  | BadDecl => rfl

theorem declsLoop_of_receiverOK (fmt : ast.Expr → String) (fname packageName : String)
    (decls : List ast.Decl) (acc : Extraction) (h : ∀ d ∈ decls, receiverOK d = true) :
    ∃ acc', declsLoop fmt fname packageName decls acc = .ok acc' ∧
      acc'.structs.map structShape =
        acc.structs.map structShape ++
          (structSpecs decls).map (fun spec => structShape (structOfSpec fmt packageName spec)) := by
  induction decls generalizing acc with
  | nil => exact ⟨acc, rfl, by simp [structSpecs]⟩
  | cons d rest ih =>
    obtain ⟨acc₁, hstep, hshape₁⟩ :=
      declStep_of_receiverOK fmt fname packageName acc d (h d (List.mem_cons_self _ _))
    obtain ⟨acc₂, hloop, hshape₂⟩ := ih acc₁ (fun d' hd' => h d' (List.mem_cons_of_mem _ hd'))
    refine ⟨acc₂, by simp [declsLoop, hstep, hloop], ?_⟩
    have hsplit : d :: rest = [d] ++ rest := rfl
    rw [hshape₂, hshape₁, hsplit, structSpecs_append]
    simp

theorem receiverOK_of_declsLoop (fmt : ast.Expr → String) (fname packageName : String)
    (decls : List ast.Decl) (acc acc' : Extraction)
    (h : declsLoop fmt fname packageName decls acc = .ok acc') :
    ∀ d ∈ decls, receiverOK d = true := by
  induction decls generalizing acc with
  | nil => intro d hd; cases hd
  | cons d rest ih =>
    unfold declsLoop at h
    cases hstep : declStep fmt fname packageName acc d with
    | ok acc₁ =>
      rw [hstep] at h
      intro d' hd'
      rcases List.mem_cons.1 hd' with rfl | hd'
      · exact receiverOK_of_declStep fmt fname packageName acc acc₁ _ hstep
      · exact ih acc₁ h d' hd'
    | error e => rw [hstep] at h; cases h
    | panic msg => rw [hstep] at h; cases h

theorem methodsLoop_receiverOK (parseExpr : String → Except String ast.Expr)
    (structName : String) (l : List Method) (decls : List ast.Decl)
    (h : methodsLoop parseExpr structName l = .ok decls) :
    ∀ d ∈ decls, receiverOK d = true := by
  induction l generalizing decls with
  | nil =>
    simp only [methodsLoop, Except.ok.injEq] at h
    subst h
    intro d hd; cases hd
  | cons m rest ih =>
    unfold methodsLoop at h
    cases hr : returnsLoop parseExpr m.ReturnType with
    | error e => rw [hr] at h; cases h
    | ok results =>
      rw [hr] at h
      cases hm : methodsLoop parseExpr structName rest with
      | error e => rw [hm] at h; cases h
      | ok decls' =>
        rw [hm] at h
        simp only [Except.ok.injEq] at h
        subst h
        intro d hd
        rcases List.mem_cons.1 hd with rfl | hd
        · rfl
        · exact ih decls' hm d hd

theorem structsLoop_receiverOK (parseExpr : String → Except String ast.Expr)
    (l : List Struct) (decls : List ast.Decl) (h : structsLoop parseExpr l = .ok decls) :
    ∀ d ∈ decls, receiverOK d = true := by
  induction l generalizing decls with
  | nil =>
    simp only [structsLoop, Except.ok.injEq] at h
    subst h
    intro d hd; cases hd
  | cons st rest ih =>
    unfold structsLoop at h
    cases hf : fieldsLoop parseExpr st.Fields with
    | error e => rw [hf] at h; cases h
    | ok fields =>
      rw [hf] at h
      cases hm : methodsLoop parseExpr st.Name st.Methods with
      | error e => rw [hm] at h; cases h
      | ok methods =>
        rw [hm] at h
        cases hr : structsLoop parseExpr rest with
        | error e => rw [hr] at h; cases h
        | ok decls' =>
          rw [hr] at h
          simp only [Except.ok.injEq] at h
          subst h
          intro d hd
          rcases List.mem_cons.1 hd with rfl | hd
          · rfl
          · rcases List.mem_append.1 hd with hd | hd
            · exact methodsLoop_receiverOK parseExpr _ _ methods hm d hd
            · exact ih decls' hr d hd

theorem receiverOK_of_nonStructPart (d d' : ast.Decl) (h : nonStructPart d = some d')
    (hd : receiverOK d = true) : receiverOK d' = true := by
  cases d with
  | GenDecl g =>
    simp only [nonStructPart] at h
    split at h
    · split at h
      · cases h
      · injection h with h; subst h; rfl
    · injection h with h; subst h; rfl
  | FuncDecl fd =>
    simp only [nonStructPart, Option.some.injEq] at h
    subst h
    exact hd
  | BadDecl =>
    simp only [nonStructPart, Option.some.injEq] at h
    subst h
    rfl

theorem receiverOK_of_mem_nonStructDecls (decls : List ast.Decl)
    (h : ∀ d ∈ decls, receiverOK d = true) :
    ∀ d ∈ nonStructDecls decls, receiverOK d = true := by
  intro d hd
  unfold nonStructDecls at hd
  obtain ⟨d₀, hd₀, hpart⟩ := List.mem_filterMap.1 hd
  exact receiverOK_of_nonStructPart d₀ d hpart (h d₀ hd₀)

theorem fields_shape_of_forall₂ (fmt : ast.Expr → String)
    (parseExpr : String → Except String ast.Expr) (packageName : String)
    (fields : List ast.Field) (l : List Field)
    (hall : List.Forall₂ (FieldFrom parseExpr) fields l)
    (hround : ∀ fld ∈ l, ∃ e, parseExpr fld.Typ.Literal = .ok e ∧ fmt e = fld.Typ.Literal) :
    (structFields fmt packageName fields).map (fun fld => (fld.Name, fld.Typ.Literal)) =
      l.map (fun fld => (fld.Name, fld.Typ.Literal)) := by
  induction hall with
  | nil => rfl
  | @cons a cf fields' l' hhead _ ih =>
    obtain ⟨hnames, hparse⟩ := hhead
    obtain ⟨e, he, hfmt⟩ := hround cf (List.mem_cons_self _ _)
    have hea : e = a.Typ := by
      rw [he] at hparse
      injection hparse
    subst hea
    have ih' := ih (fun fld hfld => hround fld (List.mem_cons_of_mem _ hfld))
    unfold structFields at ih' ⊢
    simp only [List.flatMap_cons, List.map_append, hnames, List.map_cons, List.map_nil, ih',
      hfmt, List.singleton_append]

theorem structs_shape_of_forall₂ (fmt : ast.Expr → String)
    (parseExpr : String → Except String ast.Expr) (packageName : String)
    (specs : List (String × List ast.Field)) (l : List Struct)
    (hall : List.Forall₂ (StructFrom parseExpr) specs l)
    (hround : ∀ st ∈ l, ∀ fld ∈ st.Fields,
      ∃ e, parseExpr fld.Typ.Literal = .ok e ∧ fmt e = fld.Typ.Literal) :
    specs.map (fun spec => structShape (structOfSpec fmt packageName spec)) =
      l.map structShape := by
  induction hall with
  | nil => rfl
  | @cons spec st specs' l' hhead _ ih =>
    obtain ⟨hname, hfields⟩ := hhead
    have ih' := ih (fun st' hst' => hround st' (List.mem_cons_of_mem _ hst'))
    have hf := fields_shape_of_forall₂ fmt parseExpr packageName spec.2 st.Fields hfields
      (hround st (List.mem_cons_self _ _))
    rw [List.map_cons, List.map_cons, ih']
    congr 1
    simp only [structShape, structOfSpec, hname, hf]

/-- C4 (amended). Round trip of the structs. Let `f` be a parsed file whose first
declaration is not a type declaration that declares struct types only (or that has no
declaration), and `extracted` the File that `GetStructsFile` extracts from it. Assume that
re-parsing a field type literal of `extracted` gives an expression whose printed text is
that literal, and that the return type literals of `extracted` parse (both follow from:
re-parsing the printed text of a type expression gives back that expression). Then
splicing `extracted` back into `f` with `clientFileToAST` succeeds, re-extracting the
result succeeds, and the re-extracted Structs have the same names, field names and field
literal type text, in the same order. -/
theorem roundtrip_struct_shapes (fmt : ast.Expr → String)
    (parseExpr : String → Except String ast.Expr) (f : ast.File) (fname packageName : String)
    (extracted : File) (edges : List Edge) (functions : List Function)
    (hfirst : ∀ first, f.Decls.head? = some first → nonStructPart first ≠ none)
    (hextract : GetStructsFile fmt f fname packageName = .ok (extracted, edges, functions))
    (hround : ∀ st ∈ extracted.Structs,
      (∀ fld ∈ st.Fields, ∃ e, parseExpr fld.Typ.Literal = .ok e ∧ fmt e = fld.Typ.Literal) ∧
      (∀ m ∈ st.Methods, ∀ t ∈ m.ReturnType, Parses parseExpr t.Literal)) :
    ∃ f' extracted' edges' functions',
      clientFileToAST parseExpr extracted (some f) = (some f', .ok ()) ∧
      GetStructsFile fmt f' fname packageName = .ok (extracted', edges', functions') ∧
      extracted'.Structs.map structShape = extracted.Structs.map structShape := by
  have hparse : LiteralsParse parseExpr extracted := by
    intro st hst
    refine ⟨fun fld hfld => ?_, (hround st hst).2⟩
    obtain ⟨e, he, _⟩ := (hround st hst).1 fld hfld
    exact ⟨e, he⟩
  obtain ⟨newStructs, hdecls, hloop, hall⟩ := clientFileToDecls_of_parse parseExpr extracted hparse
  have hast := clientFileToAST_of_first_kept parseExpr extracted f newStructs hfirst hdecls
  -- the first extraction did not panic: every receiver of the original file is well formed
  have hrecv : ∀ d ∈ f.Decls, receiverOK d = true := by
    unfold GetStructsFile at hextract
    cases hl : declsLoop fmt fname packageName f.Decls
        { structs := [], edges := [], globalFunctions := [] } with
    | ok acc => exact receiverOK_of_declsLoop fmt fname packageName _ _ acc hl
    | error e => rw [hl] at hextract; cases hextract
    | panic msg => rw [hl] at hextract; cases hextract
  have hrecv' : ∀ d ∈ (nonStructDecls f.Decls).take 1 ++ newStructs ++
      (nonStructDecls f.Decls).drop 1, receiverOK d = true := by
    intro d hd
    rcases List.mem_append.1 hd with hd | hd
    · rcases List.mem_append.1 hd with hd | hd
      · exact receiverOK_of_mem_nonStructDecls f.Decls hrecv d (List.mem_of_mem_take hd)
      · exact structsLoop_receiverOK parseExpr _ newStructs hloop d hd
    · exact receiverOK_of_mem_nonStructDecls f.Decls hrecv d (List.mem_of_mem_drop hd)
  obtain ⟨acc', hloop', hshape⟩ := declsLoop_of_receiverOK fmt fname packageName _
    { structs := [], edges := [], globalFunctions := [] } hrecv'
  refine ⟨_, { Name := fname, Structs := acc'.structs }, acc'.edges, acc'.globalFunctions,
    hast, ?_, ?_⟩
  · simp only [GetStructsFile, hloop']
  · simp only [hshape, structSpecs_splice, List.map_nil, List.nil_append]
    exact structs_shape_of_forall₂ fmt parseExpr packageName _ _ hall
      (fun st hst => (hround st hst).1)

/-- The round trip on a file that starts with an import block. -/
theorem roundtrip_struct_shapes_witness :
    (∀ first, fileWithImport.Decls.head? = some first → nonStructPart first ≠ none) ∧
    GetStructsFile printSimple fileWithImport "a.go" "p" =
      .ok (editedA,
        [{ From := { FieldTypeName := "B", StructName := "A", PackageName := "p",
                     FileName := "a.go" },
           To := { FieldTypeName := "", StructName := "B", PackageName := "p",
                   FileName := "" } }],
        [{ Name := "main", Package := "p", File := "a.go", Parameters := [],
           ReturnType := [] }]) ∧
    (∀ st ∈ editedA.Structs,
      (∀ fld ∈ st.Fields,
        ∃ e, parseSimple fld.Typ.Literal = .ok e ∧ printSimple e = fld.Typ.Literal) ∧
      (∀ m ∈ st.Methods, ∀ t ∈ m.ReturnType, Parses parseSimple t.Literal)) ∧
    ∃ f' extracted' edges' functions',
      clientFileToAST parseSimple editedA (some fileWithImport) = (some f', .ok ()) ∧
      GetStructsFile printSimple f' "a.go" "p" = .ok (extracted', edges', functions') ∧
      extracted'.Structs.map structShape = editedA.Structs.map structShape :=
  have h1 : ∀ first, fileWithImport.Decls.head? = some first → nonStructPart first ≠ none := by
    intro first hfirst
    simp only [fileWithImport, List.head?_cons, Option.some.injEq] at hfirst
    subst hfirst
    simp [declImport, nonStructPart]
  have h3 : ∀ st ∈ editedA.Structs,
      (∀ fld ∈ st.Fields,
        ∃ e, parseSimple fld.Typ.Literal = .ok e ∧ printSimple e = fld.Typ.Literal) ∧
      (∀ m ∈ st.Methods, ∀ t ∈ m.ReturnType, Parses parseSimple t.Literal) := by
    simp [editedA, parseSimple, printSimple]
  ⟨h1, rfl, h3,
    roundtrip_struct_shapes printSimple parseSimple fileWithImport "a.go" "p" editedA _ _
      h1 rfl h3⟩

/-- C4 (counterexample). The parsed file is `type A struct { B *B }` followed by
`func main`, without import block; `editedA` is the File extracted from it, and its only
literal `*B` re-parses to the expression it was printed from. Splicing `editedA` back and
re-extracting yields the struct `A` twice: the original declaration is reinserted at the
head of the file next to the synthesized one. -/
theorem roundtrip_duplicates_first_struct :
    GetStructsFile printSimple fileNoImport "a.go" "p" =
      .ok (editedA,
        [{ From := { FieldTypeName := "B", StructName := "A", PackageName := "p",
                     FileName := "a.go" },
           To := { FieldTypeName := "", StructName := "B", PackageName := "p",
                   FileName := "" } }],
        [{ Name := "main", Package := "p", File := "a.go", Parameters := [],
           ReturnType := [] }]) ∧
    (∀ st ∈ editedA.Structs,
      (∀ fld ∈ st.Fields,
        ∃ e, parseSimple fld.Typ.Literal = .ok e ∧ printSimple e = fld.Typ.Literal) ∧
      (∀ m ∈ st.Methods, ∀ t ∈ m.ReturnType, Parses parseSimple t.Literal)) ∧
    ∃ f' extracted' edges' functions',
      clientFileToAST parseSimple editedA (some fileNoImport) = (some f', .ok ()) ∧
      GetStructsFile printSimple f' "a.go" "p" = .ok (extracted', edges', functions') ∧
      editedA.Structs.map structShape = [("A", [("B", "*B")])] ∧
      extracted'.Structs.map structShape = [("A", [("B", "*B")]), ("A", [("B", "*B")])] ∧
      extracted'.Structs.map structShape ≠ editedA.Structs.map structShape := by
  refine ⟨rfl, by simp [editedA, parseSimple, printSimple], ?_⟩
  refine ⟨{ Name := "p",
            Decls := [declA, structDecl "A" [.mk ["B"] (.StarExpr (.Ident "B"))]] },
    { Name := "a.go",
      Structs := [{ Name := "A",
                    Fields := [{ Name := "B", Typ := { Literal := "*B", Structs := ["B"] } }],
                    Methods := [] },
                  { Name := "A",
                    Fields := [{ Name := "B", Typ := { Literal := "*B", Structs := ["B"] } }],
                    Methods := [] }] },
    _, _, rfl, rfl, rfl, rfl, by decide⟩

end parse

namespace parse

theorem append_dot_ne_primitive (x sel : String) : isPrimitive (x ++ "." ++ sel) = false := by
  have hmem : '.' ∈ (x ++ "." ++ sel).data := by
    simp [String.data_append]
  unfold isPrimitive
  rw [decide_eq_false_iff_not]
  intro h
  simp only [List.mem_cons, List.mem_singleton, List.not_mem_nil, or_false] at h
  rcases h with h | h | h | h | h | h | h | h | h | h | h | h | h | h | h | h | h | h | h | h <;>
    (rw [h] at hmem; revert hmem; decide)

mutual
theorem extractType_sound (packageName : String) :
    ∀ e : ast.Expr,
      (∀ name ∈ (extractType packageName e).1, isPrimitive name = false) ∧
      (∀ node ∈ (extractType packageName e).2, node.FieldTypeName = "" ∧ node.FileName = "")
  | .Ident name => by
    unfold extractType
    by_cases h : isPrimitive name = true
    · simp [h]
    · simp [h]
  | .SelectorExpr x sel => by
    unfold extractType
    cases x <;> simp [append_dot_ne_primitive]
  | .StarExpr x => by
    unfold extractType
    exact extractType_sound packageName x
  | .ArrayType _ elt => by
    unfold extractType
    exact extractType_sound packageName elt
  | .MapType key value => by
    unfold extractType
    have hk := extractType_sound packageName key
    have hv := extractType_sound packageName value
    constructor
    · intro name hname
      rcases List.mem_append.1 hname with h | h
      · exact hk.1 name h
      · exact hv.1 name h
    · intro node hnode
      rcases List.mem_append.1 hnode with h | h
      · exact hk.2 node h
      · exact hv.2 node h
  | .StructType fields => by
    unfold extractType
    exact extractTypeFields_sound packageName fields
  | .InterfaceType _ => by
    unfold extractType
    constructor
    · intro name hname
      rw [List.mem_singleton.1 hname]
      decide
    · intro node hnode; cases hnode
  | .FuncType _ _ => by
    unfold extractType
    constructor
    · intro name hname
      rw [List.mem_singleton.1 hname]
      decide
    · intro node hnode; cases hnode
  | .ChanType _ value => by
    unfold extractType
    have hv := extractType_sound packageName value
    constructor
    · intro name hname
      rcases List.mem_append.1 hname with h | h
      · exact hv.1 name h
      · rw [List.mem_singleton.1 h]
        decide
    · exact hv.2
  | .IndexExpr _ _ => by unfold extractType; simp
  | .ParenExpr _ => by unfold extractType; simp
  | .Ellipsis _ => by unfold extractType; simp
  | .Other _ _ => by unfold extractType; simp
theorem extractTypeFields_sound (packageName : String) :
    ∀ fields : List ast.Field,
      (∀ name ∈ (extractTypeFields packageName fields).1, isPrimitive name = false) ∧
      (∀ node ∈ (extractTypeFields packageName fields).2,
        node.FieldTypeName = "" ∧ node.FileName = "")
  | [] => by unfold extractTypeFields; simp
  | (.mk _ t) :: rest => by
    unfold extractTypeFields
    have ht := extractType_sound packageName t
    have hr := extractTypeFields_sound packageName rest
    constructor
    · intro name hname
      rcases List.mem_append.1 hname with h | h
      · exact ht.1 name h
      · exact hr.1 name h
    · intro node hnode
      rcases List.mem_append.1 hnode with h | h
      · exact ht.2 node h
      · exact hr.2 node h
end

/-- C14. For a bare identifier `n` and enclosing package `p`, `GetTypes` returns exactly
one reference (the name `n` and the node of struct `n` in package `p`) when `n` is not in
the primitive table, and no name and no node when it is; and no name that `GetTypes`
returns, for any type expression, is a primitive. -/
theorem GetTypes_ident (n p : String) :
    (isPrimitive n = false → GetTypes (.Ident n) p = ([n], [referenceNode n p])) ∧
    (isPrimitive n = true → GetTypes (.Ident n) p = ([], [])) ∧
    (∀ e : ast.Expr, ∀ name ∈ (GetTypes e p).1, isPrimitive name = false) := by
  refine ⟨?_, ?_, ?_⟩
  · intro h
    simp [GetTypes, extractType, h, referenceNode]
  · intro h
    simp [GetTypes, extractType, h]
  · intro e
    exact (extractType_sound p e).1

/-- The primitive table on a few names. -/
theorem isPrimitive_examples :
    isPrimitive "int" = true ∧ isPrimitive "error" = true ∧ isPrimitive "string" = true ∧
    isPrimitive "Int" = false ∧ isPrimitive "B" = false ∧ isPrimitive "any" = false := by
  decide

/-- C15. For a qualified identifier `pkg.Type`, whatever the enclosing package `p` and
whatever the spelling of `Type`, `GetTypes` returns exactly one name, `pkg.Type`, and one
node, struct `Type` of package `pkg`. -/
theorem GetTypes_qualified (pkg typ p : String) :
    GetTypes (.SelectorExpr (.Ident pkg) typ) p =
      ([pkg ++ "." ++ typ], [referenceNode typ pkg]) := by
  simp [GetTypes, extractType, referenceNode]

/-- C16 (amended). A pointer to `T` and an array or slice of `T` give exactly the names
and nodes of `T`; a channel of `T` gives the nodes of `T` and the names of `T` followed by
the marker `chan`. -/
theorem GetTypes_wrappers (T : ast.Expr) (p : String) (len : Option ast.Expr) (dir : Nat) :
    GetTypes (.StarExpr T) p = GetTypes T p ∧
    GetTypes (.ArrayType len T) p = GetTypes T p ∧
    GetTypes (.ChanType dir T) p = ((GetTypes T p).1 ++ ["chan"], (GetTypes T p).2) := by
  refine ⟨?_, ?_, ?_⟩ <;> simp [GetTypes, extractType]

/-- C16 (counterexample). For the channel type `chan T`, `GetTypes` returns the names
`T` and `chan`, not the names it returns for `T`. -/
theorem GetTypes_chan_marker :
    GetTypes (.ChanType 0 (.Ident "T")) "p" = (["T", "chan"], [referenceNode "T" "p"]) ∧
    GetTypes (.Ident "T") "p" = (["T"], [referenceNode "T" "p"]) ∧
    GetTypes (.ChanType 0 (.Ident "T")) "p" ≠ GetTypes (.Ident "T") "p" := by
  refine ⟨rfl, rfl, ?_⟩
  intro h
  have h1 := congrArg (fun r => r.1.length) h
  revert h1
  decide

end parse

namespace parse

theorem specsLoop_edges (fmt : ast.Expr → String) (fname packageName : String)
    (specs : List ast.Spec) (acc : Extraction) :
    (specsLoop fmt fname packageName specs acc).edges =
      acc.edges ++ (structSpecsOfSpecs specs).flatMap
        (fun spec => structEdges fname packageName spec.1 spec.2) := by
  induction specs generalizing acc with
  | nil => simp [specsLoop, structSpecsOfSpecs]
  | cons spec rest ih =>
    cases spec with
    | ImportSpec path => simp [specsLoop, structSpecsOfSpecs, ih]
    | ValueSpec names typ values => simp [specsLoop, structSpecsOfSpecs, ih]
    | TypeSpec name tparams typ =>
      cases typ <;> simp [specsLoop, structSpecsOfSpecs, ih]

theorem declStep_edges (fmt : ast.Expr → String) (fname packageName : String)
    (acc acc' : Extraction) (d : ast.Decl)
    (h : declStep fmt fname packageName acc d = .ok acc') :
    acc'.edges = acc.edges ++ (structSpecs [d]).flatMap
      (fun spec => structEdges fname packageName spec.1 spec.2) := by
  cases d with
  | GenDecl g =>
    by_cases htok : g.Tok = ast.Token.TYPE
    · simp only [declStep, if_pos htok, Result.ok.injEq] at h
      subst h
      simp [specsLoop_edges, structSpecs, htok]
    · simp only [declStep, if_neg htok, Result.ok.injEq] at h
      subst h
      simp [structSpecs, htok]
  | FuncDecl fd =>
    simp only [declStep] at h
    cases hrecv : fd.Recv with
    | none =>
      simp only [hrecv, Result.ok.injEq] at h
      subst h
      simp [structSpecs]
    | some list =>
      cases list with
      | nil =>
        simp only [hrecv, Result.ok.injEq] at h
        subst h
        simp [structSpecs]
      | cons recv others =>
        simp only [hrecv] at h
        cases hname : receiverName recv.Typ with
        | ok structName =>
          simp only [hname, Result.ok.injEq] at h
          subst h
          simp [structSpecs]
        | error e => simp [hname] at h
        | panic msg => simp [hname] at h
  | BadDecl =>
    simp only [declStep, Result.ok.injEq] at h
    subst h
    simp [structSpecs]

theorem declsLoop_edges (fmt : ast.Expr → String) (fname packageName : String)
    (decls : List ast.Decl) (acc acc' : Extraction)
    (h : declsLoop fmt fname packageName decls acc = .ok acc') :
    acc'.edges = acc.edges ++ (structSpecs decls).flatMap
      (fun spec => structEdges fname packageName spec.1 spec.2) := by
  induction decls generalizing acc with
  | nil =>
    simp only [declsLoop, Result.ok.injEq] at h
    subst h
    simp [structSpecs]
  | cons d rest ih =>
    unfold declsLoop at h
    cases hstep : declStep fmt fname packageName acc d with
    | ok acc₁ =>
      rw [hstep] at h
      have hsplit : d :: rest = [d] ++ rest := rfl
      rw [ih acc₁ h, declStep_edges fmt fname packageName acc acc₁ d hstep, hsplit,
        structSpecs_append]
      simp
    | error e => rw [hstep] at h; cases h
    | panic msg => rw [hstep] at h; cases h

/-- C17. For a parsed file whose method receivers are identifiers or pointers to
identifiers, `GetStructsFile` returns, and its draft edges are, for every top-level struct
declaration `S` in order, every field declaration of `S` in order, every name `x` of the
field in order and every node that `GetTypes` returns for the field type in order, the
edge from `x` of `S` in file `fname` of package `p` to that node; each of these nodes has
an empty file name. No other draft edge is emitted. -/
theorem GetStructsFile_draft_edges (fmt : ast.Expr → String) (f : ast.File)
    (fname p : String) (hrecv : ∀ d ∈ f.Decls, receiverOK d = true) :
    (∃ file functions, GetStructsFile fmt f fname p =
      .ok (file,
        (structSpecs f.Decls).flatMap (fun spec =>
          spec.2.flatMap (fun field =>
            field.Names.flatMap (fun x =>
              (GetTypes field.Typ p).2.map (fun node =>
                { From := { FieldTypeName := x, StructName := spec.1, FileName := fname,
                            PackageName := p },
                  To := node })))),
        functions)) ∧
    (∀ spec ∈ structSpecs f.Decls, ∀ field ∈ spec.2, ∀ node ∈ (GetTypes field.Typ p).2,
      node.FileName = "") := by
  constructor
  · obtain ⟨acc, hloop, _⟩ := declsLoop_of_receiverOK fmt fname p f.Decls
      { structs := [], edges := [], globalFunctions := [] } hrecv
    have hedges := declsLoop_edges fmt fname p f.Decls _ acc hloop
    refine ⟨{ Name := fname, Structs := acc.structs }, acc.globalFunctions, ?_⟩
    simp only [GetStructsFile, hloop, hedges, List.nil_append]
    rfl
  · intro spec _ field _ node hnode
    exact ((extractType_sound p field.Typ).2 node hnode).2

/-- The draft edges of the file `type A struct { B *B }`, `func main`. -/
theorem GetStructsFile_draft_edges_witness :
    (∀ d ∈ fileNoImport.Decls, receiverOK d = true) ∧
    ((∃ file functions, GetStructsFile printSimple fileNoImport "a.go" "p" =
      .ok (file,
        (structSpecs fileNoImport.Decls).flatMap (fun spec =>
          spec.2.flatMap (fun field =>
            field.Names.flatMap (fun x =>
              (GetTypes field.Typ "p").2.map (fun node =>
                { From := { FieldTypeName := x, StructName := spec.1, FileName := "a.go",
                            PackageName := "p" },
                  To := node })))),
        functions)) ∧
    (∀ spec ∈ structSpecs fileNoImport.Decls, ∀ field ∈ spec.2,
      ∀ node ∈ (GetTypes field.Typ "p").2, node.FileName = "")) :=
  have h : ∀ d ∈ fileNoImport.Decls, receiverOK d = true := by
    intro d hd
    simp only [fileNoImport, List.mem_cons, List.mem_singleton, List.not_mem_nil,
      or_false] at hd
    rcases hd with rfl | rfl <;> rfl
  ⟨h, GetStructsFile_draft_edges printSimple fileNoImport "a.go" "p" h⟩

/-- The draft edges of the file `type A struct { B *B }`, `func main`, evaluated. -/
theorem GetStructsFile_draft_edges_example :
    (structSpecs fileNoImport.Decls).flatMap (fun spec =>
      spec.2.flatMap (fun field =>
        field.Names.flatMap (fun x =>
          (GetTypes field.Typ "p").2.map (fun node =>
            ({ From := { FieldTypeName := x, StructName := spec.1, FileName := "a.go",
                         PackageName := "p" },
               To := node } : Edge))))) =
      [{ From := { FieldTypeName := "B", StructName := "A", FileName := "a.go",
                   PackageName := "p" },
         To := referenceNode "B" "p" }] := by
  rfl

end parse

namespace parse

theorem declsLoop_append (fmt : ast.Expr → String) (fname packageName : String)
    (a b : List ast.Decl) (acc : Extraction) :
    declsLoop fmt fname packageName (a ++ b) acc =
      match declsLoop fmt fname packageName a acc with
      | .ok acc' => declsLoop fmt fname packageName b acc'
      | .error e => .error e
      | .panic msg => .panic msg := by
  induction a generalizing acc with
  | nil => simp [declsLoop]
  | cons d rest ih =>
    simp only [List.cons_append, declsLoop]
    cases declStep fmt fname packageName acc d with
    | ok acc₁ => exact ih acc₁
    | error e => rfl
    | panic msg => rfl

theorem attachMethod_of_first (structName : String) (method : Method)
    (before : List Struct) (s : Struct) (after : List Struct)
    (hname : s.Name = structName) (hfirst : ∀ s' ∈ before, s'.Name ≠ structName) :
    attachMethod structName method (before ++ s :: after) =
      before ++ { s with Methods := s.Methods ++ [method] } :: after := by
  induction before with
  | nil => simp [attachMethod, hname]
  | cons b rest ih =>
    have hb : b.Name ≠ structName := hfirst b (List.mem_cons_self _ _)
    have ih' := ih (fun s' hs' => hfirst s' (List.mem_cons_of_mem _ hs'))
    simp only [List.cons_append, attachMethod, if_neg hb]
    exact congrArg (fun l => b :: l) ih'

theorem attachMethod_of_absent (structName : String) (method : Method) (l : List Struct)
    (h : ∀ s ∈ l, s.Name ≠ structName) : attachMethod structName method l = l := by
  induction l with
  | nil => rfl
  | cons s rest ih =>
    have hs : s.Name ≠ structName := h s (List.mem_cons_self _ _)
    simp only [attachMethod, if_neg hs]
    rw [ih (fun s' hs' => h s' (List.mem_cons_of_mem _ hs'))]

theorem extendsStruct_refl (s : Struct) : ExtendsStruct s s :=
  ⟨rfl, rfl, [], by simp⟩

theorem extendsStruct_trans {a b c : Struct} (hab : ExtendsStruct a b)
    (hbc : ExtendsStruct b c) : ExtendsStruct a c := by
  obtain ⟨hn₁, hf₁, m₁, hm₁⟩ := hab
  obtain ⟨hn₂, hf₂, m₂, hm₂⟩ := hbc
  exact ⟨hn₂.trans hn₁, hf₂.trans hf₁, m₁ ++ m₂, by rw [hm₂, hm₁, List.append_assoc]⟩

theorem forall₂_extends_refl (l : List Struct) : List.Forall₂ ExtendsStruct l l := by
  induction l with
  | nil => exact List.Forall₂.nil
  | cons s rest ih => exact List.Forall₂.cons (extendsStruct_refl s) ih

theorem forall₂_extends_trans {a b c : List Struct} (hab : List.Forall₂ ExtendsStruct a b)
    (hbc : List.Forall₂ ExtendsStruct b c) : List.Forall₂ ExtendsStruct a c := by
  induction hab generalizing c with
  | nil => cases hbc; exact List.Forall₂.nil
  | cons hhead _ ih =>
    cases hbc with
    | cons hhead' htail' => exact List.Forall₂.cons (extendsStruct_trans hhead hhead') (ih htail')

theorem forall₂_split_left {R : Struct → Struct → Prop} (a b c : List Struct)
    (h : List.Forall₂ R (a ++ b) c) :
    ∃ c₁ c₂, c = c₁ ++ c₂ ∧ List.Forall₂ R a c₁ ∧ List.Forall₂ R b c₂ := by
  induction a generalizing c with
  | nil => exact ⟨[], c, rfl, List.Forall₂.nil, h⟩
  | cons x rest ih =>
    cases h with
    | cons hhead htail =>
      obtain ⟨c₁, c₂, hc, h₁, h₂⟩ := ih _ htail
      exact ⟨_ :: c₁, c₂, by rw [hc]; rfl, List.Forall₂.cons hhead h₁, h₂⟩

theorem attachMethod_extends (structName : String) (method : Method) (l : List Struct) :
    List.Forall₂ ExtendsStruct l (attachMethod structName method l) := by
  induction l with
  | nil => exact List.Forall₂.nil
  | cons s rest ih =>
    unfold attachMethod
    by_cases h : s.Name = structName
    · rw [if_pos h]
      exact List.Forall₂.cons ⟨rfl, rfl, [method], rfl⟩ (forall₂_extends_refl rest)
    · rw [if_neg h]
      exact List.Forall₂.cons (extendsStruct_refl s) ih

/-- One step of the extraction keeps the structs built so far, in order, possibly with
further methods, and adds new structs after them. -/
theorem declStep_extends (fmt : ast.Expr → String) (fname packageName : String)
    (acc acc' : Extraction) (d : ast.Decl)
    (h : declStep fmt fname packageName acc d = .ok acc') :
    ∃ kept added, acc'.structs = kept ++ added ∧
      List.Forall₂ ExtendsStruct acc.structs kept := by
  cases d with
  | GenDecl g =>
    by_cases htok : g.Tok = ast.Token.TYPE
    · simp only [declStep, if_pos htok, Result.ok.injEq] at h
      subst h
      exact ⟨acc.structs, _, specsLoop_structs fmt fname packageName g.Specs acc,
        forall₂_extends_refl _⟩
    · simp only [declStep, if_neg htok, Result.ok.injEq] at h
      subst h
      exact ⟨acc.structs, [], by simp, forall₂_extends_refl _⟩
  | FuncDecl fd =>
    simp only [declStep] at h
    cases hrecv : fd.Recv with
    | none =>
      simp only [hrecv, Result.ok.injEq] at h
      subst h
      exact ⟨acc.structs, [], by simp, forall₂_extends_refl _⟩
    | some list =>
      cases list with
      | nil =>
        simp only [hrecv, Result.ok.injEq] at h
        subst h
        exact ⟨acc.structs, [], by simp, forall₂_extends_refl _⟩
      | cons recv others =>
        simp only [hrecv] at h
        cases hname : receiverName recv.Typ with
        | ok structName =>
          simp only [hname, Result.ok.injEq] at h
          subst h
          exact ⟨attachMethod structName
              { Name := fd.Name, ReturnType := parseReturnTypes fmt fd.Typ.Results } acc.structs,
            [], by simp, attachMethod_extends _ _ _⟩
        | error e => simp [hname] at h
        | panic msg => simp [hname] at h
  | BadDecl =>
    simp only [declStep, Result.ok.injEq] at h
    subst h
    exact ⟨acc.structs, [], by simp, forall₂_extends_refl _⟩

theorem declsLoop_extends (fmt : ast.Expr → String) (fname packageName : String)
    (decls : List ast.Decl) (acc acc' : Extraction)
    (h : declsLoop fmt fname packageName decls acc = .ok acc') :
    ∃ kept added, acc'.structs = kept ++ added ∧
      List.Forall₂ ExtendsStruct acc.structs kept := by
  induction decls generalizing acc with
  | nil =>
    simp only [declsLoop, Result.ok.injEq] at h
    subst h
    exact ⟨acc.structs, [], by simp, forall₂_extends_refl _⟩
  | cons d rest ih =>
    unfold declsLoop at h
    cases hstep : declStep fmt fname packageName acc d with
    | ok acc₁ =>
      rw [hstep] at h
      obtain ⟨kept₁, added₁, hs₁, hext₁⟩ := declStep_extends fmt fname packageName acc acc₁ d hstep
      obtain ⟨kept₂, added₂, hs₂, hext₂⟩ := ih acc₁ h
      rw [hs₁] at hext₂
      obtain ⟨c₁, c₂, hc, hk, _⟩ := forall₂_split_left kept₁ added₁ kept₂ hext₂
      refine ⟨c₁, c₂ ++ added₂, ?_, forall₂_extends_trans hext₁ hk⟩
      rw [hs₂, hc, List.append_assoc]
    | error e => rw [hstep] at h; cases h
    | panic msg => rw [hstep] at h; cases h

theorem declStep_method (fmt : ast.Expr → String) (fname packageName : String)
    (acc : Extraction) (decl : ast.FuncDecl) (recv : ast.Field) (others : List ast.Field)
    (T : String) (hrecv : decl.Recv = some (recv :: others))
    (htype : recv.Typ = .Ident T ∨ recv.Typ = .StarExpr (.Ident T)) :
    declStep fmt fname packageName acc (.FuncDecl decl) =
      .ok { acc with structs := attachMethod T (methodOf fmt decl) acc.structs } := by
  have hname : receiverName recv.Typ = .ok T := by
    rcases htype with h | h <;> rw [h] <;> rfl
  simp only [declStep, hrecv, hname, methodOf]

theorem GetStructsFile_ok_iff (fmt : ast.Expr → String) (f : ast.File)
    (fname packageName : String) (file : File) (edges : List Edge)
    (functions : List Function) :
    GetStructsFile fmt f fname packageName = .ok (file, edges, functions) ↔
      ∃ acc, declsLoop fmt fname packageName f.Decls
          { structs := [], edges := [], globalFunctions := [] } = .ok acc ∧
        file = { Name := fname, Structs := acc.structs } ∧ edges = acc.edges ∧
        functions = acc.globalFunctions := by
  unfold GetStructsFile
  cases declsLoop fmt fname packageName f.Decls
      { structs := [], edges := [], globalFunctions := [] } with
  | ok acc =>
    simp only [Result.ok.injEq, Prod.mk.injEq]
    constructor
    · rintro ⟨h1, h2, h3⟩
      exact ⟨acc, rfl, h1.symm, h2.symm, h3.symm⟩
    · rintro ⟨acc', hacc, h1, h2, h3⟩
      subst hacc
      exact ⟨h1.symm, h2.symm, h3.symm⟩
  | error e => simp
  | panic msg => simp

/-- C18. Let a file consist of the declarations `pre`, then a function declaration with
receiver type `T` or `*T`, then the declarations `post` (all receivers of `post` being
identifiers or pointers to identifiers), and let `filePre` be what `GetStructsFile`
extracts from `pre` alone. If `s` is the first Struct named `T` of `filePre`, the whole
file is extracted without failure and the Struct at the position of `s` has the name and
fields of `s` and the methods of `s` followed by the new Method, followed by the methods
attached later. If `filePre` has no Struct named `T`, the extraction of the whole file
returns exactly what it returns for the file without the declaration: the method is
nowhere in the output. -/
theorem GetStructsFile_method_attachment (fmt : ast.Expr → String) (n fname p : String)
    (pre post : List ast.Decl) (decl : ast.FuncDecl) (recv : ast.Field)
    (others : List ast.Field) (T : String)
    (filePre : File) (edgesPre : List Edge) (functionsPre : List Function)
    (hrecv : decl.Recv = some (recv :: others))
    (htype : recv.Typ = .Ident T ∨ recv.Typ = .StarExpr (.Ident T))
    (hpre : GetStructsFile fmt ⟨n, pre⟩ fname p = .ok (filePre, edgesPre, functionsPre))
    (hpost : ∀ d ∈ post, receiverOK d = true) :
    (∀ before s after, filePre.Structs = before ++ s :: after → s.Name = T →
      (∀ s' ∈ before, s'.Name ≠ T) →
      ∃ file edges functions before' s' after',
        GetStructsFile fmt ⟨n, pre ++ .FuncDecl decl :: post⟩ fname p =
          .ok (file, edges, functions) ∧
        file.Structs = before' ++ s' :: after' ∧ before'.length = before.length ∧
        s'.Name = T ∧ s'.Fields = s.Fields ∧
        ∃ later, s'.Methods = s.Methods ++ methodOf fmt decl :: later) ∧
    ((∀ s ∈ filePre.Structs, s.Name ≠ T) →
      GetStructsFile fmt ⟨n, pre ++ .FuncDecl decl :: post⟩ fname p =
        GetStructsFile fmt ⟨n, pre ++ post⟩ fname p ∧
      ∃ file edges functions,
        GetStructsFile fmt ⟨n, pre ++ post⟩ fname p = .ok (file, edges, functions)) := by
  obtain ⟨accPre, hloopPre, hfile, _, _⟩ :=
    (GetStructsFile_ok_iff fmt ⟨n, pre⟩ fname p filePre edgesPre functionsPre).1 hpre
  have hstructs : filePre.Structs = accPre.structs := by rw [hfile]
  have hstep := declStep_method fmt fname p accPre decl recv others T hrecv htype
  constructor
  · intro before s after hsplit hname hfirst
    obtain ⟨accFinal, hloopPost, _⟩ := declsLoop_of_receiverOK fmt fname p post
      { accPre with structs := attachMethod T (methodOf fmt decl) accPre.structs } hpost
    have hwhole : declsLoop fmt fname p (pre ++ .FuncDecl decl :: post)
        { structs := [], edges := [], globalFunctions := [] } = .ok accFinal := by
      rw [declsLoop_append]
      simp only at hloopPre
      simp only [hloopPre, declsLoop, hstep]
      exact hloopPost
    obtain ⟨kept, added, hfinal, hext⟩ := declsLoop_extends fmt fname p post _ accFinal hloopPost
    simp only at hext
    rw [← hstructs, hsplit, attachMethod_of_first T _ before s after hname hfirst] at hext
    obtain ⟨before', rest', hkept, hbefore, hrest⟩ := forall₂_split_left _ _ _ hext
    cases hrest with
    | @cons _ s' _ after' hhead htail =>
      obtain ⟨hn, hf, later, hm⟩ := hhead
      refine ⟨{ Name := fname, Structs := accFinal.structs }, accFinal.edges,
        accFinal.globalFunctions, before', s', after' ++ added, ?_, ?_, ?_, ?_, ?_, later, ?_⟩
      · simp only [GetStructsFile, hwhole]
      · simp only [hfinal, hkept, List.append_assoc, List.cons_append]
      · exact (List.Forall₂.length_eq hbefore).symm
      · rw [hn]; exact hname
      · rw [hf]
      · rw [hm]; simp
  · intro habsent
    rw [hstructs] at habsent
    have hsame : declsLoop fmt fname p (pre ++ .FuncDecl decl :: post)
        { structs := [], edges := [], globalFunctions := [] } =
        declsLoop fmt fname p (pre ++ post)
          { structs := [], edges := [], globalFunctions := [] } := by
      rw [declsLoop_append, declsLoop_append]
      simp only at hloopPre
      simp only [hloopPre, declsLoop, hstep,
        attachMethod_of_absent T (methodOf fmt decl) accPre.structs habsent]
    constructor
    · simp only [GetStructsFile, hsame]
    · obtain ⟨accFinal, hloopPost, _⟩ := declsLoop_of_receiverOK fmt fname p post accPre hpost
      refine ⟨{ Name := fname, Structs := accFinal.structs }, accFinal.edges,
        accFinal.globalFunctions, ?_⟩
      simp only [GetStructsFile, declsLoop_append]
      simp only at hloopPre
      simp only [hloopPre, hloopPost]

/-- The attachment rule on `type A struct{}` followed by `func (a *A) M() int` and
`func (a A) N()`. -/
theorem GetStructsFile_method_attachment_witness :
    funcDeclM.Recv = some (.mk ["a"] (.StarExpr (.Ident "A")) :: []) ∧
    ((ast.Field.mk ["a"] (.StarExpr (.Ident "A"))).Typ = .Ident "A" ∨
      (ast.Field.mk ["a"] (.StarExpr (.Ident "A"))).Typ = .StarExpr (.Ident "A")) ∧
    GetStructsFile printSimple ⟨"p", [declEmptyA]⟩ "a.go" "p" =
      .ok ({ Name := "a.go", Structs := [{ Name := "A", Fields := [], Methods := [] }] },
        [], []) ∧
    (∀ d ∈ [ast.Decl.FuncDecl funcDeclN], receiverOK d = true) ∧
    ((∀ before s after,
      (File.mk "a.go" [{ Name := "A", Fields := [], Methods := [] }]).Structs =
        before ++ s :: after → s.Name = "A" →
      (∀ s' ∈ before, s'.Name ≠ "A") →
      ∃ file edges functions before' s' after',
        GetStructsFile printSimple
            ⟨"p", [declEmptyA] ++ .FuncDecl funcDeclM :: [.FuncDecl funcDeclN]⟩ "a.go" "p" =
          .ok (file, edges, functions) ∧
        file.Structs = before' ++ s' :: after' ∧ before'.length = before.length ∧
        s'.Name = "A" ∧ s'.Fields = s.Fields ∧
        ∃ later, s'.Methods = s.Methods ++ methodOf printSimple funcDeclM :: later) ∧
    ((∀ s ∈ (File.mk "a.go" [{ Name := "A", Fields := [], Methods := [] }]).Structs,
        s.Name ≠ "A") →
      GetStructsFile printSimple
          ⟨"p", [declEmptyA] ++ .FuncDecl funcDeclM :: [.FuncDecl funcDeclN]⟩ "a.go" "p" =
        GetStructsFile printSimple ⟨"p", [declEmptyA] ++ [.FuncDecl funcDeclN]⟩ "a.go" "p" ∧
      ∃ file edges functions,
        GetStructsFile printSimple ⟨"p", [declEmptyA] ++ [.FuncDecl funcDeclN]⟩ "a.go" "p" =
          .ok (file, edges, functions))) :=
  have h4 : ∀ d ∈ [ast.Decl.FuncDecl funcDeclN], receiverOK d = true := by
    intro d hd
    rw [List.mem_singleton.1 hd]
    rfl
  ⟨rfl, Or.inr rfl, rfl, h4,
    GetStructsFile_method_attachment printSimple "p" "a.go" "p" [declEmptyA]
      [.FuncDecl funcDeclN] funcDeclM (.mk ["a"] (.StarExpr (.Ident "A"))) [] "A"
      { Name := "a.go", Structs := [{ Name := "A", Fields := [], Methods := [] }] } [] []
      rfl (Or.inr rfl) rfl h4⟩

/-- Extraction of `fileMethods`: the methods `M` and `N`, declared after `A`, are attached
to `A` in declaration order; the method `Early`, declared before `A`, is neither a Method
nor a Function of the output. -/
theorem GetStructsFile_methods_example :
    GetStructsFile printSimple fileMethods "a.go" "p" =
      .ok ({ Name := "a.go",
             Structs := [{ Name := "A", Fields := [],
                           Methods := [{ Name := "M",
                                         ReturnType := [{ Literal := "int", Structs := [] }] },
                                       { Name := "N", ReturnType := [] }] }] },
        [], []) := by
  rfl

end parse

theorem mapGet_of_mem {α : Type} (m : List (String × α)) (hnodup : (m.map Prod.fst).Nodup)
    (e : String × α) (he : e ∈ m) : mapGet m e.1 = some e.2 := by
  induction m with
  | nil => cases he
  | cons e₀ rest ih =>
    obtain ⟨k₀, v₀⟩ := e₀
    simp only [List.map_cons, List.nodup_cons] at hnodup
    rcases List.mem_cons.1 he with rfl | he
    · simp [mapGet]
    · have hne : k₀ ≠ e.1 := by
        intro h
        exact hnodup.1 (h ▸ List.mem_map_of_mem Prod.fst he)
      simp only [mapGet, if_neg hne]
      exact ih hnodup.2 he

theorem mem_of_mapGet {α : Type} (m : List (String × α)) (k : String) (v : α)
    (h : mapGet m k = some v) : (k, v) ∈ m := by
  induction m with
  | nil => simp [mapGet] at h
  | cons e₀ rest ih =>
    obtain ⟨k₀, v₀⟩ := e₀
    unfold mapGet at h
    by_cases hk : k₀ = k
    · rw [if_pos hk] at h
      injection h with h
      subst hk; subst h
      exact List.mem_cons_self _ _
    · rw [if_neg hk] at h
      exact List.mem_cons_of_mem _ (ih h)

theorem MapOrder.iter_singleton {α : Type} (ord : MapOrder) (e : String × α) :
    ord.iter [e] = [e] :=
  List.perm_singleton.1 (ord.perm [e])

namespace server

open parse

theorem firstSeen_get {α : Type} (key : α → String) (xs : List α) (m : List (String × α))
    (k : String) :
    mapGet (firstSeen key xs m) k =
      match mapGet m k with
      | some v => some v
      | none => xs.find? (fun x => decide (key x = k)) := by
  induction xs generalizing m with
  | nil =>
    simp only [firstSeen, List.find?_nil]
    cases mapGet m k <;> rfl
  | cons x rest ih =>
    unfold firstSeen
    cases hx : mapGet m (key x) with
    | some v =>
      simp only
      rw [ih m]
      cases hk : mapGet m k with
      | some w => rfl
      | none =>
        have hne : key x ≠ k := by
          intro h
          rw [h, hk] at hx
          cases hx
        simp [List.find?_cons, hne]
    | none =>
      simp only
      rw [ih (mapSet m (key x) x), mapGet_mapSet]
      by_cases hkey : key x = k
      · subst hkey
        simp [hx, List.find?_cons]
      · simp only [if_neg hkey]
        cases hk : mapGet m k with
        | some w => rfl
        | none => simp [List.find?_cons, hkey]

theorem filesMapLoop_fst (ord : MapOrder) (l : List (String × File))
    (acc : List File × List File) :
    (filesMapLoop ord l acc).1 = acc.1 ++ l.map Prod.snd := by
  induction l generalizing acc with
  | nil => simp [filesMapLoop]
  | cons e rest ih =>
    obtain ⟨k, file⟩ := e
    obtain ⟨pkgFiles, entries⟩ := acc
    simp only [filesMapLoop, ih, List.map_cons, List.append_assoc, List.singleton_append]

theorem dedupFilesOf_files (ord : MapOrder) (pkg : Package) :
    (dedupFilesOf ord pkg).Files =
      (ord.iter (firstSeen (fun file : File => file.Name) pkg.Files [])).map Prod.snd := by
  simp [dedupFilesOf, filesMapLoop_fst]

theorem removeDuplicates_packages (ord : MapOrder) (clientStruct : ClientStruct) :
    (removeDuplicates ord clientStruct).Packages =
      (ord.iter (firstSeen (fun pkg : Package => pkg.Name) clientStruct.Packages [])).map
        (fun e => dedupFilesOf ord e.2) := by
  simp [removeDuplicates, List.map_map, Function.comp_def]

/-- C12. `removeDuplicates` keeps the first-seen entry per key, whatever the iteration
order of the maps. For every package name `n` of the input Model, with `first` the first
input Package named `n`: the output has a Package named `n`, it is the only one, its file
names are pairwise distinct, and its Files are exactly the first-seen Files of `first`
(for each file name of `first`, the first File of `first` with that name). Nothing of a
later Package named `n` is retained. -/
theorem removeDuplicates_keeps_first_seen (ord : MapOrder) (clientStruct : ClientStruct)
    (n : String) (hn : n ∈ clientStruct.Packages.map (fun pkg => pkg.Name)) :
    ∃ first pkg,
      clientStruct.Packages.find? (fun q => decide (q.Name = n)) = some first ∧
      pkg ∈ (removeDuplicates ord clientStruct).Packages ∧ pkg.Name = n ∧
      (∀ q ∈ (removeDuplicates ord clientStruct).Packages, q.Name = n → q = pkg) ∧
      (pkg.Files.map (fun file => file.Name)).Nodup ∧
      (∀ file, file ∈ pkg.Files ↔
        ∃ m, first.Files.find? (fun g => decide (g.Name = m)) = some file) := by
  obtain ⟨p₀, hp₀, hp₀n⟩ := List.mem_map.1 hn
  -- the first input package named `n`
  obtain ⟨first, hfirst⟩ : ∃ first,
      clientStruct.Packages.find? (fun q => decide (q.Name = n)) = some first := by
    cases hf : clientStruct.Packages.find? (fun q => decide (q.Name = n)) with
    | some first => exact ⟨first, rfl⟩
    | none =>
      have := List.find?_eq_none.1 hf p₀ hp₀
      simp [hp₀n] at this
  have hfirstName : first.Name = n := by
    have := List.find?_some hfirst
    simpa using this
  -- the package map
  obtain ⟨hnodup, hkey⟩ :=
    firstSeen_invariant (fun pkg : Package => pkg.Name) clientStruct.Packages []
      List.nodup_nil (by simp)
  have hperm := ord.perm (firstSeen (fun pkg : Package => pkg.Name) clientStruct.Packages [])
  have hget : mapGet (firstSeen (fun pkg : Package => pkg.Name) clientStruct.Packages []) n =
      some first := by
    rw [firstSeen_get]
    simpa [mapGet] using hfirst
  have hmem := mem_of_mapGet _ _ _ hget
  -- the file map of the first package
  obtain ⟨hfnodup, hfkey⟩ :=
    firstSeen_invariant (fun file : File => file.Name) first.Files []
      List.nodup_nil (by simp)
  have hfperm := ord.perm (firstSeen (fun file : File => file.Name) first.Files [])
  refine ⟨first, dedupFilesOf ord first, hfirst, ?_, hfirstName, ?_, ?_, ?_⟩
  · rw [removeDuplicates_packages]
    exact List.mem_map.2 ⟨(n, first), hperm.mem_iff.2 hmem, rfl⟩
  · intro q hq hqn
    rw [removeDuplicates_packages] at hq
    obtain ⟨e, he, rfl⟩ := List.mem_map.1 hq
    have he' := hperm.mem_iff.1 he
    have hen : e.1 = n := by
      rw [← hkey e he']
      exact hqn
    have := mapGet_of_mem _ hnodup e he'
    rw [hen, hget] at this
    injection this with this
    rw [this]
  · rw [dedupFilesOf_files, List.map_map]
    have hnames : (ord.iter (firstSeen (fun file : File => file.Name) first.Files [])).map
        ((fun file : File => file.Name) ∘ Prod.snd) =
        (ord.iter (firstSeen (fun file : File => file.Name) first.Files [])).map Prod.fst := by
      apply List.map_congr_left
      intro e he
      exact hfkey e (hfperm.mem_iff.1 he)
    rw [hnames]
    exact ((hfperm.map Prod.fst).nodup_iff).2 hfnodup
  · intro file
    rw [dedupFilesOf_files]
    constructor
    · intro hfile
      obtain ⟨e, he, rfl⟩ := List.mem_map.1 hfile
      have he' := hfperm.mem_iff.1 he
      have hg := mapGet_of_mem _ hfnodup e he'
      rw [firstSeen_get] at hg
      exact ⟨e.1, by simpa [mapGet] using hg⟩
    · rintro ⟨m, hm⟩
      have hg : mapGet (firstSeen (fun file : File => file.Name) first.Files []) m =
          some file := by
        rw [firstSeen_get]
        simpa [mapGet] using hm
      exact List.mem_map.2 ⟨(m, file), hfperm.mem_iff.2 (mem_of_mapGet _ _ _ hg), rfl⟩

/-- First-seen packages on the Model of two directories that both declare `main`. -/
theorem removeDuplicates_keeps_first_seen_witness :
    "main" ∈ modelTwoMains.Packages.map (fun pkg => pkg.Name) ∧
    ∃ first pkg,
      modelTwoMains.Packages.find? (fun q => decide (q.Name = "main")) = some first ∧
      pkg ∈ (removeDuplicates insertionOrder modelTwoMains).Packages ∧ pkg.Name = "main" ∧
      (∀ q ∈ (removeDuplicates insertionOrder modelTwoMains).Packages,
        q.Name = "main" → q = pkg) ∧
      (pkg.Files.map (fun file => file.Name)).Nodup ∧
      (∀ file, file ∈ pkg.Files ↔
        ∃ m, first.Files.find? (fun g => decide (g.Name = m)) = some file) :=
  ⟨by decide,
    removeDuplicates_keeps_first_seen insertionOrder modelTwoMains "main" (by decide)⟩

theorem removeDuplicates_single_package (ord : MapOrder) (pkg : Package) (file : File)
    (edges : List Edge) (functions : List Function) (hfiles : pkg.Files = [file]) :
    removeDuplicates ord { Packages := [pkg], Edges := edges, GlobalFunctions := functions } =
      { Packages := [pkg], Edges := edges, GlobalFunctions := functions } := by
  have hpkgs : (removeDuplicates ord
      { Packages := [pkg], Edges := edges, GlobalFunctions := functions }).Packages = [pkg] := by
    rw [removeDuplicates_packages]
    simp only [firstSeen, mapGet, mapSet, MapOrder.iter_singleton, List.map_cons, List.map_nil]
    have hf : (dedupFilesOf ord pkg).Files = pkg.Files := by
      rw [dedupFilesOf_files, hfiles]
      simp only [firstSeen, mapGet, mapSet, MapOrder.iter_singleton, List.map_cons,
        List.map_nil]
    have : dedupFilesOf ord pkg = pkg := by
      cases pkg
      simp only [dedupFilesOf] at hf ⊢
      simp only [hf]
    rw [this]
  simp only [removeDuplicates] at hpkgs ⊢
  rw [hpkgs]

/-- C11. A file that declares `type A struct{}` twice is extracted as a File with two
Structs named `A`, and `removeDuplicates` returns the Model unchanged, whatever the
iteration order of the maps: the File still holds both Structs. -/
theorem removeDuplicates_keeps_duplicate_structs (ord : MapOrder) :
    (∃ pkgmap, GetStructsDirName printSimple treeTwiceA = .ok (modelTwiceA, pkgmap)) ∧
    removeDuplicates ord modelTwiceA = modelTwiceA ∧
    (∀ pkg ∈ (removeDuplicates ord modelTwiceA).Packages, ∀ file ∈ pkg.Files,
      file.Structs.map (fun st => st.Name) = ["A", "A"]) := by
  have h : removeDuplicates ord modelTwiceA = modelTwiceA :=
    removeDuplicates_single_package ord _ _ [] [] rfl
  refine ⟨⟨_, rfl⟩, h, ?_⟩
  rw [h]
  decide

/-- C13. Two scanned directories declare a package `main`; struct `A` of the first has a
field of type `*B` and `B` is declared in `d2/b.go` of the second. `GetStructsDirName`
resolves the edge `A.B → B` to `d2/b.go`. `removeDuplicates` keeps the first package
`main` only and keeps the edge, whatever the iteration order of the maps: the edge names
the file `d2/b.go`, which is the name of no File of the Model. -/
theorem removeDuplicates_leaves_dangling_edge (ord : MapOrder) :
    (∃ pkgmap, GetStructsDirName printSimple treeTwoMains = .ok (modelTwoMains, pkgmap)) ∧
    (removeDuplicates ord modelTwoMains).Edges = [edgeAB "main" "d1/a.go" "d2/b.go"] ∧
    (edgeAB "main" "d1/a.go" "d2/b.go").To.FileName = "d2/b.go" ∧
    (∀ pkg ∈ (removeDuplicates ord modelTwoMains).Packages, ∀ file ∈ pkg.Files,
      file.Name ≠ "d2/b.go") := by
  have hpkgs : (removeDuplicates ord modelTwoMains).Packages =
      [{ Name := "main",
         Files := [{ Name := "d1/a.go",
                     Structs := [{ Name := "A",
                                   Fields := [{ Name := "B",
                                                Typ := { Literal := "*B", Structs := ["B"] } }],
                                   Methods := [] }] }] }] := by
    rw [removeDuplicates_packages]
    simp only [modelTwoMains, firstSeen, mapGet, mapSet, if_true, MapOrder.iter_singleton,
      List.map_cons, List.map_nil]
    simp only [dedupFilesOf, filesMapLoop_fst, firstSeen, mapGet, mapSet,
      MapOrder.iter_singleton, List.map_cons, List.map_nil, List.nil_append]
  refine ⟨⟨_, rfl⟩, rfl, rfl, ?_⟩
  rw [hpkgs]
  decide

end server

namespace parse

/-- C19. For the file `func F(a A) B`, `GetStructsFile` emits the Function `F` with a
parameter and a return type that carry the literal text only: their lists of referenced
names are empty, while `GetTypes` gives the names `A` and `B` for these types. -/
theorem GetStructsFile_function_types_unresolved :
    GetStructsFile printSimple fileFuncF "f.go" "p" =
      .ok ({ Name := "f.go", Structs := [] }, [],
        [{ Name := "F", Package := "p", File := "f.go",
           Parameters := [{ Name := "a", Typ := { Literal := "A", Structs := [] } }],
           ReturnType := [{ Literal := "B", Structs := [] }] }]) ∧
    (GetTypes (.Ident "A") "p").1 = ["A"] ∧
    (GetTypes (.Ident "B") "p").1 = ["B"] ∧
    (∀ (fmt : ast.Expr → String) (expr : ast.Expr), (parseTypeToType fmt expr).Structs = []) :=
  ⟨rfl, rfl, rfl, fun _ _ => rfl⟩

end parse

namespace server

open parse

/-- The traversal of `compareAST` reaches a struct declared inside the function literal
that initializes a variable: a change of its field is a change of the fingerprint. -/
theorem hasChanges_sees_struct_in_initializer :
    inspectStructs ⟨"p", [declImport, declHandler [.mk ["id"] (.Ident "int")]]⟩ =
      [("req", [.mk ["id"] (.Ident "int")])] ∧
    hasChanges (compareExpr printSimple printSimple)
      (stateHandler [.mk ["id"] (.Ident "int")])
      (stateHandler [.mk ["id"] (.Ident "string")]) = true :=
  ⟨rfl, rfl⟩

end server

namespace server

open parse

theorem removeMainFile_of_absent (files : List File)
    (h : ∀ file ∈ files, file.Name ≠ "main.go") : removeMainFile files = files := by
  induction files with
  | nil => rfl
  | cons file rest ih =>
    have hf : file.Name ≠ "main.go" := h file (List.mem_cons_self _ _)
    have ih' := ih (fun g hg => h g (List.mem_cons_of_mem _ hg))
    simp only [removeMainFile, if_neg hf, ih']

theorem removeMainFile_of_first (before : List File) (file : File) (after : List File)
    (hname : file.Name = "main.go") (hfirst : ∀ g ∈ before, g.Name ≠ "main.go") :
    removeMainFile (before ++ file :: after) = before ++ after := by
  induction before with
  | nil => simp [removeMainFile, hname]
  | cons b rest ih =>
    have hb : b.Name ≠ "main.go" := hfirst b (List.mem_cons_self _ _)
    have ih' := ih (fun g hg => hfirst g (List.mem_cons_of_mem _ hg))
    simp only [List.cons_append, removeMainFile, if_neg hb]
    exact congrArg (fun l => b :: l) ih'

theorem dropMainFile_of_absent (packages : List Package)
    (h : ∀ pkg ∈ packages, pkg.Name ≠ "main") : dropMainFile packages = packages := by
  induction packages with
  | nil => rfl
  | cons pkg rest ih =>
    have hp : pkg.Name ≠ "main" := h pkg (List.mem_cons_self _ _)
    have ih' := ih (fun q hq => h q (List.mem_cons_of_mem _ hq))
    simp only [dropMainFile, if_neg hp, ih']

theorem dropMainFile_of_first (before : List Package) (pkg : Package) (after : List Package)
    (hname : pkg.Name = "main") (hfirst : ∀ q ∈ before, q.Name ≠ "main") :
    dropMainFile (before ++ pkg :: after) =
      before ++ { pkg with Files := removeMainFile pkg.Files } :: after := by
  induction before with
  | nil => simp [dropMainFile, hname]
  | cons b rest ih =>
    have hb : b.Name ≠ "main" := hfirst b (List.mem_cons_self _ _)
    have ih' := ih (fun q hq => hfirst q (List.mem_cons_of_mem _ hq))
    simp only [List.cons_append, dropMainFile, if_neg hb]
    exact congrArg (fun l => b :: l) ih'

theorem dropMainFile_names (packages : List Package) :
    (dropMainFile packages).map (fun pkg => pkg.Name) = packages.map (fun pkg => pkg.Name) := by
  induction packages with
  | nil => rfl
  | cons pkg rest ih =>
    unfold dropMainFile
    by_cases hp : pkg.Name = "main"
    · simp [hp]
    · simp [hp, ih]

theorem updateAndBroadcast_of_changed (fmt : ast.Expr → String)
    (compareExpr : ast.Expr → ast.Expr → Bool)
    (dirs : List (Except String (List (String × ast.Package)))) (s : ServerState)
    (clientStruct : ClientStruct) (newPkgs : List (String × ast.Package))
    (hscan : GetStructsDirName fmt dirs = .ok (clientStruct, newPkgs))
    (hchanged : hasChanges compareExpr s.pkgs newPkgs = true) :
    updateAndBroadcast fmt compareExpr dirs s =
      ({ pkgs := newPkgs,
         sent := s.sent ++ [Message.clearLayout] ++
           [Message.model
             { clientStruct with Packages := dropMainFile clientStruct.Packages }] },
        .ok ()) := by
  simp only [updateAndBroadcast, hscan, hchanged, if_true]

theorem updateAndBroadcast_of_unchanged (fmt : ast.Expr → String)
    (compareExpr : ast.Expr → ast.Expr → Bool)
    (dirs : List (Except String (List (String × ast.Package)))) (s : ServerState)
    (clientStruct : ClientStruct) (newPkgs : List (String × ast.Package))
    (hscan : GetStructsDirName fmt dirs = .ok (clientStruct, newPkgs))
    (hsame : hasChanges compareExpr s.pkgs newPkgs = false) :
    updateAndBroadcast fmt compareExpr dirs s =
      ({ s with sent := s.sent ++ [Message.clearLayout] }, .ok ()) := by
  simp [updateAndBroadcast, hscan, hsame]

/-- C21. The registry holds the parse of a tree whose only file declares
`type B struct{}`, and the tree is scanned again unchanged: `hasChanges` returns false
whatever the outcome of `compareExpr`, and `updateAndBroadcast` has sent the clear
message on the broadcast channel (and no Model). -/
theorem updateAndBroadcast_clears_when_unchanged (compareExpr : ast.Expr → ast.Expr → Bool) :
    (∃ clientStruct,
      GetStructsDirName printSimple treeOnlyB = .ok (clientStruct, registryOnlyB)) ∧
    hasChanges compareExpr registryOnlyB registryOnlyB = false ∧
    (updateAndBroadcast printSimple compareExpr treeOnlyB
      { pkgs := registryOnlyB, sent := [] }).1.sent = [Message.clearLayout] := by
  have hsame : hasChanges compareExpr registryOnlyB registryOnlyB = false := rfl
  refine ⟨⟨_, rfl⟩, hsame, ?_⟩
  rw [updateAndBroadcast_of_unchanged printSimple compareExpr treeOnlyB _ _ registryOnlyB rfl
    hsame]
  rfl

/-- C22 (amended). When `updateAndBroadcast` finds the fingerprint changed, it sends the
clear message and then one Model: the Model returned by `GetStructsDirName` (same edges,
same functions, same package names) in which the first File named `main.go` of the first
Package named `main` is left out. Every other Package, File and Struct is the one of the
Model returned by `GetStructsDirName`, and when no Package is named `main`, or the first
one has no File named `main.go`, the packages are the same. -/
theorem updateAndBroadcast_model (fmt : ast.Expr → String)
    (compareExpr : ast.Expr → ast.Expr → Bool)
    (dirs : List (Except String (List (String × ast.Package)))) (s : ServerState)
    (clientStruct : ClientStruct) (newPkgs : List (String × ast.Package))
    (hscan : GetStructsDirName fmt dirs = .ok (clientStruct, newPkgs))
    (hchanged : hasChanges compareExpr s.pkgs newPkgs = true) :
    ∃ m, (updateAndBroadcast fmt compareExpr dirs s).1.sent =
        s.sent ++ [Message.clearLayout, Message.model m] ∧
      m.Edges = clientStruct.Edges ∧ m.GlobalFunctions = clientStruct.GlobalFunctions ∧
      m.Packages.map (fun pkg => pkg.Name) = clientStruct.Packages.map (fun pkg => pkg.Name) ∧
      ((∀ pkg ∈ clientStruct.Packages, pkg.Name ≠ "main") →
        m.Packages = clientStruct.Packages) ∧
      (∀ before pkg after, clientStruct.Packages = before ++ pkg :: after →
        pkg.Name = "main" → (∀ q ∈ before, q.Name ≠ "main") →
        ((∀ file ∈ pkg.Files, file.Name ≠ "main.go") → m.Packages = clientStruct.Packages) ∧
        (∀ filesBefore file filesAfter, pkg.Files = filesBefore ++ file :: filesAfter →
          file.Name = "main.go" → (∀ g ∈ filesBefore, g.Name ≠ "main.go") →
          m.Packages =
            before ++ { pkg with Files := filesBefore ++ filesAfter } :: after)) := by
  refine ⟨{ clientStruct with Packages := dropMainFile clientStruct.Packages }, ?_, rfl, rfl,
    dropMainFile_names _, ?_, ?_⟩
  · rw [updateAndBroadcast_of_changed fmt compareExpr dirs s clientStruct newPkgs hscan hchanged]
    simp
  · intro habsent
    exact dropMainFile_of_absent _ habsent
  · intro before pkg after hsplit hname hfirst
    constructor
    · intro hnofile
      show dropMainFile clientStruct.Packages = clientStruct.Packages
      rw [hsplit, dropMainFile_of_first before pkg after hname hfirst,
        removeMainFile_of_absent pkg.Files hnofile]
    · intro filesBefore file filesAfter hfiles hfname hffirst
      show dropMainFile clientStruct.Packages = _
      rw [hsplit, dropMainFile_of_first before pkg after hname hfirst, hfiles,
        removeMainFile_of_first filesBefore file filesAfter hfname hffirst]

/-- The broadcast after the first scan of the tree of Scenario A. -/
theorem updateAndBroadcast_model_witness :
    GetStructsDirName printSimple treeAB = .ok (modelAB, registryAB) ∧
    hasChanges compareByText ([] : List (String × ast.Package)) registryAB = true ∧
    ∃ m, (updateAndBroadcast printSimple compareByText treeAB
          { pkgs := [], sent := [] }).1.sent =
        [] ++ [Message.clearLayout, Message.model m] ∧
      m.Edges = modelAB.Edges ∧ m.GlobalFunctions = modelAB.GlobalFunctions ∧
      m.Packages.map (fun pkg => pkg.Name) = modelAB.Packages.map (fun pkg => pkg.Name) ∧
      ((∀ pkg ∈ modelAB.Packages, pkg.Name ≠ "main") → m.Packages = modelAB.Packages) ∧
      (∀ before pkg after, modelAB.Packages = before ++ pkg :: after →
        pkg.Name = "main" → (∀ q ∈ before, q.Name ≠ "main") →
        ((∀ file ∈ pkg.Files, file.Name ≠ "main.go") → m.Packages = modelAB.Packages) ∧
        (∀ filesBefore file filesAfter, pkg.Files = filesBefore ++ file :: filesAfter →
          file.Name = "main.go" → (∀ g ∈ filesBefore, g.Name ≠ "main.go") →
          m.Packages =
            before ++ { pkg with Files := filesBefore ++ filesAfter } :: after)) :=
  ⟨rfl, rfl,
    updateAndBroadcast_model printSimple compareByText treeAB { pkgs := [], sent := [] }
      modelAB registryAB rfl rfl⟩

/-- C22 (counterexample). The scanned tree has a package `main` with the files `main.go`
and `a.go`, and the registry is empty, so the fingerprint has changed. The Model returned
by `GetStructsDirName` has both files; the Model that is broadcast has `a.go` only. -/
theorem updateAndBroadcast_drops_main_file :
    GetStructsDirName printSimple treeMain = .ok (modelMain, registryMain) ∧
    hasChanges compareByText ([] : List (String × ast.Package)) registryMain = true ∧
    (modelMain.Packages.map (fun pkg => pkg.Files.map (fun file => file.Name))) =
      [["main.go", "a.go"]] ∧
    ∃ m, (updateAndBroadcast printSimple compareByText treeMain
          { pkgs := [], sent := [] }).1.sent = [Message.clearLayout, Message.model m] ∧
      (m.Packages.map (fun pkg => pkg.Files.map (fun file => file.Name))) = [["a.go"]] ∧
      m.Packages ≠ modelMain.Packages := by
  refine ⟨rfl, rfl, rfl, ?_⟩
  refine ⟨{ modelMain with Packages := dropMainFile modelMain.Packages }, rfl, rfl, ?_⟩
  decide

end server

namespace parse

theorem attachMethod_map_proj {β : Type} (proj : Struct → β)
    (hproj : ∀ (s : Struct) (methods : List Method), proj { s with Methods := methods } = proj s)
    (structName : String) (method : Method) (l : List Struct) :
    (attachMethod structName method l).map proj = l.map proj := by
  induction l with
  | nil => rfl
  | cons s rest ih =>
    unfold attachMethod
    by_cases h : s.Name = structName
    · rw [if_pos h, List.map_cons, List.map_cons, hproj]
    · simp [h, ih]

theorem declStep_map_proj {β : Type} (proj : Struct → β)
    (hproj : ∀ (s : Struct) (methods : List Method), proj { s with Methods := methods } = proj s)
    (fmt : ast.Expr → String) (fname packageName : String)
    (acc acc' : Extraction) (d : ast.Decl)
    (h : declStep fmt fname packageName acc d = .ok acc') :
    acc'.structs.map proj =
      acc.structs.map proj ++
        (structSpecs [d]).map (fun spec => proj (structOfSpec fmt packageName spec)) := by
  cases d with
  | GenDecl g =>
    by_cases htok : g.Tok = ast.Token.TYPE
    · simp only [declStep, if_pos htok, Result.ok.injEq] at h
      subst h
      simp [specsLoop_structs, structSpecs, htok]
    · simp only [declStep, if_neg htok, Result.ok.injEq] at h
      subst h
      simp [structSpecs, htok]
  | FuncDecl fd =>
    simp only [declStep] at h
    cases hrecv : fd.Recv with
    | none =>
      simp only [hrecv, Result.ok.injEq] at h
      subst h
      simp [structSpecs]
    | some list =>
      cases list with
      | nil =>
        simp only [hrecv, Result.ok.injEq] at h
        subst h
        simp [structSpecs]
      | cons recv others =>
        simp only [hrecv] at h
        cases hname : receiverName recv.Typ with
        | ok structName =>
          simp only [hname, Result.ok.injEq] at h
          subst h
          simp [structSpecs, attachMethod_map_proj proj hproj]
        | error e => simp [hname] at h
        | panic msg => simp [hname] at h
  | BadDecl =>
    simp only [declStep, Result.ok.injEq] at h
    subst h
    simp [structSpecs]

theorem declsLoop_map_proj {β : Type} (proj : Struct → β)
    (hproj : ∀ (s : Struct) (methods : List Method), proj { s with Methods := methods } = proj s)
    (fmt : ast.Expr → String) (fname packageName : String)
    (decls : List ast.Decl) (acc acc' : Extraction)
    (h : declsLoop fmt fname packageName decls acc = .ok acc') :
    acc'.structs.map proj =
      acc.structs.map proj ++
        (structSpecs decls).map (fun spec => proj (structOfSpec fmt packageName spec)) := by
  induction decls generalizing acc with
  | nil =>
    simp only [declsLoop, Result.ok.injEq] at h
    subst h
    simp [structSpecs]
  | cons d rest ih =>
    unfold declsLoop at h
    cases hstep : declStep fmt fname packageName acc d with
    | ok acc₁ =>
      rw [hstep] at h
      have hsplit : d :: rest = [d] ++ rest := rfl
      rw [ih acc₁ h, declStep_map_proj proj hproj fmt fname packageName acc acc₁ d hstep, hsplit,
        structSpecs_append]
      simp
    | error e => rw [hstep] at h; cases h
    | panic msg => rw [hstep] at h; cases h

/-- C25. For a parsed file whose method receivers are identifiers or pointers to
identifiers, `GetStructsFile` returns, and the extracted Structs are, for every top-level
struct declaration in order, the Struct of that name whose Fields are, for every field
declaration in order and every name `x` it declares in order, the Field named `x` with
the literal and the referenced names of the declared type. A declaration with `k` names
gives `k` Fields with the same type; a declaration without name (an embedded field) gives
no Field, and no draft edge: the draft edges are enumerated over the declared names
too. -/
theorem GetStructsFile_fields_per_name (fmt : ast.Expr → String) (f : ast.File)
    (fname p : String) (hrecv : ∀ d ∈ f.Decls, receiverOK d = true) :
    ∃ file edges functions,
      GetStructsFile fmt f fname p = .ok (file, edges, functions) ∧
      file.Structs.map (fun st => (st.Name, st.Fields)) =
        (structSpecs f.Decls).map (fun spec =>
          (spec.1, spec.2.flatMap (fun field =>
            field.Names.map (fun x =>
              ({ Name := x,
                 Typ := { Literal := fmt field.Typ,
                          Structs := (GetTypes field.Typ p).1 } } : Field))))) ∧
      edges =
        (structSpecs f.Decls).flatMap (fun spec =>
          spec.2.flatMap (fun field =>
            field.Names.flatMap (fun x =>
              (GetTypes field.Typ p).2.map (fun node =>
                ({ From := { FieldTypeName := x, StructName := spec.1, FileName := fname,
                             PackageName := p },
                   To := node } : Edge))))) := by
  obtain ⟨acc, hloop, _⟩ := declsLoop_of_receiverOK fmt fname p f.Decls
    { structs := [], edges := [], globalFunctions := [] } hrecv
  have hedges := declsLoop_edges fmt fname p f.Decls _ acc hloop
  have hfields := declsLoop_map_proj (fun st : Struct => (st.Name, st.Fields))
    (fun _ _ => rfl) fmt fname p f.Decls _ acc hloop
  refine ⟨{ Name := fname, Structs := acc.structs }, acc.edges, acc.globalFunctions, ?_, ?_, ?_⟩
  · simp only [GetStructsFile, hloop]
  · simp only [hfields, List.map_nil, List.nil_append]
    rfl
  · simp only [hedges, List.nil_append]
    rfl

/-- The fields of a file that declares `type T struct { a, b int; B; c *B }`. -/
theorem GetStructsFile_fields_per_name_witness :
    (∀ d ∈ [declMixedFields], receiverOK d = true) ∧
    ∃ file edges functions,
      GetStructsFile printSimple ⟨"p", [declMixedFields]⟩ "t.go" "p" =
        .ok (file, edges, functions) ∧
      file.Structs.map (fun st => (st.Name, st.Fields)) =
        (structSpecs (ast.File.mk "p" [declMixedFields]).Decls).map (fun spec =>
          (spec.1, spec.2.flatMap (fun field =>
            field.Names.map (fun x =>
              ({ Name := x,
                 Typ := { Literal := printSimple field.Typ,
                          Structs := (GetTypes field.Typ "p").1 } } : Field))))) ∧
      edges =
        (structSpecs (ast.File.mk "p" [declMixedFields]).Decls).flatMap (fun spec =>
          spec.2.flatMap (fun field =>
            field.Names.flatMap (fun x =>
              (GetTypes field.Typ "p").2.map (fun node =>
                ({ From := { FieldTypeName := x, StructName := spec.1, FileName := "t.go",
                             PackageName := "p" },
                   To := node } : Edge))))) :=
  have h : ∀ d ∈ [declMixedFields], receiverOK d = true := by
    intro d hd
    rw [List.mem_singleton.1 hd]
    rfl
  ⟨h, GetStructsFile_fields_per_name printSimple ⟨"p", [declMixedFields]⟩ "t.go" "p" h⟩

/-- Extraction of `type T struct { a, b int; B; c *B }`: the Fields `a` and `b` with the
literal `int`, no Field and no edge for the embedded `B`, the Field `c` and its edge. -/
theorem GetStructsFile_fields_example :
    GetStructsFile printSimple ⟨"p", [declMixedFields]⟩ "t.go" "p" =
      .ok ({ Name := "t.go",
             Structs := [{ Name := "T",
                           Fields := [{ Name := "a", Typ := { Literal := "int", Structs := [] } },
                                      { Name := "b", Typ := { Literal := "int", Structs := [] } },
                                      { Name := "c",
                                        Typ := { Literal := "*B", Structs := ["B"] } }],
                           Methods := [] }] },
        [{ From := { FieldTypeName := "c", StructName := "T", FileName := "t.go",
                     PackageName := "p" },
           To := referenceNode "B" "p" }],
        []) := by
  rfl

/-- C23. A method whose receiver type is a generic instantiation (`Stack[T]`,
`*Stack[T]`) or a parenthesized type makes `GetStructsFile` panic on a failed type
assertion; in general the extraction returns no result for a file with a method whose
receiver type is neither an identifier nor a pointer to an identifier. -/
theorem GetStructsFile_panics_on_receiver :
    GetStructsFile printSimple ⟨"p", [declImport, .FuncDecl funcDeclPush]⟩ "s.go" "p" =
      .panic "interface conversion: ast.Expr is not *ast.Ident" ∧
    GetStructsFile printSimple ⟨"p", [declImport, .FuncDecl funcDeclLen]⟩ "s.go" "p" =
      .panic "interface conversion: ast.Expr is not *ast.Ident" ∧
    GetStructsFile printSimple ⟨"p", [declEmptyA, .FuncDecl funcDeclParen]⟩ "a.go" "p" =
      .panic "interface conversion: ast.Expr is not *ast.Ident" ∧
    (∀ (fmt : ast.Expr → String) (f : ast.File) (fname p : String),
      (∃ d ∈ f.Decls, receiverOK d = false) →
      ∀ result, GetStructsFile fmt f fname p ≠ .ok result) := by
  refine ⟨rfl, rfl, rfl, ?_⟩
  rintro fmt f fname p ⟨d, hd, hbad⟩ ⟨file, edges, functions⟩ hok
  obtain ⟨acc, hloop, _⟩ := (GetStructsFile_ok_iff fmt f fname p file edges functions).1 hok
  have := receiverOK_of_declsLoop fmt fname p f.Decls _ acc hloop d hd
  rw [hbad] at this
  cases this

/-- C24. The registry holds `b.go` with an import block and `type B struct{}`; the edit
of `b.go` has a field of type literal `chan<>`. `clientFileToAST` returns the error, and
the file held by the registry has lost its struct declaration: its declaration list is
the import block alone. In general the file is left with `removeStructDecls` applied
whenever a literal does not parse. -/
theorem clientFileToAST_error_strips_registry (render : ast.File → String) :
    registeredFile worldAB.pkgs "p" "b.go" = some ⟨"p", [declImport, declB]⟩ ∧
    clientFileToAST parseSimple editedBadB (some ⟨"p", [declImport, declB]⟩) =
      (some ⟨"p", [declImport]⟩, .error (.fieldType "cannot parse chan<>")) ∧
    (WriteClientPackages parseSimple render worldAB
      [{ Name := "p", Files := [editedBadB] }]).2 = .error (.fieldType "cannot parse chan<>") ∧
    registeredFile
      (WriteClientPackages parseSimple render worldAB
        [{ Name := "p", Files := [editedBadB] }]).1.pkgs "p" "b.go" =
      some ⟨"p", [declImport]⟩ ∧
    (∀ (parseExpr : String → Except String ast.Expr) (clientfile : File) (f : ast.File),
      ¬ LiteralsParse parseExpr clientfile →
      (clientFileToAST parseExpr clientfile (some f)).1 =
        some { f with Decls := removeStructDecls f.Decls }) := by
  refine ⟨rfl, rfl, rfl, rfl, ?_⟩
  intro parseExpr clientfile f hbad
  obtain ⟨err, herr⟩ := clientFileToAST_of_not_parse parseExpr clientfile f hbad
  rw [herr]

/-- C26. The file has an import block, `type A struct{}` and the method
`func (a *A) M() int`; the File extracted from it has the struct `A` with the method `M`.
Splicing it back keeps the original method declaration and adds a stub for `M`, so the
file declares `M` twice and the re-extracted struct `A` has the methods `M`, `M`. -/
theorem roundtrip_duplicates_methods :
    GetStructsFile printSimple fileWithMethod "a.go" "p" = .ok (extractedWithMethod, [], []) ∧
    clientFileToAST parseSimple extractedWithMethod (some fileWithMethod) =
      (some ⟨"p", [declImport, structDecl "A" [],
                   methodDecl "A" "M" [.mk [] (.Ident "int")], .FuncDecl funcDeclM]⟩,
        .ok ()) ∧
    GetStructsFile printSimple
        ⟨"p", [declImport, structDecl "A" [],
               methodDecl "A" "M" [.mk [] (.Ident "int")], .FuncDecl funcDeclM]⟩ "a.go" "p" =
      .ok ({ Name := "a.go",
             Structs := [{ Name := "A", Fields := [],
                           Methods := [{ Name := "M",
                                         ReturnType := [{ Literal := "int", Structs := [] }] },
                                       { Name := "M",
                                         ReturnType := [{ Literal := "int",
                                                          Structs := [] }] }] }] },
        [], []) ∧
    extractedWithMethod.Structs.map (fun st => st.Methods.map (fun m => m.Name)) = [["M"]] :=
  ⟨rfl, rfl, rfl, rfl⟩

end parse
